import Mathlib

/-!
A BASIC interpreter: program store, expression parser, statements.

Shallow embedding of `program.cpp`, `parser.cpp`, `exp.cpp`, `statement.cpp`,
`evalstate.cpp` and the line-editing and execution parts of `Basic.cpp`.

Modelling conventions
* C++ `int` line numbers are `Int` (no line number used here is near `2^31`).
* C++ `double` values are exact rationals; the two agree on every computation
  whose operands and results are integers of magnitude below `2^53`.
* `Entry *` pointers are addresses into an explicit heap; `NULL` is `none`.
* A call of `error(...)` is `Res.error`; dereferencing `NULL` or a freed cell, or
  reading an uninitialised local, is `Res.undef`; a loop cut off by the step
  bound of the model is `Res.nofuel`.
-/

namespace Basic

/-! ## Results -/

/-- Outcome of running a piece of the interpreter. -/
inductive Res (α : Type) where
  | ok (a : α)
  | error (msg : String)
  | undef
  | nofuel
  deriving DecidableEq, Repr

/-- Sequencing of outcomes: the first failure wins. -/
def Res.bind {α β : Type} (r : Res α) (f : α → Res β) : Res β :=
  match r with
  | .ok a => f a
  | .error m => .error m
  | .undef => .undef
  | .nofuel => .nofuel

/-- Predicate: the outcome is a raised `error(...)`. -/
def Res.isError {α : Type} : Res α → Bool
  | .error _ => true
  | _ => false

/-! ## Expressions and statements (exp.cpp, statement.h) -/

/-- Expression tree: `ConstantExp`, `IdentifierExp`, `CompoundExp`. -/
inductive Expression where
  | ConstantExp (value : Rat)
  | IdentifierExp (name : String)
  | CompoundExp (op : String) (lhs rhs : Expression)
  deriving DecidableEq, Repr

/-- Statement objects with the instance variables of each subclass. -/
inductive Statement where
  | RemStmt (str : String)
  | LetStmt (var : String) (exp : Expression)
  | PrintStmt (comment : String) (vec : List Expression)
  | InputStmt (var : String)
  | GotoStmt (next : String)
  | IfStmt (expL : Expression) (op : String) (expR : Expression) (next : String)
  | EndStmt
  deriving DecidableEq, Repr

/-! ## The program store (program.cpp, programpriv.h) -/

/-- Heap address of an `Entry`. -/
abbrev Addr := Nat

/-- The `Entry` struct of programpriv.h. -/
structure Entry where
  lineNum : Int
  command : String
  stmt : Option Statement
  next : Option Addr
  deriving DecidableEq, Repr

/-- Modelled from the spec: the library `HashMap<int, Entry*>` (hashmap.h is not
part of the sources), as an association list with one pair per key. -/
abbrev HashMap := List (Int × Option Addr)

/-- Library `containsKey`. -/
def HashMap.containsKey (m : HashMap) (k : Int) : Bool :=
  m.any (fun kv => decide (kv.1 = k))

/-- Value stored under a key, when the key is present. -/
def HashMap.find (m : HashMap) (k : Int) : Option (Option Addr) :=
  match m with
  | [] => none
  | kv :: rest => if kv.1 = k then some kv.2 else HashMap.find rest k

/-- Library `put` (also `map[k] = v`). -/
def HashMap.put (m : HashMap) (k : Int) (v : Option Addr) : HashMap :=
  if HashMap.containsKey m k then
    m.map (fun kv => if kv.1 = k then (k, v) else kv)
  else
    (k, v) :: m

/-- Library `operator[]` used as an rvalue: the stored pointer, and the map, which
gains the key with the default value `NULL` when the key was absent (the
behaviour of `operator[]` in the Stanford collections). -/
def HashMap.index (m : HashMap) (k : Int) : Option Addr × HashMap :=
  match HashMap.find m k with
  | some v => (v, m)
  | none => (none, (k, none) :: m)

/-- Library `remove`. -/
def HashMap.remove (m : HashMap) (k : Int) : HashMap :=
  m.filter (fun kv => !decide (kv.1 = k))

/-- Library `size`. -/
def HashMap.size (m : HashMap) : Nat := m.length

/-- Library `isEmpty`. -/
def HashMap.isEmpty (m : HashMap) : Bool := m.length == 0

/-- A `Program` object: the heap cells allocated by `new Entry` (`none` once
deleted), the map and `firstLineNum`. -/
structure Program where
  heap : List (Option Entry)
  map : HashMap
  firstLineNum : Int
  deriving DecidableEq, Repr

/-- Constructor `Program::Program`. -/
def Program.new : Program := { heap := [], map := [], firstLineNum := -1 }

/-- Contents of the cell at an address; `none` for a freed or unallocated cell. -/
def Program.read (p : Program) (a : Addr) : Option Entry :=
  (p.heap[a]?).join

/-- Dereference of an `Entry *`; `none` when the pointer is `NULL` or dangling. -/
def Program.deref (p : Program) (ptr : Option Addr) : Option Entry :=
  match ptr with
  | none => none
  | some a => p.read a

/-- Store through an `Entry *` that points to a live cell. -/
def Program.write (p : Program) (a : Addr) (e : Entry) : Program :=
  { p with heap := p.heap.set a (some e) }

/-- The pointer `map[k]` read where the source has either checked `containsKey`
or dereferences the result at once (an absent key yields `NULL`). -/
def Program.entryAt (p : Program) (k : Int) : Option Addr :=
  (HashMap.find p.map k).join

/-- Private `Program::insertEntry`: allocates the new entry, copies the `next`
pointer of an existing entry with the same number, and stores it in the map. -/
def Program.insertEntry (p : Program) (lineNumber : Int) (line : String) :
    Res (Addr × Program) :=
  let temp := p.heap.length
  if !HashMap.containsKey p.map lineNumber then
    let e : Entry := { lineNum := lineNumber, command := line, stmt := none, next := none }
    .ok (temp, { p with heap := p.heap ++ [some e],
                        map := HashMap.put p.map lineNumber (some temp) })
  else
    match p.deref (p.entryAt lineNumber) with
    | none => .undef
    | some old =>
      let e : Entry := { lineNum := lineNumber, command := line, stmt := none,
                         next := old.next }
      .ok (temp, { p with heap := p.heap ++ [some e],
                          map := HashMap.put p.map lineNumber (some temp) })

/-- Loop of `findPrevLine`, with `c` the number of indices `c-1, ..., 0` left. -/
def findPrevFrom (m : HashMap) : Nat → Int
  | 0 => -1
  | c + 1 => if HashMap.containsKey m (c : Int) then (c : Int) else findPrevFrom m c

/-- Private `Program::findPrevLine`: scans `lineNumber-1` down to `0`. -/
def Program.findPrevLine (p : Program) (lineNumber : Int) : Int :=
  findPrevFrom p.map lineNumber.toNat

/-- Private `Program::insertInBetween`. The `Entry` allocated into `store` and
overwritten on the next line is never read and is left out. -/
def Program.insertInBetween (p : Program) (lineNumber prevLineNumber : Int)
    (temp : Addr) : Res Program :=
  if lineNumber > p.firstLineNum then
    match p.entryAt prevLineNumber with
    | none => .undef
    | some pa =>
      match p.read pa with
      | none => .undef
      | some prevE =>
        let linked : Res Program :=
          match prevE.next with
          | none => .ok p
          | some store =>
            match p.read store, p.entryAt lineNumber with
            | some storeE, some na =>
              match p.read na with
              | none => .undef
              | some nE =>
                if storeE.lineNum ≠ nE.lineNum then
                  .ok (p.write na { nE with next := some store })
                else .ok p
            | _, _ => .undef
        linked.bind (fun p1 =>
          match p1.read pa with
          | none => .undef
          | some prevE1 => .ok (p1.write pa { prevE1 with next := some temp }))
  else
    .ok p

/-- Private `Program::connectEntry`. -/
def Program.connectEntry (p : Program) (lineNumber prevLineNumber : Int)
    (temp : Addr) : Res Program :=
  if lineNumber < p.firstLineNum then
    let (firstPtr, m1) := HashMap.index p.map p.firstLineNum
    let p1 : Program := { p with map := m1 }
    match p1.entryAt lineNumber with
    | none => .undef
    | some na =>
      match p1.read na with
      | none => .undef
      | some nE =>
        .ok { (p1.write na { nE with next := firstPtr }) with firstLineNum := lineNumber }
  else
    p.insertInBetween lineNumber prevLineNumber temp

/-- Method `Program::addSourceLine`. -/
def Program.addSourceLine (p : Program) (lineNumber : Int) (line : String) :
    Res Program :=
  let p0 : Program :=
    if p.firstLineNum = -1 then { p with firstLineNum := lineNumber } else p
  (p0.insertEntry lineNumber line).bind (fun r =>
    let temp := r.1
    let p1 := r.2
    let prevLineNumber := p1.findPrevLine lineNumber
    p1.connectEntry lineNumber prevLineNumber temp)

/-- Loop of `removeEntry`: indices `c-1, ..., 0`; `acc` is `lastIndex`, `none`
while it is still uninitialised. -/
def Program.removeLoop (p : Program) (lineNumber : Int) : Nat → Option Int → Res (Option Int)
  | 0, acc => .ok acc
  | c + 1, acc =>
    if HashMap.containsKey p.map (c : Int) then
      match p.deref (p.entryAt (c : Int)) with
      | none => .undef
      | some e =>
        match e.next with
        | none => Program.removeLoop p lineNumber c acc
        | some nx =>
          match p.read nx with
          | none => .undef
          | some ne =>
            if ne.lineNum = lineNumber then Program.removeLoop p lineNumber c (some (c : Int))
            else Program.removeLoop p lineNumber c acc
    else Program.removeLoop p lineNumber c acc

/-- Private `Program::removeEntry`. -/
def Program.removeEntry (p : Program) (lineNumber : Int) : Res Program :=
  let relinked : Res Program :=
    if lineNumber ≠ p.firstLineNum then
      (p.removeLoop lineNumber lineNumber.toNat none).bind (fun lastIndex =>
        match lastIndex with
        | none => .undef
        | some li =>
          match p.entryAt li, p.deref (p.entryAt lineNumber) with
          | some la, some nE =>
            match p.read la with
            | none => .undef
            | some lE => .ok (p.write la { lE with next := nE.next })
          | _, _ => .undef)
    else if HashMap.size p.map ≠ 1 then
      match p.deref (p.entryAt lineNumber) with
      | none => .undef
      | some nE =>
        match p.deref nE.next with
        | none => .undef
        | some nx => .ok { p with firstLineNum := nx.lineNum }
    else .ok p
  relinked.bind (fun p1 =>
    match p1.entryAt lineNumber with
    | none => .undef
    | some na =>
      match p1.read na with
      | none => .undef
      | some _ =>
        .ok { p1 with heap := p1.heap.set na none,
                      map := HashMap.remove p1.map lineNumber })

/-- Method `Program::removeSourceLine`. -/
def Program.removeSourceLine (p : Program) (lineNumber : Int) : Res Program :=
  if HashMap.containsKey p.map lineNumber then p.removeEntry lineNumber else .ok p

/-- Method `Program::getSourceLine`. -/
def Program.getSourceLine (p : Program) (lineNumber : Int) : Res String :=
  if HashMap.containsKey p.map lineNumber then
    match p.deref (p.entryAt lineNumber) with
    | none => .undef
    | some e => .ok e.command
  else .ok ""

/-- Method `Program::setParsedStatement`. -/
def Program.setParsedStatement (p : Program) (lineNumber : Int) (stmt : Statement) :
    Res Program :=
  if HashMap.containsKey p.map lineNumber then
    match p.entryAt lineNumber with
    | none => .undef
    | some a =>
      match p.read a with
      | none => .undef
      | some e => .ok (p.write a { e with stmt := some stmt })
  else .error ("Invalid like number" ++ toString lineNumber)

/-- Method `Program::getParsedStatement`; the returned pointer may be `NULL`. -/
def Program.getParsedStatement (p : Program) (lineNumber : Int) :
    Res (Option Statement) :=
  if HashMap.containsKey p.map lineNumber then
    match p.deref (p.entryAt lineNumber) with
    | none => .undef
    | some e => .ok e.stmt
  else .error ("Invalid line number: " ++ toString lineNumber)

/-- Method `Program::getFirstLineNumber`. -/
def Program.getFirstLineNumber (p : Program) : Int :=
  if !HashMap.isEmpty p.map then p.firstLineNum else -1

/-- Method `Program::getNextLineNumber`. -/
def Program.getNextLineNumber (p : Program) (lineNumber : Int) : Res Int :=
  if !HashMap.containsKey p.map lineNumber then
    let prevLineNumber := p.findPrevLine lineNumber
    if prevLineNumber = 0 then
      match p.deref (p.entryAt p.firstLineNum) with
      | none => .undef
      | some fe => .ok fe.lineNum
    else
      match p.deref (p.entryAt prevLineNumber) with
      | none => .undef
      | some pe =>
        match pe.next with
        | some nx =>
          match p.read nx with
          | none => .undef
          | some ne => .ok ne.lineNum
        | none => .ok (-1)
  else
    match p.deref (p.entryAt lineNumber) with
    | none => .undef
    | some e =>
      match e.next with
      | some nx =>
        match p.read nx with
        | none => .undef
        | some ne => .ok ne.lineNum
      | none => .ok (-1)

/-- The traversal loop of `listProgram`, `saveFile` and `run`:
`while (index != -1) { visit index; index = getNextLineNumber(index); }`. -/
def Program.traverseFrom (p : Program) : Nat → Int → Res (List Int)
  | fuel, index =>
    if index = -1 then .ok []
    else
      match fuel with
      | 0 => .nofuel
      | f + 1 =>
        (p.getNextLineNumber index).bind (fun nx =>
          (Program.traverseFrom p f nx).bind (fun l => .ok (index :: l)))

/-- Traversal `getFirstLineNumber, getNextLineNumber, ...` until `-1`. -/
def Program.traversal (p : Program) (fuel : Nat) : Res (List Int) :=
  p.traverseFrom fuel p.getFirstLineNumber

/-- A sequence of `addSourceLine` calls. -/
def Program.addLines (p : Program) : List (Int × String) → Res Program
  | [] => .ok p
  | (n, t) :: rest => (p.addSourceLine n t).bind (fun p1 => Program.addLines p1 rest)

/-! ## The token scanner (library `TokenScanner`, as configured by `processLine`) -/

/-- Modelled from the spec: the pending tokens of a library `TokenScanner`
(tokenscanner.h is not part of the sources) with whitespace ignored: the saved
tokens, most recent first, followed by the tokens still to be read. -/
abbrev Scanner := List String

/-- Library `nextToken`: the empty string once the input is exhausted. -/
def nextToken (s : Scanner) : String × Scanner :=
  match s with
  | [] => ("", [])
  | t :: ts => (t, ts)

/-- Library `saveToken`. -/
def saveToken (t : String) (s : Scanner) : Scanner := t :: s

/-- Library `hasMoreTokens`: reads a token, saves it and tests it against `""`. -/
def hasMoreTokens (s : Scanner) : Bool × Scanner :=
  let r := nextToken s
  (r.1 != "", saveToken r.1 r.2)

/-- Library enumeration `TokenType`. -/
inductive TokenType where
  | EOF | SEPARATOR | WORD | NUMBER | STRING | OPERATOR
  deriving DecidableEq, Repr

/-- Modelled from the spec: library `getTokenType`, which classifies a token by
its first character. -/
def getTokenType (token : String) : TokenType :=
  match token.toList with
  | [] => .EOF
  | ch :: rest =>
    if ch.toNat = 32 ∨ (9 ≤ ch.toNat ∧ ch.toNat ≤ 13) then .SEPARATOR
    else if ch.toNat = 34 ∨ (ch.toNat = 39 ∧ rest ≠ []) then .STRING
    else if ch.isDigit then .NUMBER
    else if ch.isAlphanum then .WORD
    else .OPERATOR

/-! ## The expression parser (parser.cpp) -/

/-- Function `precedence`. -/
def precedence (token : String) : Nat :=
  if token = "+" ∨ token = "-" then 1
  else if token = "*" ∨ token = "/" then 2
  else 0

section Parser

/- The library function `stringToReal` (strlib.h is not part of the sources) is a
parameter of the parser: it returns the value of a numeric token or raises an
error. -/
variable (stringToReal : String → Res Rat)

mutual

/-- Function `readE(scanner, prec)`; every call and loop round uses one unit of
fuel. -/
def readE (fuel : Nat) (prec : Nat) (s : Scanner) : Res (Expression × Scanner) :=
  match fuel with
  | 0 => .nofuel
  | f + 1 =>
    let r := nextToken s
    let s2 := saveToken r.1 r.2
    let s3 := if r.1 = "-" then saveToken "0" s2 else s2
    match readT f s3 with
    | .ok (exp, s4) => readELoop f prec exp s4
    | .error m => .error m
    | .undef => .undef
    | .nofuel => .nofuel

/-- The `while (true)` loop of `readE`, with `exp` the tree built so far. -/
def readELoop (fuel : Nat) (prec : Nat) (exp : Expression) (s : Scanner) :
    Res (Expression × Scanner) :=
  match fuel with
  | 0 => .nofuel
  | f + 1 =>
    let r := nextToken s
    let newPrec := precedence r.1
    if newPrec ≤ prec then .ok (exp, saveToken r.1 r.2)
    else
      match readE f newPrec r.2 with
      | .ok (rhs, s2) => readELoop f prec (.CompoundExp r.1 exp rhs) s2
      | .error m => .error m
      | .undef => .undef
      | .nofuel => .nofuel

/-- Function `readT`. -/
def readT (fuel : Nat) (s : Scanner) : Res (Expression × Scanner) :=
  match fuel with
  | 0 => .nofuel
  | f + 1 =>
    let r := nextToken s
    let type := getTokenType r.1
    if type = .WORD then .ok (.IdentifierExp r.1, r.2)
    else if type = .NUMBER then
      match stringToReal r.1 with
      | .ok v => .ok (.ConstantExp v, r.2)
      | .error m => .error m
      | .undef => .undef
      | .nofuel => .nofuel
    else if r.1 ≠ "(" then .error ("Illegal term in expression" ++ r.1)
    else
      match readE f 0 r.2 with
      | .ok (exp, s2) =>
        let r2 := nextToken s2
        if r2.1 ≠ ")" then .error "Unbalanced parentheses in expression"
        else .ok (exp, r2.2)
      | .error m => .error m
      | .undef => .undef
      | .nofuel => .nofuel

end

/-- Function `parseExp`. -/
def parseExp (fuel : Nat) (s : Scanner) : Res Expression :=
  match readE stringToReal fuel 0 s with
  | .ok (exp, s1) =>
    let h := hasMoreTokens s1
    if h.1 then .error ("parseExp: Found extra token: " ++ (nextToken h.2).1)
    else .ok exp
  | .error m => .error m
  | .undef => .undef
  | .nofuel => .nofuel

/-! ## Statement constructors (statement.cpp); the drawing calls are left out -/

/-- The check `if (scanner.hasMoreTokens()) error("Extraneous token " + ...)`
that ends most constructors. -/
def checkExtraneous (s : Scanner) (stmt : Statement) : Res Statement :=
  let h := hasMoreTokens s
  if h.1 then .error ("Extraneous token " ++ (nextToken h.2).1) else .ok stmt

/-- Constructor `RemStmt::RemStmt`: `while (hasMoreTokens) str += nextToken + " "`. -/
def remLoop : Scanner → String → String
  | [], str => str
  | t :: ts, str => if t != "" then remLoop ts (str ++ t ++ " ") else str

/-- Loop of `PrintStmt::testInitComment` after the opening quote mark, entered
with `temp` already read. -/
def commentLoop (fuel : Nat) (temp : String) (s : Scanner) (comment : String) :
    Res (String × Scanner) :=
  match fuel with
  | 0 => .nofuel
  | f + 1 =>
    if temp ≠ "\"" then
      let r := nextToken s
      commentLoop f r.1 r.2 (comment ++ temp ++ " ")
    else .ok (comment, s)

/-- Method `PrintStmt::testInitComment`: the comment and the expressions read. -/
def testInitComment (fuel : Nat) (s : Scanner) (test : String) :
    Res (String × List Expression × Scanner) :=
  if test = "\"" then
    let r := nextToken s
    match commentLoop fuel r.1 r.2 "" with
    | .ok (comment, s1) => .ok (comment, [], s1)
    | .error m => .error m
    | .undef => .undef
    | .nofuel => .nofuel
  else
    match readE stringToReal fuel 0 (saveToken test s) with
    | .ok (exp, s1) => .ok ("", [exp], s1)
    | .error m => .error m
    | .undef => .undef
    | .nofuel => .nofuel

/-- Method `PrintStmt::addRest`: `while (nextToken() == ",") vec.add(readE(scanner))`. -/
def addRest (fuel : Nat) (s : Scanner) (vec : List Expression) :
    Res (List Expression × Scanner) :=
  match fuel with
  | 0 => .nofuel
  | f + 1 =>
    let r := nextToken s
    if r.1 = "," then
      match readE stringToReal f 0 r.2 with
      | .ok (exp, s1) => addRest f s1 (vec ++ [exp])
      | .error m => .error m
      | .undef => .undef
      | .nofuel => .nofuel
    else .ok (vec, r.2)

/-- Constructor `PrintStmt::PrintStmt`. -/
def mkPrintStmt (fuel : Nat) (s : Scanner) : Res Statement :=
  let r := nextToken s
  match testInitComment stringToReal fuel r.2 r.1 with
  | .ok (comment, vec, s1) =>
    match addRest stringToReal fuel s1 vec with
    | .ok (vec1, s2) => checkExtraneous s2 (.PrintStmt comment vec1)
    | .error m => .error m
    | .undef => .undef
    | .nofuel => .nofuel
  | .error m => .error m
  | .undef => .undef
  | .nofuel => .nofuel

/-- Constructor `RemStmt::RemStmt`. -/
def mkRemStmt (s : Scanner) : Res Statement :=
  .ok (.RemStmt (remLoop s ""))

/-- Constructor `InputStmt::InputStmt`. -/
def mkInputStmt (s : Scanner) : Res Statement :=
  let r := nextToken s
  if getTokenType r.1 ≠ .WORD then .error "Only letters allowed."
  else checkExtraneous r.2 (.InputStmt r.1)

/-- Constructor `LetStmt::LetStmt`. -/
def mkLetStmt (fuel : Nat) (s : Scanner) : Res Statement :=
  let r := nextToken s
  let o := nextToken r.2
  if o.1 ≠ "=" then .error ("Illegal operator: " ++ o.1)
  else
    match readE stringToReal fuel 0 o.2 with
    | .ok (exp, s1) => checkExtraneous s1 (.LetStmt r.1 exp)
    | .error m => .error m
    | .undef => .undef
    | .nofuel => .nofuel

/-- Constructor `GotoStmt::GotoStmt`. -/
def mkGotoStmt (s : Scanner) : Res Statement :=
  let r := nextToken s
  checkExtraneous r.2 (.GotoStmt r.1)

/-- Constructor `IfStmt::IfStmt` with `IfStmt::storeExp`. -/
def mkIfStmt (fuel : Nat) (s : Scanner) : Res Statement :=
  match readE stringToReal fuel 0 s with
  | .ok (expL, s1) =>
    let o := nextToken s1
    match readE stringToReal fuel 0 o.2 with
    | .ok (expR, s2) =>
      let t := nextToken s2
      if t.1 ≠ "THEN" ∧ t.1 ≠ "then" then .error "Incorrect command format."
      else
        let n := nextToken t.2
        if getTokenType n.1 ≠ .NUMBER then
          .error "Condition result needs to be an integer line number"
        else checkExtraneous n.2 (.IfStmt expL o.1 expR n.1)
    | .error m => .error m
    | .undef => .undef
    | .nofuel => .nofuel
  | .error m => .error m
  | .undef => .undef
  | .nofuel => .nofuel

/-- Constructor `EndStmt::EndStmt`; the line feed it writes to `cout` is left
out. -/
def mkEndStmt (s : Scanner) : Res Statement :=
  checkExtraneous s .EndStmt

/-- Function `parseStatement`. -/
def parseStatement (fuel : Nat) (s : Scanner) : Res Statement :=
  let r := nextToken s
  let statement := r.1
  if statement = "REM" ∨ statement = "rem" then mkRemStmt r.2
  else if statement = "LET" ∨ statement = "let" then mkLetStmt stringToReal fuel r.2
  else if statement = "PRINT" ∨ statement = "print" then mkPrintStmt stringToReal fuel r.2
  else if statement = "INPUT" ∨ statement = "input" then mkInputStmt r.2
  else if statement = "GOTO" ∨ statement = "goto" then mkGotoStmt r.2
  else if statement = "IF" ∨ statement = "if" then mkIfStmt stringToReal fuel r.2
  else if statement = "END" ∨ statement = "end" then mkEndStmt r.2
  else if getTokenType statement = .WORD then
    mkLetStmt stringToReal fuel (saveToken statement r.2)
  else .error ("Invald statement: " ++ statement)

/-! ## Line editing (Basic.cpp) -/

/-- Function `processCode`, called with the scanner positioned after the line
number. The `Program` is passed by reference, so the store left behind is
returned together with the outcome, also when an error is raised. -/
def processCode (fuel : Nat) (lineNum : Int) (line : String) (scanner : Scanner)
    (program : Program) : Res Unit × Program :=
  if (hasMoreTokens scanner).1 then
    match program.addSourceLine lineNum line with
    | .ok p1 =>
      match parseStatement stringToReal fuel (hasMoreTokens scanner).2 with
      | .ok stmt =>
        match p1.setParsedStatement lineNum stmt with
        | .ok p2 => (.ok (), p2)
        | .error m => (.error m, p1)
        | .undef => (.undef, p1)
        | .nofuel => (.nofuel, p1)
      | .error m => (.error m, p1)
      | .undef => (.undef, p1)
      | .nofuel => (.nofuel, p1)
    | .error m => (.error m, program)
    | .undef => (.undef, program)
    | .nofuel => (.nofuel, program)
  else
    match program.removeSourceLine lineNum with
    | .ok p1 => (.ok (), p1)
    | .error m => (.error m, program)
    | .undef => (.undef, program)
    | .nofuel => (.nofuel, program)

end Parser

/-! ## Evaluation state and expression evaluation (evalstate.cpp, exp.cpp) -/

/-- Class `EvalState`: the symbol table (library `Map<string,double>`, one pair
per name) and the `nextLine` register. -/
structure EvalState where
  symbolTable : List (String × Rat)
  nextLine : Int
  deriving DecidableEq, Repr

/-- Method `EvalState::isDefined`. -/
def EvalState.isDefined (st : EvalState) (var : String) : Bool :=
  st.symbolTable.any (fun kv => kv.1 == var)

/-- Method `EvalState::getValue`; only called for defined names. -/
def EvalState.getValue (st : EvalState) (var : String) : Rat :=
  match st.symbolTable.find? (fun kv => kv.1 == var) with
  | some kv => kv.2
  | none => 0

/-- Method `EvalState::setValue`. -/
def EvalState.setValue (st : EvalState) (var : String) (value : Rat) : EvalState :=
  if st.isDefined var then
    { st with symbolTable :=
        st.symbolTable.map (fun kv => if kv.1 = var then (var, value) else kv) }
  else { st with symbolTable := (var, value) :: st.symbolTable }

/-- Virtual method `Expression::eval`. The state is passed by reference, so it
is returned together with the outcome. -/
def eval : Expression → EvalState → Res Rat × EvalState
  | .ConstantExp value, st => (.ok value, st)
  | .IdentifierExp name, st =>
    if !st.isDefined name then (.error (name ++ " is undefined"), st)
    else (.ok (st.getValue name), st)
  | .CompoundExp op lhs rhs, st =>
    if op = "=" then
      match lhs with
      | .IdentifierExp name =>
        match eval rhs st with
        | (.ok val, st1) => (.ok val, st1.setValue name val)
        | (r, st1) => (r, st1)
      | _ => (.error "Illegal variable in assignment", st)
    else
      match eval lhs st with
      | (.ok left, st1) =>
        match eval rhs st1 with
        | (.ok right, st2) =>
          if op = "+" then (.ok (left + right), st2)
          else if op = "-" then (.ok (left - right), st2)
          else if op = "*" then (.ok (left * right), st2)
          else if op = "/" then (.ok (left / right), st2)
          else (.error "Illegal operator in expression", st2)
        | (r, st2) => (r, st2)
      | (r, st1) => (r, st1)

/-- Decimal reading of an unsigned integer token, the instance of `stringToReal`
used for the numeric examples. -/
def readDecimal (token : String) : Res Rat :=
  if token.toList ≠ [] ∧ token.toList.all Char.isDigit then
    .ok ((token.toList.foldl (fun n c => 10 * n + (c.toNat - 48)) 0 : Nat) : Rat)
  else .error "stringToReal: Illegal floating-point format"

/-- Example store: lines 20, 10, 30 added in that order to a new `Program`, with
the statement `END` attached to line 20. -/
def exampleStore : Program :=
  { heap := [some ⟨20, "20 END", some .EndStmt, some 2⟩,
             some ⟨10, "10 REM a", none, some 0⟩,
             some ⟨30, "30 REM c", none, none⟩],
    map := [(30, some 2), (10, some 1), (20, some 0)],
    firstLineNum := 10 }

/-! ## Specification vocabulary for the parser -/

/-- With enough fuel `readT` reads `e` from `s` and leaves `s2`. -/
def ReadsT (stringToReal : String → Res Rat) (s : Scanner) (e : Expression)
    (s2 : Scanner) : Prop :=
  ∃ F, ∀ f, F ≤ f → readT stringToReal f s = .ok (e, s2)

/-- With enough fuel `readE` at threshold `prec` reads `e` from `s` and leaves `s2`. -/
def ReadsE (stringToReal : String → Res Rat) (prec : Nat) (s : Scanner) (e : Expression)
    (s2 : Scanner) : Prop :=
  ∃ F, ∀ f, F ≤ f → readE stringToReal f prec s = .ok (e, s2)

/-- With enough fuel the loop of `readE`, entered with the tree `e0`, ends with
the tree `e` and leaves `s2`. -/
def ReadsLoop (stringToReal : String → Res Rat) (prec : Nat) (e0 : Expression)
    (s : Scanner) (e : Expression) (s2 : Scanner) : Prop :=
  ∃ F, ∀ f, F ≤ f → readELoop stringToReal f prec e0 s = .ok (e, s2)

/-- The tokens `ts` form a term with tree `e`: in front of any further tokens,
`readT` reads exactly `ts` and returns `e`. -/
def ParsesTerm (stringToReal : String → Res Rat) (ts : List String) (e : Expression) :
    Prop :=
  ∀ rest, ReadsT stringToReal (ts ++ rest) e rest

/-- The scanner after `readE` has read the token that ends an expression and
saved it again. -/
def afterLookahead (s : Scanner) : Scanner :=
  saveToken (nextToken s).1 (nextToken s).2

/-- With enough fuel `parseExp` returns `e` for the token list `s`. -/
def ParsesTo (stringToReal : String → Res Rat) (s : Scanner) (e : Expression) : Prop :=
  ∃ F, ∀ f, F ≤ f → parseExp stringToReal f s = .ok e

/-- The evaluation state of the examples: no variable defined. -/
def emptyState : EvalState := { symbolTable := [], nextLine := 0 }

/-- Value of an expression text: `parseExp` followed by `eval` in `emptyState`. -/
def evalText (fuel : Nat) (s : Scanner) : Res Rat :=
  match parseExp readDecimal fuel s with
  | .ok e => (eval e emptyState).1
  | .error m => .error m
  | .undef => .undef
  | .nofuel => .nofuel

/-- The spellings that `parseStatement` compares its first token with. -/
def statementKeywords : List String :=
  ["REM", "rem", "LET", "let", "PRINT", "print", "INPUT", "input",
   "GOTO", "goto", "IF", "if", "END", "end"]

/-! ## Statement execution (statement.cpp, evalstate.cpp); the drawing calls are left out -/

/-- Modelled from the spec: library function `stringToInteger` of strlib.h, which
reads the whole string as a decimal integer with an optional sign and raises an
error for any other text. The strings met here are tokens, without blanks; the
value is not cut to 32 bits. -/
def stringToInteger (str : String) : Res Int :=
  let digits : List Char → Res Int := fun cs =>
    if cs ≠ [] ∧ cs.all Char.isDigit then
      .ok ((cs.foldl (fun n c => 10 * n + (c.toNat - 48)) 0 : Nat) : Int)
    else .error "stringToInteger: Illegal integer format"
  match str.toList with
  | c :: cs =>
    if c.toNat = 45 then (digits cs).bind (fun n => .ok (-n))
    else if c.toNat = 43 then digits cs
    else digits (c :: cs)
  | [] => .error "stringToInteger: Illegal integer format"

/-- Method `EvalState::setNextLine`; the macro `NULL` is the integer 0. -/
def EvalState.setNextLine (st : EvalState) (lineNum : String) : Res EvalState :=
  if lineNum ≠ "NULL" then
    (stringToInteger lineNum).bind (fun n => .ok { st with nextLine := n })
  else .ok { st with nextLine := 0 }

/-- Method `EvalState::getNextLine`. -/
def EvalState.getNextLine (st : EvalState) : Int := st.nextLine

/-- One item written to `cout`: a string, the text `realToString(value)` of a
number, or `endl`. -/
inductive Out where
  | str (s : String)
  | real (value : Rat)
  | endl
  deriving DecidableEq, Repr

/-- Everything a statement acts on: the `EvalState`, the numbers that `getReal`
will hand to the INPUT statements still to come, what has been written to
`cout`, and the line numbers that `run` and `debug` have drawn after
"Current Line:", one for each turn of their loop. -/
structure Machine where
  state : EvalState
  input : List Rat
  output : List Out
  visited : List Int
  deriving DecidableEq, Repr

/-- A call `state.setNextLine(lineNum)` inside a statement. -/
def Machine.setNextLine (m : Machine) (lineNum : String) : Res Unit × Machine :=
  match m.state.setNextLine lineNum with
  | .ok st => (.ok (), { m with state := st })
  | .error msg => (.error msg, m)
  | .undef => (.undef, m)
  | .nofuel => (.nofuel, m)

/-- Method `PrintStmt::printExps`. -/
def printExps : List Expression → Machine → Res Unit × Machine
  | [], m => (.ok (), m)
  | exp :: rest, m =>
    match eval exp m.state with
    | (.ok result, st1) =>
      printExps rest
        { m with state := st1, output := m.output ++ [.real result, .str " "] }
    | (.error msg, st1) => (.error msg, { m with state := st1 })
    | (.undef, st1) => (.undef, { m with state := st1 })
    | (.nofuel, st1) => (.nofuel, { m with state := st1 })

/-- The two operands of a comparison in `IfStmt::processCondition`, the left one
first (C++ leaves the order open; it matters only when both operands fail or
one of them assigns). -/
def evalOperands (expL expR : Expression) (st : EvalState) :
    Res (Rat × Rat) × EvalState :=
  match eval expL st with
  | (.ok left, st1) =>
    match eval expR st1 with
    | (.ok right, st2) => (.ok (left, right), st2)
    | (.error msg, st2) => (.error msg, st2)
    | (.undef, st2) => (.undef, st2)
    | (.nofuel, st2) => (.nofuel, st2)
  | (.error msg, st1) => (.error msg, st1)
  | (.undef, st1) => (.undef, st1)
  | (.nofuel, st1) => (.nofuel, st1)

/-- One `if(op == sym) { if (expL->eval(state) rel expR->eval(state)) return true; }`
of `IfStmt::processCondition`: `ok true` is the `return true`, `ok false` goes
on to the next line of the method. -/
def conditionCase (expL : Expression) (op : String) (expR : Expression)
    (sym : String) (rel : Rat → Rat → Bool) (st : EvalState) : Res Bool × EvalState :=
  if op = sym then
    match evalOperands expL expR st with
    | (.ok lr, st1) => (.ok (rel lr.1 lr.2), st1)
    | (.error msg, st1) => (.error msg, st1)
    | (.undef, st1) => (.undef, st1)
    | (.nofuel, st1) => (.nofuel, st1)
  else (.ok false, st)

/-- Method `IfStmt::processCondition`. -/
def processCondition (expL : Expression) (op : String) (expR : Expression)
    (st : EvalState) : Res Bool × EvalState :=
  match conditionCase expL op expR "=" (fun l r => decide (l = r)) st with
  | (.ok false, st1) =>
    match conditionCase expL op expR ">" (fun l r => decide (l > r)) st1 with
    | (.ok false, st2) => conditionCase expL op expR "<" (fun l r => decide (l < r)) st2
    | r => r
  | r => r

/-- Method `IfStmt::displayResult`. -/
def displayResult (result : Bool) (next : String) (m : Machine) : Res Unit × Machine :=
  if result then m.setNextLine next else m.setNextLine "NULL"

/-- Virtual method `Statement::execute`. With no number left for `getReal`, an
INPUT statement waits for ever, which is rendered as `Res.nofuel`; the prompt
that `getReal` writes is left out. -/
def execute : Statement → Machine → Res Unit × Machine
  | .PrintStmt comment vec, m =>
    match printExps vec { m with output := m.output ++ [.str comment] } with
    | (.ok _, m1) => Machine.setNextLine { m1 with output := m1.output ++ [.endl] } "NULL"
    | (r, m1) => (r, m1)
  | .RemStmt _, m => m.setNextLine "NULL"
  | .InputStmt var, m =>
    match m.input with
    | [] => (.nofuel, m)
    | val :: rest =>
      Machine.setNextLine { m with state := m.state.setValue var val, input := rest } "NULL"
  | .LetStmt var exp, m =>
    match eval exp m.state with
    | (.ok val, st1) => Machine.setNextLine { m with state := st1.setValue var val } "NULL"
    | (.error msg, st1) => (.error msg, { m with state := st1 })
    | (.undef, st1) => (.undef, { m with state := st1 })
    | (.nofuel, st1) => (.nofuel, { m with state := st1 })
  | .GotoStmt next, m => m.setNextLine next
  | .IfStmt expL op expR next, m =>
    match processCondition expL op expR m.state with
    | (.ok result, st1) => displayResult result next { m with state := st1 }
    | (.error msg, st1) => (.error msg, { m with state := st1 })
    | (.undef, st1) => (.undef, { m with state := st1 })
    | (.nofuel, st1) => (.nofuel, { m with state := st1 })
  | .EndStmt, m => m.setNextLine "-1"

/-! ## The execution engine (Basic.cpp) -/

/-- The choice of the next line in the loop of `run`, after the statement of
line `index` has been executed with outcome `r`:
`if(state.getNextLine() != NULL) index = state.getNextLine();
else index = program.getNextLineNumber(index);`. -/
def nextIndex (program : Program) (index : Int) (r : Res Unit × Machine) :
    Res Int × Machine :=
  match r with
  | (.ok _, m1) =>
    if m1.state.getNextLine ≠ 0 then (.ok m1.state.getNextLine, m1)
    else
      match program.getNextLineNumber index with
      | .ok nx => (.ok nx, m1)
      | .error msg => (.error msg, m1)
      | .undef => (.undef, m1)
      | .nofuel => (.nofuel, m1)
  | (.error msg, m1) => (.error msg, m1)
  | (.undef, m1) => (.undef, m1)
  | (.nofuel, m1) => (.nofuel, m1)

/-- One turn of the loop of `run`: draw the line number, fetch and execute the
statement of line `index`, and choose the line to go on with. A line stored
without a statement has the pointer `NULL`, which `run` dereferences. -/
def runStep (program : Program) (index : Int) (m : Machine) : Res Int × Machine :=
  let m0 := { m with visited := m.visited ++ [index] }
  match program.getParsedStatement index with
  | .ok (some stmt) => nextIndex program index (execute stmt m0)
  | .ok none => (.undef, m0)
  | .error msg => (.error msg, m0)
  | .undef => (.undef, m0)
  | .nofuel => (.nofuel, m0)

/-- The loop `while(index != -1) { ... }` of `run`. -/
def runLoop (program : Program) : Nat → Int → Machine → Res Unit × Machine
  | fuel, index, m =>
    if index = -1 then (.ok (), m)
    else
      match fuel with
      | 0 => (.nofuel, m)
      | f + 1 =>
        match runStep program index m with
        | (.ok nx, m1) => runLoop program f nx m1
        | (.error msg, m1) => (.error msg, m1)
        | (.undef, m1) => (.undef, m1)
        | (.nofuel, m1) => (.nofuel, m1)

/-- Function `run`. -/
def run (fuel : Nat) (program : Program) (m : Machine) : Res Unit × Machine :=
  match runLoop program fuel program.getFirstLineNumber m with
  | (.ok _, m1) => (.ok (), { m1 with output := m1.output ++ [.endl] })
  | (r, m1) => (r, m1)

/-- The loop of `debug`: the loop of `run` with `waitForClick()` after each
statement. `clicks` is the number of clicks still to come; with none left the
call waits for ever (`Res.nofuel`). -/
def debugLoop (program : Program) : Nat → Nat → Int → Machine → Res Unit × Machine
  | fuel, clicks, index, m =>
    if index = -1 then (.ok (), m)
    else
      match fuel with
      | 0 => (.nofuel, m)
      | f + 1 =>
        match runStep program index m with
        | (.ok nx, m1) =>
          match clicks with
          | 0 => (.nofuel, m1)
          | c + 1 => debugLoop program f c nx m1
        | (.error msg, m1) => (.error msg, m1)
        | (.undef, m1) => (.undef, m1)
        | (.nofuel, m1) => (.nofuel, m1)

/-- Function `debug`. -/
def debug (fuel clicks : Nat) (program : Program) (m : Machine) : Res Unit × Machine :=
  match debugLoop program fuel clicks program.getFirstLineNumber m with
  | (.ok _, m1) => (.ok (), { m1 with output := m1.output ++ [.endl] })
  | (r, m1) => (r, m1)

/-- The loop of `Program::clear`: returns the store and the value of `index`
when the loop is left. `delete` frees the cell of an entry. -/
def Program.clearLoop : Nat → Program → Int → Res (Program × Int)
  | 0, _, _ => .nofuel
  | f + 1, p, index =>
    if HashMap.size p.map > 0 then
      match p.deref (p.entryAt index) with
      | none => .undef
      | some e =>
        match e.next with
        | none => .ok (p, index)
        | some nx =>
          match p.read nx with
          | none => .undef
          | some ne =>
            match p.entryAt index with
            | none => .undef
            | some a => Program.clearLoop f { p with heap := p.heap.set a none } ne.lineNum
    else .ok (p, index)

/-- Method `Program::clear`. The last `delete map[index]` deletes `NULL` (no
effect) when `index` is not a key. -/
def Program.clear (p : Program) (fuel : Nat) : Res Program :=
  match Program.clearLoop fuel p p.firstLineNum with
  | .ok (p1, index) =>
    match p1.entryAt index with
    | none => .ok { heap := p1.heap, map := [], firstLineNum := -1 }
    | some a =>
      match p1.read a with
      | none => .undef
      | some _ => .ok { heap := p1.heap.set a none, map := [], firstLineNum := -1 }
  | .error msg => .error msg
  | .undef => .undef
  | .nofuel => .nofuel

/-- The commands of `processCommand` that act on the stored program or on the
evaluation state, named by the upper-case first token. -/
inductive Command where
  | RUN
  | DEBUG
  | CLEAR
  deriving DecidableEq, Repr

/-- Function `processCommand` for these commands. Program and state are passed
by reference and are returned with the outcome. -/
def processCommand (fuel clicks : Nat) (firstTerm : Command) (program : Program)
    (m : Machine) : Res Unit × Program × Machine :=
  match firstTerm with
  | .RUN => let r := run fuel program m; (r.1, program, r.2)
  | .DEBUG => let r := debug fuel clicks program m; (r.1, program, r.2)
  | .CLEAR =>
    match program.clear fuel with
    | .ok p1 => (.ok (), p1, m)
    | .error msg => (.error msg, program, m)
    | .undef => (.undef, program, m)
    | .nofuel => (.nofuel, program, m)

/-- The numbered lines of a session, each with its number, its text and the
tokens after the number, handed to `processCode` one after the other; `main`
reports an error of a line and goes on with the next. -/
def enterLines (fuel : Nat) : List (Int × String × Scanner) → Program → Program
  | [], program => program
  | (lineNum, line, scanner) :: rest, program =>
    enterLines fuel rest (processCode readDecimal fuel lineNum line scanner program).2

/-- The machine `m` with the `nextLine` register set to `n`. -/
def Machine.withNextLine (m : Machine) (n : Int) : Machine :=
  { m with state := { m.state with nextLine := n } }

/-- The machine after `j` further turns of the loop of `run` that starts at line
`index`, with the line the loop has come to; `none` when the loop ends or fails
before. -/
def runSteps (program : Program) : Nat → Int → Machine → Option (Int × Machine)
  | 0, index, m => some (index, m)
  | j + 1, index, m =>
    if index = -1 then none
    else
      match runStep program index m with
      | (.ok nx, m1) => runSteps program j nx m1
      | _ => none

/-- Whether every operator of the tree is one of `+ - * /`. -/
def Expression.arithmetic : Expression → Bool
  | .ConstantExp _ => true
  | .IdentifierExp _ => true
  | .CompoundExp op lhs rhs =>
    (op = "+" ∨ op = "-" ∨ op = "*" ∨ op = "/") && lhs.arithmetic && rhs.arithmetic

/-- A machine with no variable bound, no input and nothing written. -/
def startMachine : Machine :=
  { state := emptyState, input := [], output := [], visited := [] }

/-- Example program 10 LET x = 1 / 20 GOTO 40 / 30 LET x = 2 / 40 PRINT x: the store
that entering these four lines leaves. -/
def jumpProgram : Program :=
  { heap := [some ⟨10, "10 LET x = 1", some (.LetStmt "x" (.ConstantExp 1)), some 1⟩,
             some ⟨20, "20 GOTO 40", some (.GotoStmt "40"), some 2⟩,
             some ⟨30, "30 LET x = 2", some (.LetStmt "x" (.ConstantExp 2)), some 3⟩,
             some ⟨40, "40 PRINT x", some (.PrintStmt "" [.IdentifierExp "x"]), none⟩],
    map := [(40, some 3), (30, some 2), (20, some 1), (10, some 0)],
    firstLineNum := 10 }

/-- Example program 10 LET x = 5 / 20 IF x > 3 THEN 40 / 30 PRINT 0 / 40 PRINT 1: the
store that entering these four lines leaves. -/
def branchProgram : Program :=
  { heap := [some ⟨10, "10 LET x = 5", some (.LetStmt "x" (.ConstantExp 5)), some 1⟩,
             some ⟨20, "20 IF x > 3 THEN 40",
               some (.IfStmt (.IdentifierExp "x") ">" (.ConstantExp 3) "40"), some 2⟩,
             some ⟨30, "30 PRINT 0", some (.PrintStmt "" [.ConstantExp 0]), some 3⟩,
             some ⟨40, "40 PRINT 1", some (.PrintStmt "" [.ConstantExp 1]), none⟩],
    map := [(40, some 3), (30, some 2), (20, some 1), (10, some 0)],
    firstLineNum := 10 }

/-- Example program 10 GOTO 0 / 20 PRINT 7. -/
def zeroProgram : Program :=
  { heap := [some ⟨10, "10 GOTO 0", some (.GotoStmt "0"), some 1⟩,
             some ⟨20, "20 PRINT 7", some (.PrintStmt "" [.ConstantExp 7]), none⟩],
    map := [(20, some 1), (10, some 0)],
    firstLineNum := 10 }

/-- Example program 10 GOTO 25 / 20 PRINT 7. -/
def lostProgram : Program :=
  { heap := [some ⟨10, "10 GOTO 25", some (.GotoStmt "25"), some 1⟩,
             some ⟨20, "20 PRINT 7", some (.PrintStmt "" [.ConstantExp 7]), none⟩],
    map := [(20, some 1), (10, some 0)],
    firstLineNum := 10 }

/-- Example program 10 END / 20 PRINT 1. -/
def endProgram : Program :=
  { heap := [some ⟨10, "10 END", some .EndStmt, some 1⟩,
             some ⟨20, "20 PRINT 1", some (.PrintStmt "" [.ConstantExp 1]), none⟩],
    map := [(20, some 1), (10, some 0)],
    firstLineNum := 10 }

/-- Example program 10 LET x = 1 / 20 PRINT y / 30 LET x = 2. -/
def failingProgram : Program :=
  { heap := [some ⟨10, "10 LET x = 1", some (.LetStmt "x" (.ConstantExp 1)), some 1⟩,
             some ⟨20, "20 PRINT y", some (.PrintStmt "" [.IdentifierExp "y"]), some 2⟩,
             some ⟨30, "30 LET x = 2", some (.LetStmt "x" (.ConstantExp 2)), none⟩],
    map := [(30, some 2), (20, some 1), (10, some 0)],
    firstLineNum := 10 }

/-- Example program 10 LET x = 1. -/
def bindProgram : Program :=
  { heap := [some ⟨10, "10 LET x = 1", some (.LetStmt "x" (.ConstantExp 1)), none⟩],
    map := [(10, some 0)],
    firstLineNum := 10 }

/-- Example program 10 PRINT x. -/
def printProgram : Program :=
  { heap := [some ⟨10, "10 PRINT x", some (.PrintStmt "" [.IdentifierExp "x"]), none⟩],
    map := [(10, some 0)],
    firstLineNum := 10 }

/-- The values of a list of expressions, evaluated from left to right, each in
the state left by the one before. -/
def evalAll : List Expression → EvalState → Res (List Rat) × EvalState
  | [], st => (.ok [], st)
  | exp :: rest, st =>
    match eval exp st with
    | (.ok v, st1) =>
      match evalAll rest st1 with
      | (.ok vs, st2) => (.ok (v :: vs), st2)
      | (r, st2) => (r, st2)
    | (.error msg, st1) => (.error msg, st1)
    | (.undef, st1) => (.undef, st1)
    | (.nofuel, st1) => (.nofuel, st1)

/-- What `printExps` writes for a list of values: each value followed by a
blank. -/
def printed : List Rat → List Out
  | [] => []
  | v :: vs => .real v :: .str " " :: printed vs

/-- Example program 0 PRINT 9 / 10 IF 1 = 1 THEN 0 / 20 PRINT 7. -/
def zeroTargetProgram : Program :=
  { heap := [some ⟨0, "0 PRINT 9", some (.PrintStmt "" [.ConstantExp 9]), some 1⟩,
             some ⟨10, "10 IF 1 = 1 THEN 0",
               some (.IfStmt (.ConstantExp 1) "=" (.ConstantExp 1) "0"), some 2⟩,
             some ⟨20, "20 PRINT 7", some (.PrintStmt "" [.ConstantExp 7]), none⟩],
    map := [(20, some 2), (10, some 1), (0, some 0)],
    firstLineNum := 0 }

/-- Example program 10 GOTO 30 / 20 PRINT 0 / 30 PRINT 1 / 40 PRINT 2. -/
def onceProgram : Program :=
  { heap := [some ⟨10, "10 GOTO 30", some (.GotoStmt "30"), some 1⟩,
             some ⟨20, "20 PRINT 0", some (.PrintStmt "" [.ConstantExp 0]), some 2⟩,
             some ⟨30, "30 PRINT 1", some (.PrintStmt "" [.ConstantExp 1]), some 3⟩,
             some ⟨40, "40 PRINT 2", some (.PrintStmt "" [.ConstantExp 2]), none⟩],
    map := [(40, some 3), (30, some 2), (20, some 1), (10, some 0)],
    firstLineNum := 10 }

/-! ## Specification vocabulary for the program store -/

/-- One stored line as a caller sees it, with the address of its entry. -/
structure Line where
  addr : Addr
  num : Int
  text : String
  stmt : Option Statement

/-- Address of the first entry of a chain, `tl` for the empty chain. -/
def headAddr (tl : Option Addr) : List Line → Option Addr
  | [] => tl
  | l :: _ => some l.addr

/-- The entries of `L` are live cells linked through `next` in list order, the
last one pointing to `tl`. -/
def Chain (heap : List (Option Entry)) (tl : Option Addr) : List Line → Prop
  | [] => True
  | l :: rest =>
    heap[l.addr]? = some (some ⟨l.num, l.text, l.stmt, headAddr tl rest⟩)
      ∧ Chain heap tl rest

/-- Representation invariant: the store `p` holds exactly the lines `L`, in
ascending order of line number. -/
structure Represents (p : Program) (L : List Line) : Prop where
  chain : Chain p.heap none L
  sorted : (L.map Line.num).Pairwise (· < ·)
  nonneg : ∀ l ∈ L, 0 ≤ l.num
  addrs : (L.map Line.addr).Nodup
  keys : (p.map.map Prod.fst).Nodup
  find : ∀ l ∈ L, HashMap.find p.map l.num = some (some l.addr)
  stored : ∀ k, HashMap.containsKey p.map k = true → ∃ l ∈ L, l.num = k
  size : p.map.length = L.length
  first : ∀ l rest, L = l :: rest → p.firstLineNum = l.num

/-- Abstract effect of `addSourceLine`: the line is placed by number, replacing
a line of the same number. -/
def upsert (a : Addr) (n : Int) (t : String) : List Line → List Line
  | [] => [⟨a, n, t, none⟩]
  | l :: rest =>
    if l.num < n then l :: upsert a n t rest
    else if l.num = n then ⟨a, n, t, none⟩ :: rest
    else ⟨a, n, t, none⟩ :: l :: rest

/-- Number of the first line of a list of lines, `-1` when there is none. -/
def headNum : List Line → Int
  | [] => -1
  | s :: _ => s.num

/-- A store is well formed when it represents some list of lines and, while it
holds no line, `firstLineNum` is `-1`. -/
def Program.WellFormed (p : Program) : Prop :=
  ∃ L, Represents p L ∧ (L = [] → p.firstLineNum = -1)

/-! # Theorems -/

/-! ### The association-list map -/

theorem HashMap.containsKey_iff (m : HashMap) (k : Int) :
    HashMap.containsKey m k = true ↔ k ∈ m.map Prod.fst := by
  induction m with
  | nil => simp [HashMap.containsKey]
  | cons kv rest ih =>
    simp only [HashMap.containsKey, List.any_cons, Bool.or_eq_true, List.map_cons,
      List.mem_cons] at ih ⊢
    rw [ih]
    simp only [decide_eq_true_eq]
    constructor
    · rintro (h | h)
      · left; exact h.symm
      · right; exact h
    · rintro (h | h)
      · left; exact h.symm
      · right; exact h

theorem HashMap.find_isSome (m : HashMap) (k : Int) :
    (HashMap.find m k).isSome = HashMap.containsKey m k := by
  induction m with
  | nil => simp [HashMap.find, HashMap.containsKey]
  | cons kv rest ih =>
    by_cases h : kv.1 = k
    · simp [HashMap.find, HashMap.containsKey, h]
    · simp only [HashMap.find, h, ↓reduceIte, ih, HashMap.containsKey, List.any_cons]
      simp [h]

theorem HashMap.find_eq_none (m : HashMap) (k : Int)
    (h : HashMap.containsKey m k = false) : HashMap.find m k = none := by
  have := HashMap.find_isSome m k
  rw [h] at this
  cases hf : HashMap.find m k with
  | none => rfl
  | some v => rw [hf] at this; simp at this

theorem HashMap.containsKey_of_find (m : HashMap) (k : Int) (v : Option Addr)
    (h : HashMap.find m k = some v) : HashMap.containsKey m k = true := by
  rw [← HashMap.find_isSome, h]; rfl

theorem HashMap.find_replace (m : HashMap) (k k2 : Int) (v : Option Addr) :
    HashMap.find (m.map (fun kv => if kv.1 = k then (k, v) else kv)) k2
      = if k2 = k then (if HashMap.containsKey m k then some v else none)
        else HashMap.find m k2 := by
  induction m with
  | nil => simp [HashMap.find, HashMap.containsKey]
  | cons kv rest ih =>
    by_cases h : kv.1 = k
    · by_cases h2 : k2 = k
      · simp [HashMap.find, HashMap.containsKey, h, h2]
      · have h3 : ¬ k = k2 := fun e => h2 e.symm
        simp only [List.map_cons, h, ↓reduceIte, HashMap.find, h3, ih, h2]
    · by_cases h2 : k2 = k
      · subst h2
        simp only [List.map_cons, h, ↓reduceIte, HashMap.find, ih, HashMap.containsKey,
          List.any_cons]
        simp only [h, decide_False, Bool.false_or]
      · simp only [List.map_cons, h, ↓reduceIte, HashMap.find, ih, h2]

theorem HashMap.find_put (m : HashMap) (k k2 : Int) (v : Option Addr) :
    HashMap.find (HashMap.put m k v) k2 = if k2 = k then some v else HashMap.find m k2 := by
  unfold HashMap.put
  by_cases hc : HashMap.containsKey m k = true
  · rw [if_pos hc, HashMap.find_replace, hc]; simp
  · rw [if_neg hc]
    by_cases h2 : k2 = k
    · simp [HashMap.find, h2]
    · have h3 : ¬ k = k2 := fun e => h2 e.symm
      simp [HashMap.find, h2, h3]

theorem HashMap.keys_replace (m : HashMap) (k : Int) (v : Option Addr) :
    (m.map (fun kv => if kv.1 = k then (k, v) else kv)).map Prod.fst = m.map Prod.fst := by
  induction m with
  | nil => rfl
  | cons kv rest ih =>
    by_cases h : kv.1 = k
    · simp only [List.map_cons, h, ↓reduceIte, ih]
    · simp only [List.map_cons, h, ↓reduceIte, ih]

theorem HashMap.keys_put (m : HashMap) (k : Int) (v : Option Addr) :
    (HashMap.put m k v).map Prod.fst
      = if HashMap.containsKey m k then m.map Prod.fst else k :: m.map Prod.fst := by
  unfold HashMap.put
  by_cases hc : HashMap.containsKey m k = true
  · rw [if_pos hc, if_pos hc, HashMap.keys_replace]
  · rw [if_neg hc, if_neg hc]; rfl

theorem HashMap.containsKey_put (m : HashMap) (k k2 : Int) (v : Option Addr) :
    HashMap.containsKey (HashMap.put m k v) k2 = true
      ↔ k2 = k ∨ HashMap.containsKey m k2 = true := by
  rw [HashMap.containsKey_iff, HashMap.keys_put]
  by_cases hc : HashMap.containsKey m k = true
  · simp only [hc, ↓reduceIte]
    rw [HashMap.containsKey_iff]
    constructor
    · intro h; exact Or.inr h
    · rintro (h | h)
      · rw [h]; exact (HashMap.containsKey_iff m k).mp hc
      · exact h
  · simp only [hc]
    rw [HashMap.containsKey_iff]; simp

theorem HashMap.nodup_put (m : HashMap) (k : Int) (v : Option Addr)
    (h : (m.map Prod.fst).Nodup) : ((HashMap.put m k v).map Prod.fst).Nodup := by
  rw [HashMap.keys_put]
  by_cases hc : HashMap.containsKey m k = true
  · rw [if_pos hc]; exact h
  · rw [if_neg hc]
    refine List.nodup_cons.mpr ⟨?_, h⟩
    intro hk
    exact hc ((HashMap.containsKey_iff m k).mpr hk)

theorem HashMap.length_put (m : HashMap) (k : Int) (v : Option Addr) :
    (HashMap.put m k v).length
      = if HashMap.containsKey m k then m.length else m.length + 1 := by
  unfold HashMap.put
  by_cases hc : HashMap.containsKey m k = true
  · rw [if_pos hc, if_pos hc, List.length_map]
  · rw [if_neg hc, if_neg hc]; rfl

theorem HashMap.find_remove (m : HashMap) (k k2 : Int) :
    HashMap.find (HashMap.remove m k) k2 = if k2 = k then none else HashMap.find m k2 := by
  unfold HashMap.remove
  induction m with
  | nil => simp [HashMap.find]
  | cons kv rest ih =>
    by_cases h : kv.1 = k
    · have e : (kv :: rest).filter (fun kv => !decide (kv.1 = k))
          = rest.filter (fun kv => !decide (kv.1 = k)) := by
        simp [List.filter_cons, h]
      rw [e, ih]
      by_cases h2 : k2 = k
      · simp [h2]
      · have h3 : ¬ kv.1 = k2 := fun e => h2 (by rw [← e, h])
        simp [HashMap.find, h2, h3]
    · have e : (kv :: rest).filter (fun kv => !decide (kv.1 = k))
          = kv :: rest.filter (fun kv => !decide (kv.1 = k)) := by
        simp [List.filter_cons, h]
      rw [e]
      simp only [HashMap.find]
      rw [ih]
      by_cases h2 : k2 = k
      · subst h2; simp [h]
      · simp [h2]

theorem HashMap.keys_remove (m : HashMap) (k : Int) :
    (HashMap.remove m k).map Prod.fst
      = (m.map Prod.fst).filter (fun x => !decide (x = k)) := by
  unfold HashMap.remove
  induction m with
  | nil => rfl
  | cons kv rest ih =>
    by_cases h : kv.1 = k
    · simp only [List.filter_cons, h, List.map_cons]
      simpa using ih
    · simp only [List.filter_cons, h, List.map_cons]
      simpa using ih

theorem HashMap.containsKey_remove (m : HashMap) (k k2 : Int) :
    HashMap.containsKey (HashMap.remove m k) k2 = true
      ↔ k2 ≠ k ∧ HashMap.containsKey m k2 = true := by
  rw [HashMap.containsKey_iff, HashMap.keys_remove, HashMap.containsKey_iff]
  simp [List.mem_filter, and_comm]

theorem HashMap.nodup_remove (m : HashMap) (k : Int)
    (h : (m.map Prod.fst).Nodup) : ((HashMap.remove m k).map Prod.fst).Nodup := by
  rw [HashMap.keys_remove]; exact h.filter _

theorem HashMap.length_remove (m : HashMap) (k : Int)
    (h : (m.map Prod.fst).Nodup) (hc : HashMap.containsKey m k = true) :
    (HashMap.remove m k).length + 1 = m.length := by
  unfold HashMap.remove
  induction m with
  | nil => simp [HashMap.containsKey] at hc
  | cons kv rest ih =>
    rw [List.map_cons, List.nodup_cons] at h
    by_cases hk : kv.1 = k
    · have hnot : ∀ x ∈ rest, x.1 ≠ k := by
        intro x hx e
        apply h.1
        rw [hk, ← e]
        exact List.mem_map_of_mem _ hx
      have e2 : rest.filter (fun kv => !decide (kv.1 = k)) = rest := by
        apply List.filter_eq_self.mpr
        intro x hx
        simpa using hnot x hx
      have e : (kv :: rest).filter (fun kv => !decide (kv.1 = k))
          = rest.filter (fun kv => !decide (kv.1 = k)) := by
        simp [List.filter_cons, hk]
      rw [e, e2]; rfl
    · have hc2 : HashMap.containsKey rest k = true := by
        simp only [HashMap.containsKey, List.any_cons, Bool.or_eq_true,
          decide_eq_true_eq] at hc ⊢
        rcases hc with hc | hc
        · exact absurd hc hk
        · exact hc
      have e : (kv :: rest).filter (fun kv => !decide (kv.1 = k))
          = kv :: rest.filter (fun kv => !decide (kv.1 = k)) := by
        simp [List.filter_cons, hk]
      rw [e, List.length_cons, ih h.2 hc2, List.length_cons]

/-! ### Heap and chain lemmas -/

theorem Program.read_eq (p : Program) (a : Addr) (e : Entry) :
    p.read a = some e ↔ p.heap[a]? = some (some e) := by
  unfold Program.read
  cases h : p.heap[a]? with
  | none => simp
  | some v => cases v <;> simp

theorem Program.read_of (p : Program) (a : Addr) (e : Entry)
    (h : p.heap[a]? = some (some e)) : p.read a = some e :=
  (Program.read_eq p a e).mpr h

theorem Chain.frame {h h2 : List (Option Entry)} {tl : Option Addr} {L : List Line}
    (c : Chain h tl L) (same : ∀ l ∈ L, h2[l.addr]? = h[l.addr]?) : Chain h2 tl L := by
  induction L with
  | nil => trivial
  | cons l rest ih =>
    refine ⟨?_, ih c.2 (fun x hx => same x (List.mem_cons_of_mem _ hx))⟩
    rw [same l (List.mem_cons_self _ _)]
    exact c.1

theorem Chain.append {h : List (Option Entry)} {tl : Option Addr} {A B : List Line} :
    Chain h tl (A ++ B) ↔ Chain h (headAddr tl B) A ∧ Chain h tl B := by
  induction A with
  | nil => simp [Chain]
  | cons l rest ih =>
    have e : headAddr tl (rest ++ B) = headAddr (headAddr tl B) rest := by
      cases rest <;> rfl
    show (h[l.addr]? = some (some ⟨l.num, l.text, l.stmt, headAddr tl (rest ++ B)⟩)
      ∧ Chain h tl (rest ++ B)) ↔ _
    rw [ih, e]
    simp only [Chain, and_assoc]

theorem Chain.lt_length {h : List (Option Entry)} {tl : Option Addr} {L : List Line}
    (c : Chain h tl L) : ∀ l ∈ L, l.addr < h.length := by
  induction L with
  | nil => intro l hl; cases hl
  | cons x rest ih =>
    intro l hl
    rcases List.mem_cons.mp hl with e | hm
    · subst e
      have := c.1
      by_contra hn
      rw [List.getElem?_eq_none (Nat.le_of_not_lt hn)] at this
      cases this
    · exact ih c.2 l hm

theorem Chain.mem {h : List (Option Entry)} {tl : Option Addr} {L : List Line}
    (c : Chain h tl L) : ∀ l ∈ L, ∃ nx, h[l.addr]? = some (some ⟨l.num, l.text, l.stmt, nx⟩) := by
  induction L with
  | nil => intro l hl; cases hl
  | cons x rest ih =>
    intro l hl
    rcases List.mem_cons.mp hl with e | hm
    · subst e; exact ⟨_, c.1⟩
    · exact ih c.2 l hm

theorem Chain.retarget {h : List (Option Entry)} {tl tl2 : Option Addr} {A : List Line}
    {l : Line} (c : Chain h tl (A ++ [l])) (hnd : ((A ++ [l]).map Line.addr).Nodup) :
    Chain (h.set l.addr (some ⟨l.num, l.text, l.stmt, tl2⟩)) tl2 (A ++ [l]) := by
  have hlt := c.lt_length l (by simp)
  rw [Chain.append] at c ⊢
  refine ⟨?_, ?_, trivial⟩
  · refine c.1.frame ?_
    intro x hx
    have hne : l.addr ≠ x.addr := by
      intro e
      rw [List.map_append, List.nodup_append] at hnd
      exact hnd.2.2 (List.mem_map_of_mem Line.addr hx) (by simp [e])
    rw [List.getElem?_set_ne hne]
  · simp [headAddr, hlt]

/-! ### `findPrevLine` -/

theorem findPrevFrom_eq (m : HashMap) (c : Nat) (k : Int) (hk0 : 0 ≤ k) (hkc : k < c)
    (hin : HashMap.containsKey m k = true)
    (hgap : ∀ j : Int, k < j → j < c → HashMap.containsKey m j = false) :
    findPrevFrom m c = k := by
  induction c with
  | zero => omega
  | succ c ih =>
    unfold findPrevFrom
    by_cases hc : HashMap.containsKey m (c : Int) = true
    · rw [if_pos hc]
      by_contra hne
      have hlt : k < (c : Int) := by
        have : (c : Int) ≠ k := hne
        push_cast at hkc
        omega
      have := hgap c hlt (by push_cast; omega)
      rw [this] at hc
      cases hc
    · rw [if_neg hc]
      have hne : k ≠ (c : Int) := by
        intro e
        rw [e] at hin
        exact hc hin
      apply ih
      · push_cast at hkc; omega
      · intro j h1 h2
        exact hgap j h1 (by push_cast; omega)

theorem findPrevFrom_none (m : HashMap) (c : Nat)
    (hgap : ∀ j : Int, 0 ≤ j → j < c → HashMap.containsKey m j = false) :
    findPrevFrom m c = -1 := by
  induction c with
  | zero => rfl
  | succ c ih =>
    unfold findPrevFrom
    rw [if_neg (by rw [hgap c (by omega) (by push_cast; omega)]; simp)]
    exact ih (fun j h1 h2 => hgap j h1 (by push_cast; omega))

/-! ### Computation of `addSourceLine` -/

theorem Program.insertEntry_new (p : Program) (n : Int) (t : String)
    (h : HashMap.containsKey p.map n = false) :
    p.insertEntry n t = .ok (p.heap.length,
      { heap := p.heap ++ [some ⟨n, t, none, none⟩],
        map := HashMap.put p.map n (some p.heap.length),
        firstLineNum := p.firstLineNum }) := by
  simp [Program.insertEntry, h]

theorem Program.entryAt_of (p : Program) (k : Int) (a : Addr)
    (h : HashMap.find p.map k = some (some a)) : p.entryAt k = some a := by
  simp [Program.entryAt, h]

theorem Program.insertEntry_old (p : Program) (n : Int) (t : String) (a : Addr)
    (old : Entry) (h : HashMap.find p.map n = some (some a))
    (hr : p.heap[a]? = some (some old)) :
    p.insertEntry n t = .ok (p.heap.length,
      { heap := p.heap ++ [some ⟨n, t, none, old.next⟩],
        map := HashMap.put p.map n (some p.heap.length),
        firstLineNum := p.firstLineNum }) := by
  have hc := HashMap.containsKey_of_find _ _ _ h
  simp [Program.insertEntry, hc, Program.entryAt_of p n a h, Program.deref,
    Program.read_of p a old hr]

theorem Program.insertInBetween_keep (q : Program) (n prev : Int) (temp pa : Addr)
    (prevE : Entry) (hgt : n > q.firstLineNum)
    (hpa : HashMap.find q.map prev = some (some pa))
    (hpr : q.heap[pa]? = some (some prevE))
    (hnext : prevE.next = none ∨ ∃ store storeE na nE, prevE.next = some store
      ∧ q.heap[store]? = some (some storeE) ∧ HashMap.find q.map n = some (some na)
      ∧ q.heap[na]? = some (some nE) ∧ storeE.lineNum = nE.lineNum) :
    q.insertInBetween n prev temp
      = .ok (q.write pa { prevE with next := some temp }) := by
  unfold Program.insertInBetween
  rw [if_pos hgt, Program.entryAt_of q prev pa hpa]
  simp only [Program.read_of q pa prevE hpr]
  rcases hnext with h0 | ⟨store, storeE, na, nE, h1, h2, h3, h4, h5⟩
  · simp [h0, Res.bind, Program.read_of q pa prevE hpr]
  · simp [h1, Program.read_of q store storeE h2, Program.entryAt_of q n na h3,
      Program.read_of q na nE h4, h5, Res.bind, Program.read_of q pa prevE hpr]

theorem Program.insertInBetween_link (q : Program) (n prev : Int) (temp pa : Addr)
    (prevE : Entry) (store na : Addr) (storeE nE : Entry) (hgt : n > q.firstLineNum)
    (hpa : HashMap.find q.map prev = some (some pa))
    (hpr : q.heap[pa]? = some (some prevE))
    (h1 : prevE.next = some store) (h2 : q.heap[store]? = some (some storeE))
    (h3 : HashMap.find q.map n = some (some na)) (h4 : q.heap[na]? = some (some nE))
    (h5 : storeE.lineNum ≠ nE.lineNum) (h6 : na ≠ pa) :
    q.insertInBetween n prev temp
      = .ok ((q.write na { nE with next := some store }).write pa
          { prevE with next := some temp }) := by
  unfold Program.insertInBetween
  rw [if_pos hgt, Program.entryAt_of q prev pa hpa]
  have hr2 : (q.write na { nE with next := some store }).read pa = some prevE := by
    apply Program.read_of
    simp only [Program.write]
    rw [List.getElem?_set_ne h6]
    exact hpr
  simp [Program.read_of q pa prevE hpr, h1, Program.read_of q store storeE h2,
    Program.entryAt_of q n na h3, Program.read_of q na nE h4, h5, Res.bind, hr2]

theorem Program.connectEntry_front (q : Program) (n prev : Int) (temp : Addr)
    (fp : Option Addr) (na : Addr) (nE : Entry) (hlt : n < q.firstLineNum)
    (hf : HashMap.find q.map q.firstLineNum = some fp)
    (hn : HashMap.find q.map n = some (some na))
    (hr : q.heap[na]? = some (some nE)) :
    q.connectEntry n prev temp
      = .ok { heap := q.heap.set na (some { nE with next := fp }), map := q.map,
              firstLineNum := n } := by
  unfold Program.connectEntry
  rw [if_pos hlt]
  simp only [HashMap.index, hf]
  have e : ({ q with map := q.map } : Program) = q := rfl
  simp [Program.entryAt, hn, Program.read, hr, Program.write]

/-! ### The invariant after `addSourceLine` -/

theorem upsert_split (a : Addr) (n : Int) (t : String) (L : List Line)
    (hs : (L.map Line.num).Pairwise (· < ·)) :
    ∃ A X B, L = A ++ X ++ B ∧ (∀ l ∈ A, l.num < n) ∧ (∀ l ∈ X, l.num = n)
      ∧ X.length ≤ 1 ∧ (∀ l ∈ B, n < l.num)
      ∧ upsert a n t L = A ++ ⟨a, n, t, none⟩ :: B := by
  induction L with
  | nil => exact ⟨[], [], [], rfl, by simp, by simp, by simp, by simp, rfl⟩
  | cons l rest ih =>
    rw [List.map_cons, List.pairwise_cons] at hs
    by_cases h1 : l.num < n
    · obtain ⟨A, X, B, e, hA, hX, hX1, hB, hu⟩ := ih hs.2
      refine ⟨l :: A, X, B, by rw [e]; rfl, ?_, hX, hX1, hB, ?_⟩
      · intro x hx
        rcases List.mem_cons.mp hx with e2 | hm
        · rw [e2]; exact h1
        · exact hA x hm
      · simp only [upsert, h1, ↓reduceIte, hu, List.cons_append]
    · have hrest : ∀ x ∈ rest, l.num < x.num := fun x hx =>
        hs.1 x.num (List.mem_map_of_mem Line.num hx)
      by_cases h2 : l.num = n
      · refine ⟨[], [l], rest, rfl, by simp, by simpa using h2, by simp, ?_, ?_⟩
        · intro x hx; rw [← h2]; exact hrest x hx
        · simp only [upsert, h1, h2, ↓reduceIte, List.nil_append]
          simp
      · refine ⟨[], [], l :: rest, rfl, by simp, by simp, by simp, ?_, ?_⟩
        · intro x hx
          rcases List.mem_cons.mp hx with e2 | hm
          · rw [e2]; omega
          · have := hrest x hm; omega
        · simp only [upsert, h1, h2, ↓reduceIte, List.nil_append]

theorem mem_upsert_num (a : Addr) (n : Int) (t : String) (L : List Line) (k : Int) :
    k ∈ (upsert a n t L).map Line.num ↔ k = n ∨ k ∈ L.map Line.num := by
  induction L with
  | nil => simp [upsert]
  | cons l rest ih =>
    by_cases h1 : l.num < n
    · simp only [upsert, h1, ↓reduceIte, List.map_cons, List.mem_cons, ih]
      tauto
    · by_cases h2 : l.num = n
      · simp only [upsert, h1, h2, ↓reduceIte, List.map_cons, List.mem_cons]
        simp [h2]
      · simp only [upsert, h1, h2, ↓reduceIte, List.map_cons, List.mem_cons]

theorem Represents.not_stored {p : Program} {L : List Line} (R : Represents p L)
    (n : Int) (h : ∀ l ∈ L, l.num ≠ n) : HashMap.containsKey p.map n = false := by
  cases hc : HashMap.containsKey p.map n with
  | false => rfl
  | true =>
    obtain ⟨l, hl, e⟩ := R.stored n hc
    exact absurd e (h l hl)

theorem Represents.is_stored {p : Program} {L : List Line} (R : Represents p L)
    (l : Line) (h : l ∈ L) : HashMap.containsKey p.map l.num = true :=
  HashMap.containsKey_of_find _ _ _ (R.find l h)

theorem Represents.fields_after_add {p q : Program} {A X B : List Line} {n : Int}
    {t : String} (R : Represents p (A ++ X ++ B)) (hn : 0 ≤ n)
    (hA : ∀ l ∈ A, l.num < n) (hX : ∀ l ∈ X, l.num = n) (hX1 : X.length ≤ 1)
    (hB : ∀ l ∈ B, n < l.num)
    (hmap : q.map = HashMap.put p.map n (some p.heap.length))
    (hchain : Chain q.heap none (A ++ ⟨p.heap.length, n, t, none⟩ :: B))
    (hfirst : ∀ l rest, A ++ (⟨p.heap.length, n, t, none⟩ : Line) :: B = l :: rest →
      q.firstLineNum = l.num) :
    Represents q (A ++ ⟨p.heap.length, n, t, none⟩ :: B) := by
  have hs := R.sorted
  simp only [List.map_append, List.pairwise_append, List.mem_append, List.mem_map] at hs
  have hlt := R.chain.lt_length
  have hadd := R.addrs
  simp only [List.map_append, List.nodup_append, List.mem_append, List.mem_map] at hadd
  refine ⟨hchain, ?_, ?_, ?_, ?_, ?_, ?_, ?_, hfirst⟩
  · simp only [List.map_append, List.map_cons, List.pairwise_append, List.pairwise_cons,
      List.mem_map, List.mem_cons]
    refine ⟨hs.1.1, ⟨?_, hs.2.1⟩, ?_⟩
    · rintro k ⟨l, hl, rfl⟩; exact hB l hl
    · rintro k ⟨l, hl, rfl⟩ k2 (rfl | ⟨l2, hl2, rfl⟩)
      · exact hA l hl
      · exact hs.2.2 l.num (Or.inl ⟨l, hl, rfl⟩) l2.num ⟨l2, hl2, rfl⟩
  · intro l hl
    rcases List.mem_append.mp hl with h | h
    · exact R.nonneg l (by simp [h])
    · rcases List.mem_cons.mp h with e | h
      · rw [e]; exact hn
      · exact R.nonneg l (by simp [h])
  · simp only [List.map_append, List.map_cons, List.nodup_append, List.nodup_cons,
      List.mem_map, List.mem_cons]
    refine ⟨hadd.1.1, ⟨?_, hadd.2.1⟩, ?_⟩
    · rintro ⟨l, hl, e⟩
      have := hlt l (by simp [hl])
      rw [e] at this
      exact lt_irrefl _ this
    · intro x hx1 hx2
      simp only [List.mem_map, List.mem_cons] at hx1 hx2
      obtain ⟨l, hl, rfl⟩ := hx1
      rcases hx2 with e | ⟨l2, hl2, e⟩
      · have := hlt l (by simp [hl])
        rw [e] at this
        exact lt_irrefl _ this
      · exact hadd.2.2 (List.mem_append.mpr (Or.inl (List.mem_map_of_mem _ hl)))
          (by rw [← e]; exact List.mem_map_of_mem _ hl2)
  · rw [hmap]; exact HashMap.nodup_put _ _ _ R.keys
  · intro l hl
    rw [hmap, HashMap.find_put]
    rcases List.mem_append.mp hl with h | h
    · have := hA l h
      rw [if_neg (by omega)]
      exact R.find l (by simp [h])
    · rcases List.mem_cons.mp h with e | h
      · rw [e]; simp
      · have := hB l h
        rw [if_neg (by omega)]
        exact R.find l (by simp [h])
  · intro k hk
    rw [hmap, HashMap.containsKey_put] at hk
    rcases hk with e | hk
    · exact ⟨⟨p.heap.length, n, t, none⟩, by simp, e.symm⟩
    · obtain ⟨l, hl, e⟩ := R.stored k hk
      simp only [List.mem_append] at hl
      rcases hl with (h | h) | h
      · exact ⟨l, by simp [h], e⟩
      · exact ⟨⟨p.heap.length, n, t, none⟩, by simp, by rw [← e]; exact (hX l h).symm⟩
      · exact ⟨l, by simp [h], e⟩
  · rw [hmap, HashMap.length_put, R.size]
    match X, hX, hX1, R with
    | [], _, _, R =>
      have : HashMap.containsKey p.map n = false := by
        apply R.not_stored
        intro l hl
        simp only [List.append_nil, List.mem_append] at hl
        rcases hl with h | h
        · have := hA l h; omega
        · have := hB l h; omega
      simp [this]
      omega
    | [x], hX, _, R =>
      have : HashMap.containsKey p.map n = true := by
        rw [← hX x (by simp)]
        exact R.is_stored x (by simp)
      simp [this]
    | _ :: _ :: _, _, hX1, _ => simp at hX1

theorem Program.addSourceLine_eq (p : Program) (n : Int) (t : String)
    (hne : p.firstLineNum ≠ -1) :
    p.addSourceLine n t = (p.insertEntry n t).bind (fun r =>
      r.2.connectEntry n (r.2.findPrevLine n) r.1) := by
  simp [Program.addSourceLine, hne]

theorem Represents.add_empty {p : Program} (R : Represents p [])
    (hfirst : p.firstLineNum = -1) (n : Int) (t : String) (hn : 0 ≤ n) :
    ∃ q, p.addSourceLine n t = .ok q
      ∧ Represents q [⟨p.heap.length, n, t, none⟩] := by
  have hm : p.map = [] := List.eq_nil_of_length_eq_zero R.size
  refine ⟨{ heap := p.heap ++ [some ⟨n, t, none, none⟩],
            map := HashMap.put p.map n (some p.heap.length), firstLineNum := n }, ?_, ?_⟩
  · simp [Program.addSourceLine, hfirst, Program.insertEntry, hm, HashMap.containsKey,
      Res.bind, Program.connectEntry, Program.insertInBetween]
  · have R2 : Represents p ([] ++ [] ++ []) := R
    refine R2.fields_after_add (t := t) hn (by simp) (by simp) (by simp) (by simp) rfl ?_ ?_
    · refine ⟨?_, trivial⟩
      simp [headAddr]
    · intro l rest e
      simp only [List.nil_append, List.cons.injEq] at e
      rw [← e.1]

theorem Represents.first_ne {p : Program} {l : Line} {rest : List Line}
    (R : Represents p (l :: rest)) : p.firstLineNum ≠ -1 := by
  rw [R.first l rest rfl]
  have := R.nonneg l (by simp)
  omega

theorem Represents.add_front {p : Program} {f : Line} {B : List Line}
    (R : Represents p (f :: B)) (n : Int) (t : String) (hn : 0 ≤ n) (hlt : n < f.num) :
    ∃ q, p.addSourceLine n t = .ok q
      ∧ Represents q (⟨p.heap.length, n, t, none⟩ :: f :: B) := by
  have hf := R.first f B rfl
  have hsorted := R.sorted
  rw [List.map_cons, List.pairwise_cons] at hsorted
  have hB : ∀ l ∈ f :: B, n < l.num := by
    intro l hl
    rcases List.mem_cons.mp hl with e | h
    · rw [e]; exact hlt
    · have := hsorted.1 l.num (List.mem_map_of_mem _ h); omega
  have hnot : HashMap.containsKey p.map n = false :=
    R.not_stored n (fun l hl => by have := hB l hl; omega)
  have hlen := R.chain.lt_length
  refine ⟨{ heap := (p.heap ++ [some (⟨n, t, none, none⟩ : Entry)]).set p.heap.length
              (some ⟨n, t, none, some f.addr⟩),
            map := HashMap.put p.map n (some p.heap.length), firstLineNum := n }, ?_, ?_⟩
  · rw [Program.addSourceLine_eq p n t R.first_ne, Program.insertEntry_new p n t hnot]
    simp only [Res.bind]
    rw [Program.connectEntry_front _ n _ _ (some f.addr) p.heap.length
      (⟨n, t, none, none⟩ : Entry)]
    · show n < p.firstLineNum
      rw [hf]; exact hlt
    · show HashMap.find (HashMap.put p.map n (some p.heap.length)) p.firstLineNum = _
      rw [HashMap.find_put, hf, if_neg (by omega)]
      exact R.find f (by simp)
    · show HashMap.find (HashMap.put p.map n (some p.heap.length)) n = _
      rw [HashMap.find_put, if_pos rfl]
    · show (p.heap ++ [some ⟨n, t, none, none⟩])[p.heap.length]? = _
      rw [List.getElem?_concat_length]
  · have R2 : Represents p ([] ++ [] ++ f :: B) := R
    refine R2.fields_after_add (t := t) hn (by simp) (by simp) (by simp) hB rfl ?_ ?_
    · refine ⟨?_, R.chain.frame ?_⟩
      · simp [headAddr]
      · intro l hl
        have := hlen l hl
        show ((p.heap ++ _).set _ _)[l.addr]? = _
        rw [List.getElem?_set_ne (Nat.ne_of_gt this), List.getElem?_append_left this]
    · intro l rest e
      simp only [List.nil_append, List.cons.injEq] at e
      rw [← e.1]

theorem Represents.add_first_again {p : Program} {x : Line} {B : List Line}
    (R : Represents p (x :: B)) (t : String) :
    ∃ q, p.addSourceLine x.num t = .ok q
      ∧ Represents q (⟨p.heap.length, x.num, t, none⟩ :: B) := by
  have hf := R.first x B rfl
  have hsorted := R.sorted
  rw [List.map_cons, List.pairwise_cons] at hsorted
  have hB : ∀ l ∈ B, x.num < l.num := fun l h =>
    hsorted.1 l.num (List.mem_map_of_mem _ h)
  have hlen := R.chain.lt_length
  have hcx := R.chain.1
  refine ⟨{ heap := p.heap ++ [some ⟨x.num, t, none, headAddr none B⟩],
            map := HashMap.put p.map x.num (some p.heap.length),
            firstLineNum := p.firstLineNum }, ?_, ?_⟩
  · rw [Program.addSourceLine_eq p x.num t R.first_ne,
      Program.insertEntry_old p x.num t x.addr _ (R.find x (by simp)) hcx]
    simp [Res.bind, Program.connectEntry, Program.insertInBetween, hf]
  · have R2 : Represents p ([] ++ [x] ++ B) := R
    refine R2.fields_after_add (t := t) (R.nonneg x (by simp)) (by simp) (by simp) (by simp)
      hB rfl ?_ ?_
    · refine ⟨?_, R.chain.2.frame ?_⟩
      · show (p.heap ++ _)[p.heap.length]? = _
        rw [List.getElem?_concat_length]
      · intro l hl
        have := hlen l (List.mem_cons_of_mem _ hl)
        show (p.heap ++ _)[l.addr]? = _
        rw [List.getElem?_append_left this]
    · intro l rest e
      simp only [List.nil_append, List.cons.injEq] at e
      rw [← e.1]; exact hf

theorem Chain.insert_mid {h h2 : List (Option Entry)} {A : List Line} {pl : Line}
    {X B : List Line} {a : Addr} {n : Int} {t : String}
    (c : Chain h none (A ++ [pl] ++ X ++ B))
    (hnd : ((A ++ [pl] ++ X ++ B).map Line.addr).Nodup)
    (hframe : ∀ i, i < h.length → i ≠ pl.addr → h2[i]? = h[i]?)
    (hnew : h2[a]? = some (some ⟨n, t, none, headAddr none B⟩))
    (hpl : h2[pl.addr]? = some (some ⟨pl.num, pl.text, pl.stmt, some a⟩)) :
    Chain h2 none (A ++ [pl] ++ ⟨a, n, t, none⟩ :: B) := by
  have hlen := c.lt_length
  simp only [List.map_append, List.nodup_append, List.map_cons, List.map_nil,
    List.nodup_cons, List.disjoint_append_left, List.disjoint_append_right,
    List.disjoint_cons_left, List.disjoint_cons_right, List.mem_map] at hnd
  rw [Chain.append, Chain.append, Chain.append] at c
  rw [Chain.append, Chain.append]
  refine ⟨⟨?_, ?_, trivial⟩, ?_, ?_⟩
  · refine c.1.1.1.frame ?_
    intro l hl
    refine hframe _ (hlen l (by simp [hl])) ?_
    intro e
    exact hnd.1.1.2.2.1 ⟨l, hl, e⟩
  · exact hpl
  · exact hnew
  · refine c.2.frame ?_
    intro l hl
    refine hframe _ (hlen l (by simp [hl])) ?_
    intro e
    exact hnd.2.2.1.2.1 ⟨l, hl, e⟩

theorem Represents.add_middle {p : Program} {A : List Line} {pl : Line}
    {X B : List Line} (R : Represents p (A ++ [pl] ++ X ++ B)) (n : Int) (t : String)
    (hpl : pl.num < n) (hX : ∀ l ∈ X, l.num = n) (hX1 : X.length ≤ 1)
    (hB : ∀ l ∈ B, n < l.num) :
    ∃ q, p.addSourceLine n t = .ok q
      ∧ Represents q (A ++ [pl] ++ ⟨p.heap.length, n, t, none⟩ :: B) := by
  have hs := R.sorted
  simp only [List.map_append, List.pairwise_append, List.mem_append, List.mem_map,
    List.map_cons, List.map_nil, List.mem_singleton] at hs
  have hA : ∀ l ∈ A ++ [pl], l.num < n := by
    intro l hl
    rcases List.mem_append.mp hl with h | h
    · have := hs.1.1.2.2 l.num ⟨l, h, rfl⟩ pl.num rfl
      omega
    · rw [List.mem_singleton.mp h]; exact hpl
  have hn : 0 ≤ n := by
    have := R.nonneg pl (by simp)
    omega
  have hlen := R.chain.lt_length
  have hpllen := hlen pl (by simp)
  -- the first line lies below `n`
  have hfirst : p.firstLineNum < n ∧ p.firstLineNum ≠ -1 ∧
      ∀ l rest, A ++ [pl] ++ (⟨p.heap.length, n, t, none⟩ : Line) :: B = l :: rest →
        p.firstLineNum = l.num := by
    cases A with
    | nil =>
      have e := R.first pl (X ++ B) (by simp)
      have := R.nonneg pl (by simp)
      refine ⟨by omega, by omega, ?_⟩
      intro l rest h
      simp only [List.nil_append, List.singleton_append, List.cons.injEq] at h
      rw [← h.1]; exact e
    | cons a A2 =>
      have e := R.first a (A2 ++ [pl] ++ X ++ B) (by simp)
      have := R.nonneg a (by simp)
      have := hA a (by simp)
      refine ⟨by omega, by omega, ?_⟩
      intro l rest h
      simp only [List.cons_append, List.cons.injEq] at h
      rw [← h.1]; exact e
  -- the cell of the preceding line
  have hc := R.chain
  rw [Chain.append, Chain.append, Chain.append] at hc
  have hplcell : p.heap[pl.addr]? =
      some (some ⟨pl.num, pl.text, pl.stmt, headAddr (headAddr none B) X⟩) := hc.1.1.2.1
  -- `insertEntry`
  have hins : ∃ nx, p.insertEntry n t = .ok (p.heap.length,
      { heap := p.heap ++ [some ⟨n, t, none, nx⟩],
        map := HashMap.put p.map n (some p.heap.length),
        firstLineNum := p.firstLineNum })
      ∧ ((X = [] ∧ nx = none) ∨ (∃ x, X = [x] ∧ nx = headAddr none B)) := by
    match X, hX, hX1, R, hc with
    | [], _, _, R, _ =>
      refine ⟨none, Program.insertEntry_new p n t ?_, Or.inl ⟨rfl, rfl⟩⟩
      apply R.not_stored
      intro l hl
      simp only [List.append_nil, List.mem_append] at hl
      rcases hl with h | h
      · have := hA l (List.mem_append.mpr h); omega
      · have := hB l h; omega
    | [x], hX, _, R, hc =>
      have hx := hX x (by simp)
      refine ⟨headAddr none B, ?_, Or.inr ⟨x, rfl, rfl⟩⟩
      have := Program.insertEntry_old p n t x.addr _ (by rw [← hx]; exact R.find x (by simp))
        hc.1.2.1
      exact this
    | _ :: _ :: _, _, hX1, _, _ => simp at hX1
  obtain ⟨nx, hins, hnx⟩ := hins
  -- `findPrevLine`
  have hprev : findPrevFrom (HashMap.put p.map n (some p.heap.length)) n.toNat = pl.num := by
    apply findPrevFrom_eq
    · exact R.nonneg pl (by simp)
    · rw [Int.toNat_of_nonneg hn]; exact hpl
    · rw [HashMap.containsKey_put]; right; exact R.is_stored pl (by simp)
    · intro j h1 h2
      rw [Int.toNat_of_nonneg hn] at h2
      cases hcj : HashMap.containsKey (HashMap.put p.map n (some p.heap.length)) j with
      | false => rfl
      | true =>
        rw [HashMap.containsKey_put] at hcj
        rcases hcj with e | hcj
        · omega
        · obtain ⟨l, hl, e⟩ := R.stored j hcj
          simp only [List.mem_append, List.mem_singleton] at hl
          rcases hl with ((h | h) | h) | h
          · have := hs.1.1.2.2 l.num ⟨l, h, rfl⟩ pl.num rfl
            omega
          · rw [h] at e; omega
          · have := hX l h; omega
          · have := hB l h; omega
  -- `connectEntry`
  have hfind_pl : HashMap.find (HashMap.put p.map n (some p.heap.length)) pl.num
      = some (some pl.addr) := by
    rw [HashMap.find_put, if_neg (by omega)]
    exact R.find pl (by simp)
  have hfind_n : HashMap.find (HashMap.put p.map n (some p.heap.length)) n
      = some (some p.heap.length) := by
    rw [HashMap.find_put, if_pos rfl]
  have hconn : ∃ h2 : List (Option Entry),
      p.addSourceLine n t = .ok (Program.mk h2
        (HashMap.put p.map n (some p.heap.length)) p.firstLineNum)
      ∧ (∀ i, i < p.heap.length → i ≠ pl.addr → h2[i]? = p.heap[i]?)
      ∧ h2[p.heap.length]? = some (some ⟨n, t, none, headAddr none B⟩)
      ∧ h2[pl.addr]? = some (some ⟨pl.num, pl.text, pl.stmt, some p.heap.length⟩) := by
    rw [Program.addSourceLine_eq p n t hfirst.2.1, hins]
    simp only [Res.bind, Program.findPrevLine, hprev]
    unfold Program.connectEntry
    rw [if_neg (by show ¬ n < p.firstLineNum; omega)]
    have hplcell1 : ∀ e : Entry, (p.heap ++ [some e])[pl.addr]? =
        some (some ⟨pl.num, pl.text, pl.stmt, headAddr (headAddr none B) X⟩) := by
      intro e
      rw [List.getElem?_append_left hpllen]; exact hplcell
    rcases hnx with ⟨hX0, hnx0⟩ | ⟨x, hXx, hnxx⟩
    · subst hX0; subst hnx0
      cases B with
      | nil =>
        rw [Program.insertInBetween_keep _ n pl.num _ pl.addr _ (by show n > p.firstLineNum; omega)
          hfind_pl (hplcell1 _) (Or.inl rfl)]
        refine ⟨_, rfl, ?_, ?_, ?_⟩
        · intro i hi hne
          show ((p.heap ++ _).set _ _)[i]? = _
          rw [List.getElem?_set_ne (fun e => hne e.symm), List.getElem?_append_left hi]
        · show ((p.heap ++ _).set _ _)[p.heap.length]? = _
          rw [List.getElem?_set_ne (Nat.ne_of_lt hpllen), List.getElem?_concat_length]
          rfl
        · show ((p.heap ++ _).set _ _)[pl.addr]? = _
          rw [List.getElem?_set_self (by
            simp only [List.length_set, List.length_append]
            exact Nat.lt_add_right _ hpllen)]
      | cons s B2 =>
        have hscell : (p.heap ++ [some (⟨n, t, none, none⟩ : Entry)])[s.addr]? =
            some (some ⟨s.num, s.text, s.stmt, headAddr none B2⟩) := by
          rw [List.getElem?_append_left (hlen s (by simp))]; exact hc.2.1
        rw [Program.insertInBetween_link _ n pl.num _ pl.addr _ s.addr p.heap.length _
          ⟨n, t, none, none⟩ (by show n > p.firstLineNum; omega) hfind_pl (hplcell1 _) rfl
          hscell hfind_n (List.getElem?_concat_length _ _)
          (by have := hB s (by simp); show s.num ≠ n; omega) (Nat.ne_of_gt hpllen)]
        refine ⟨_, rfl, ?_, ?_, ?_⟩
        · intro i hi hne
          show (((p.heap ++ _).set _ _).set _ _)[i]? = _
          rw [List.getElem?_set_ne (fun e => hne e.symm),
            List.getElem?_set_ne (Nat.ne_of_gt hi), List.getElem?_append_left hi]
        · show (((p.heap ++ _).set _ _).set _ _)[p.heap.length]? = _
          rw [List.getElem?_set_ne (Nat.ne_of_lt hpllen), List.getElem?_set_self (by simp)]
          rfl
        · show (((p.heap ++ _).set _ _).set _ _)[pl.addr]? = _
          rw [List.getElem?_set_self (by
            simp only [List.length_set, List.length_append]
            exact Nat.lt_add_right _ hpllen)]
    · subst hXx; subst hnxx
      have hx := hX x (by simp)
      have hxcell : (p.heap ++ [some (⟨n, t, none, headAddr none B⟩ : Entry)])[x.addr]? =
          some (some ⟨x.num, x.text, x.stmt, headAddr none B⟩) := by
        rw [List.getElem?_append_left (hlen x (by simp))]; exact hc.1.2.1
      rw [Program.insertInBetween_keep _ n pl.num _ pl.addr _ (by show n > p.firstLineNum; omega)
        hfind_pl (hplcell1 _) (Or.inr ⟨x.addr, _, p.heap.length, _, rfl, hxcell, hfind_n,
          List.getElem?_concat_length _ _, hx⟩)]
      refine ⟨_, rfl, ?_, ?_, ?_⟩
      · intro i hi hne
        show ((p.heap ++ _).set _ _)[i]? = _
        rw [List.getElem?_set_ne (fun e => hne e.symm), List.getElem?_append_left hi]
      · show ((p.heap ++ _).set _ _)[p.heap.length]? = _
        rw [List.getElem?_set_ne (Nat.ne_of_lt hpllen), List.getElem?_concat_length]
      · show ((p.heap ++ _).set _ _)[pl.addr]? = _
        rw [List.getElem?_set_self (by
            simp only [List.length_set, List.length_append]
            exact Nat.lt_add_right _ hpllen)]
  obtain ⟨h2, hadd, hframe, hnew, hplnew⟩ := hconn
  refine ⟨_, hadd, ?_⟩
  exact R.fields_after_add (t := t) hn hA hX hX1 hB rfl
    (Chain.insert_mid R.chain R.addrs hframe hnew hplnew) hfirst.2.2

/-- Upsert lemma: `addSourceLine` on a represented store succeeds and yields the
store of the upserted lines. -/
theorem Represents.add {p : Program} {L : List Line} (R : Represents p L)
    (hfresh : L = [] → p.firstLineNum = -1) (n : Int) (t : String) (hn : 0 ≤ n) :
    ∃ q, p.addSourceLine n t = .ok q ∧ Represents q (upsert p.heap.length n t L) := by
  obtain ⟨A, X, B, e, hA, hX, hX1, hB, hu⟩ := upsert_split p.heap.length n t L R.sorted
  subst e
  rw [hu]
  rcases List.eq_nil_or_concat A with hA0 | ⟨A2, pl, hA2⟩
  · subst hA0
    match X, hX, hX1, R, hfresh with
    | [], _, _, R, hfresh =>
      cases B with
      | nil => exact R.add_empty (hfresh rfl) n t hn
      | cons f B2 => exact Represents.add_front (B := B2) R n t hn (hB f (by simp))
    | [x], hX, _, R, _ =>
      have hx := hX x (by simp)
      subst hx
      exact Represents.add_first_again (B := B) R t
    | _ :: _ :: _, _, hX1, _, _ => simp at hX1
  · rw [List.concat_eq_append] at hA2
    subst hA2
    exact R.add_middle n t (hA pl (by simp)) hX hX1 hB

/-! ### Traversal of a represented store -/

theorem Represents.getNext {p : Program} {A B : List Line} {l : Line}
    (R : Represents p (A ++ l :: B)) :
    p.getNextLineNumber l.num = .ok (headNum B) := by
  have hc := R.chain
  rw [Chain.append] at hc
  have hcont := R.is_stored l (by simp)
  have hat := Program.entryAt_of p l.num l.addr (R.find l (by simp))
  have hread := Program.read_of p l.addr _ hc.2.1
  unfold Program.getNextLineNumber
  simp only [hcont, Bool.not_true, Bool.false_eq_true, ↓reduceIte, hat, Program.deref, hread]
  cases B with
  | nil => rfl
  | cons s B2 =>
    have hs := Program.read_of p s.addr _ hc.2.2.1
    simp only [headAddr, hs, headNum]

theorem Represents.traverseFrom {p : Program} (B : List Line) :
    ∀ (A : List Line) (fuel : Nat), Represents p (A ++ B) → B.length ≤ fuel →
      p.traverseFrom fuel (headNum B) = .ok (B.map Line.num) := by
  induction B with
  | nil =>
    intro A fuel _ _
    unfold Program.traverseFrom
    simp [headNum]
  | cons l B2 ih =>
    intro A fuel R hf
    have hne : l.num ≠ -1 := by
      have := R.nonneg l (by simp)
      omega
    cases fuel with
    | zero => simp at hf
    | succ f =>
      unfold Program.traverseFrom
      simp only [headNum]
      rw [if_neg hne, R.getNext]
      have R2 : Represents p ((A ++ [l]) ++ B2) := by
        rw [List.append_assoc]; exact R
      have := ih (A ++ [l]) f R2 (by simpa using hf)
      simp only [Res.bind, this, List.map_cons]

theorem Represents.traversal {p : Program} {L : List Line} (R : Represents p L)
    (fuel : Nat) (hf : L.length ≤ fuel) : p.traversal fuel = .ok (L.map Line.num) := by
  have h := Represents.traverseFrom (p := p) L [] fuel R hf
  unfold Program.traversal Program.getFirstLineNumber
  cases L with
  | nil =>
    have hm : p.map = [] := List.eq_nil_of_length_eq_zero R.size
    simp only [hm, HashMap.isEmpty]
    exact h
  | cons l rest =>
    have hm : HashMap.isEmpty p.map = false := by
      simp [HashMap.isEmpty, R.size]
    simp only [hm, Bool.not_false, ↓reduceIte, R.first l rest rfl]
    exact h

theorem Represents.new : Represents Program.new [] :=
  ⟨trivial, List.Pairwise.nil, by simp, List.nodup_nil, List.nodup_nil, by simp,
    by simp [Program.new, HashMap.containsKey], rfl, by simp⟩

theorem upsert_ne_nil (a : Addr) (n : Int) (t : String) (L : List Line) :
    upsert a n t L ≠ [] := by
  cases L with
  | nil => simp [upsert]
  | cons l rest =>
    simp only [upsert]
    split_ifs <;> simp

theorem Represents.addLines (lines : List (Int × String)) :
    ∀ {p : Program} {L : List Line}, Represents p L → (L = [] → p.firstLineNum = -1) →
      (∀ x ∈ lines, 0 ≤ x.1) →
      ∃ q L2, p.addLines lines = .ok q ∧ Represents q L2
        ∧ (L2 = [] → q.firstLineNum = -1)
        ∧ ∀ k, k ∈ L2.map Line.num ↔ (k ∈ L.map Line.num ∨ k ∈ lines.map Prod.fst) := by
  induction lines with
  | nil =>
    intro p L R hf _
    exact ⟨p, L, rfl, R, hf, by simp⟩
  | cons x rest ih =>
    intro p L R hf hpos
    obtain ⟨q, hq, Rq⟩ := R.add hf x.1 x.2 (hpos x (by simp))
    obtain ⟨q2, L2, hq2, R2, hf2, hk⟩ :=
      ih Rq (fun h => absurd h (upsert_ne_nil _ _ _ _)) (fun y hy => hpos y (by simp [hy]))
    refine ⟨q2, L2, ?_, R2, hf2, ?_⟩
    · show (p.addSourceLine x.1 x.2).bind _ = _
      rw [hq]; exact hq2
    · intro k
      rw [hk k, mem_upsert_num]
      simp only [List.map_cons, List.mem_cons]
      tauto

/-- C1: for every list of positive line numbers added with `addSourceLine` to a
new `Program`, in any order, all the calls succeed and the traversal
`getFirstLineNumber`, `getNextLineNumber`, ... visits exactly the added line
numbers in strictly ascending order and then reaches `-1`. -/
theorem C1_traversal_ascending (lines : List (Int × String))
    (hpos : ∀ x ∈ lines, 0 < x.1) (hdistinct : (lines.map Prod.fst).Nodup) :
    ∃ p, Program.new.addLines lines = .ok p ∧
      ∀ fuel, lines.length ≤ fuel →
        ∃ l, p.traversal fuel = .ok l ∧ l.Pairwise (· < ·)
          ∧ l.length = lines.length ∧ ∀ k, k ∈ l ↔ k ∈ lines.map Prod.fst := by
  obtain ⟨q, L, hq, R, _, hk⟩ :=
    Represents.addLines lines Represents.new (fun _ => rfl)
      (fun x hx => le_of_lt (hpos x hx))
  have hmem : ∀ k, k ∈ L.map Line.num ↔ k ∈ lines.map Prod.fst := by
    intro k; rw [hk k]; simp
  have hnd : (L.map Line.num).Nodup := R.sorted.imp (fun h => ne_of_lt h)
  have hperm : (L.map Line.num).Perm (lines.map Prod.fst) :=
    (List.perm_ext_iff_of_nodup hnd hdistinct).mpr hmem
  have hlen : L.length = lines.length := by
    have := hperm.length_eq
    simpa using this
  refine ⟨q, hq, ?_⟩
  intro fuel hf
  exact ⟨L.map Line.num, R.traversal fuel (by omega), R.sorted, by simpa using hlen, hmem⟩

/-- Witness for C1: lines 30, 10, 20 added in that order are traversed as
10, 20, 30. -/
theorem C1_traversal_ascending_witness :
    (∃ p, Program.new.addLines [(30, "30 REM c"), (10, "10 REM a"), (20, "20 REM b")] = .ok p ∧
      ∀ fuel, 3 ≤ fuel →
        ∃ l, p.traversal fuel = .ok l ∧ l.Pairwise (· < ·) ∧ l.length = 3
          ∧ ∀ k, k ∈ l ↔ k ∈ [30, 10, 20])
    ∧ (Program.new.addLines [(30, "30 REM c"), (10, "10 REM a"), (20, "20 REM b")]).bind
        (fun p => p.traversal 3) = .ok [10, 20, 30] :=
  ⟨C1_traversal_ascending [(30, "30 REM c"), (10, "10 REM a"), (20, "20 REM b")]
      (by decide) (by decide), by decide⟩

/-! ### The invariant after `removeSourceLine` -/

theorem Represents.cell {p : Program} {A B : List Line} {l : Line}
    (R : Represents p (A ++ l :: B)) :
    p.deref (p.entryAt l.num) = some ⟨l.num, l.text, l.stmt, headAddr none B⟩ := by
  have hc := R.chain
  rw [Chain.append] at hc
  rw [Program.entryAt_of p l.num l.addr (R.find l (by simp))]
  exact Program.read_of p l.addr _ hc.2.1

theorem Represents.cell_next {p : Program} {L : List Line} (R : Represents p L)
    (l : Line) (hl : l ∈ L) :
    ∃ e, p.deref (p.entryAt l.num) = some e ∧
      (e.next = none ∨ ∃ nx ne s, e.next = some nx ∧ p.read nx = some ne
        ∧ ne.lineNum = s.num ∧ s ∈ L ∧ ∀ m ∈ L, l.num < m.num → s.num ≤ m.num) := by
  obtain ⟨A, B, e⟩ := List.append_of_mem hl
  subst e
  refine ⟨_, R.cell, ?_⟩
  cases B with
  | nil => left; rfl
  | cons s B2 =>
    right
    have hc := R.chain
    rw [Chain.append] at hc
    refine ⟨s.addr, _, s, rfl, Program.read_of p s.addr _ hc.2.2.1, rfl, by simp, ?_⟩
    intro m hm hlt
    have hs := R.sorted
    simp only [List.map_append, List.map_cons, List.pairwise_append, List.pairwise_cons,
      List.mem_map, List.mem_cons] at hs
    simp only [List.mem_append, List.mem_cons] at hm
    rcases hm with h | h | h | h
    · have := hs.2.2 m.num ⟨m, h, rfl⟩ l.num (Or.inl rfl)
      omega
    · rw [h] at hlt; omega
    · rw [h]
    · have := hs.2.1.2.1 m.num ⟨m, h, rfl⟩
      omega

theorem Represents.removeLoop {p : Program} {A : List Line} {pl x : Line}
    {B : List Line} (R : Represents p (A ++ [pl] ++ x :: B)) :
    ∀ (c : Nat) (acc : Option Int),
      p.removeLoop x.num c acc = .ok (if pl.num < c then some pl.num else acc) := by
  have hplnn := R.nonneg pl (by simp)
  have hs := R.sorted
  simp only [List.map_append, List.map_cons, List.pairwise_append, List.pairwise_cons,
    List.mem_map, List.mem_cons, List.map_nil, List.mem_append, List.mem_singleton] at hs
  have hplx : pl.num < x.num := hs.2.2 pl.num (Or.inr (Or.inl rfl)) x.num (Or.inl rfl)
  have hplcell : p.deref (p.entryAt pl.num) = some ⟨pl.num, pl.text, pl.stmt, some x.addr⟩ := by
    have R2 : Represents p (A ++ pl :: x :: B) := by
      simpa [List.append_assoc] using R
    exact R2.cell
  have hxcell : p.read x.addr = some ⟨x.num, x.text, x.stmt, headAddr none B⟩ := by
    have := R.cell
    rwa [Program.entryAt_of p x.num x.addr (R.find x (by simp))] at this
  intro c
  induction c with
  | zero =>
    intro acc
    unfold Program.removeLoop
    rw [if_neg (by push_cast; omega)]
  | succ c ih =>
    intro acc
    unfold Program.removeLoop
    by_cases hc : HashMap.containsKey p.map (c : Int) = true
    · rw [if_pos hc]
      by_cases hcp : (c : Int) = pl.num
      · rw [hcp, hplcell]
        simp only [hxcell, ↓reduceIte]
        rw [← hcp, ih]
        rw [if_neg (by omega), if_pos (by push_cast; omega)]
      · obtain ⟨l, hl, hlc⟩ := R.stored c hc
        obtain ⟨e, he, hnext⟩ := R.cell_next l hl
        rw [hlc] at he
        rw [he]
        rcases hnext with h0 | ⟨nx, ne, s, h1, h2, h3, h4, h5⟩
        · simp only [h0]
          rw [ih]
          by_cases hlt : pl.num < c
          · rw [if_pos hlt, if_pos (by push_cast; omega)]
          · rw [if_neg hlt, if_neg (by push_cast; omega)]
        · simp only [h1, h2]
          by_cases hsx : ne.lineNum = x.num
          · rw [if_pos hsx, ih]
            have hlt : pl.num < c := by
              by_contra hnot
              have h6 := h5 pl (by simp) (by rw [hlc]; omega)
              omega
            rw [if_pos hlt, if_pos (by push_cast; omega)]
          · rw [if_neg hsx, ih]
            by_cases hlt : pl.num < c
            · rw [if_pos hlt, if_pos (by push_cast; omega)]
            · rw [if_neg hlt, if_neg (by push_cast; omega)]
    · rw [if_neg hc, ih]
      have hne : (c : Int) ≠ pl.num := by
        intro e
        rw [e] at hc
        exact hc (R.is_stored pl (by simp))
      by_cases hlt : pl.num < c
      · rw [if_pos hlt, if_pos (by push_cast; omega)]
      · rw [if_neg hlt, if_neg (by push_cast; omega)]

theorem Represents.fields_after_remove {p q : Program} {A B : List Line} {x : Line}
    (R : Represents p (A ++ x :: B))
    (hmap : q.map = HashMap.remove p.map x.num)
    (hchain : Chain q.heap none (A ++ B))
    (hfirst : ∀ l rest, A ++ B = l :: rest → q.firstLineNum = l.num) :
    Represents q (A ++ B) := by
  have hsub : (A ++ B).Sublist (A ++ x :: B) :=
    List.Sublist.append (List.Sublist.refl A) (List.sublist_cons_self x B)
  have hs := R.sorted
  simp only [List.map_append, List.map_cons, List.pairwise_append, List.pairwise_cons,
    List.mem_map, List.mem_cons] at hs
  have hne : ∀ l ∈ A ++ B, l.num ≠ x.num := by
    intro l hl
    rcases List.mem_append.mp hl with h | h
    · have := hs.2.2 l.num ⟨l, h, rfl⟩ x.num (Or.inl rfl); omega
    · have := hs.2.1.1 l.num ⟨l, h, rfl⟩; omega
  refine ⟨hchain, R.sorted.sublist (hsub.map _), fun l hl => R.nonneg l (hsub.subset hl),
    R.addrs.sublist (hsub.map _), ?_, ?_, ?_, ?_, hfirst⟩
  · rw [hmap]; exact HashMap.nodup_remove _ _ R.keys
  · intro l hl
    rw [hmap, HashMap.find_remove, if_neg (hne l hl)]
    exact R.find l (hsub.subset hl)
  · intro k hk
    rw [hmap, HashMap.containsKey_remove] at hk
    obtain ⟨l, hl, e⟩ := R.stored k hk.2
    refine ⟨l, ?_, e⟩
    simp only [List.mem_append, List.mem_cons] at hl ⊢
    rcases hl with h | h | h
    · exact Or.inl h
    · rw [h] at e; exact absurd e.symm hk.1
    · exact Or.inr h
  · have := HashMap.length_remove p.map x.num R.keys (R.is_stored x (by simp))
    rw [hmap]
    have hsz := R.size
    simp only [List.length_append, List.length_cons] at hsz ⊢
    omega

theorem Represents.addr_ne {p : Program} {L : List Line} (R : Represents p L)
    {l m : Line} (hl : l ∈ L) (hm : m ∈ L) (h : l.num ≠ m.num) : l.addr ≠ m.addr := by
  intro e
  obtain ⟨n1, h1⟩ := R.chain.mem l hl
  obtain ⟨n2, h2⟩ := R.chain.mem m hm
  rw [e, h2] at h1
  simp only [Option.some.injEq, Entry.mk.injEq] at h1
  exact h h1.1.symm

theorem Represents.remove_first {p : Program} {x : Line} {B : List Line}
    (R : Represents p (x :: B)) :
    ∃ q, p.removeSourceLine x.num = .ok q ∧ Represents q B := by
  have hf := R.first x B rfl
  have hlen := R.chain.lt_length
  have hat := Program.entryAt_of p x.num x.addr (R.find x (by simp))
  have hcell : p.read x.addr = some ⟨x.num, x.text, x.stmt, headAddr none B⟩ :=
    Program.read_of p x.addr _ R.chain.1
  have hnd := R.addrs
  rw [List.map_cons, List.nodup_cons] at hnd
  have hframe : ∀ f : Int, Chain (p.heap.set x.addr none) none B := by
    intro _
    refine R.chain.2.frame ?_
    intro l hl
    rw [List.getElem?_set_ne]
    intro e
    exact hnd.1 (by rw [e]; exact List.mem_map_of_mem _ hl)
  have R0 : Represents p ([] ++ x :: B) := R
  cases B with
  | nil =>
    refine ⟨{ heap := p.heap.set x.addr none, map := HashMap.remove p.map x.num,
              firstLineNum := p.firstLineNum }, ?_, ?_⟩
    · have hsz : HashMap.size p.map = 1 := R.size
      simp [Program.removeSourceLine, R.is_stored x (by simp), Program.removeEntry, hf, hsz,
        Res.bind, hat, hcell]
    · exact R0.fields_after_remove rfl (hframe 0) (by simp)
  | cons s B2 =>
    have hscell : p.read s.addr = some ⟨s.num, s.text, s.stmt, headAddr none B2⟩ :=
      Program.read_of p s.addr _ R.chain.2.1
    refine ⟨{ heap := p.heap.set x.addr none, map := HashMap.remove p.map x.num,
              firstLineNum := s.num }, ?_, ?_⟩
    · have hsz : HashMap.size p.map = B2.length + 1 + 1 := R.size
      have hxraw := R.chain.1
      have hsraw := R.chain.2.1
      simp [Program.removeSourceLine, R.is_stored x (by simp), Program.removeEntry, hf, hsz,
        Res.bind, Program.deref, headAddr, Program.entryAt, Program.read,
        R.find x (by simp), hxraw, hsraw]
    · refine R0.fields_after_remove rfl (hframe 0) ?_
      intro l rest e
      simp only [List.nil_append, List.cons.injEq] at e
      rw [← e.1]

theorem Represents.remove_later {p : Program} {A : List Line} {pl x : Line}
    {B : List Line} (R : Represents p (A ++ [pl] ++ x :: B)) :
    ∃ q, p.removeSourceLine x.num = .ok q ∧ Represents q (A ++ [pl] ++ B) := by
  have hlen := R.chain.lt_length
  have hs := R.sorted
  simp only [List.map_append, List.map_cons, List.pairwise_append, List.pairwise_cons,
    List.mem_map, List.mem_cons, List.map_nil, List.mem_append, List.mem_singleton] at hs
  have hplx : pl.num < x.num := hs.2.2 pl.num (Or.inr (Or.inl rfl)) x.num (Or.inl rfl)
  have hfirst : p.firstLineNum ≠ x.num ∧
      ∀ l rest, A ++ [pl] ++ B = l :: rest → p.firstLineNum = l.num := by
    cases A with
    | nil =>
      have e := R.first pl (x :: B) (by simp)
      refine ⟨by omega, ?_⟩
      intro l rest h
      simp only [List.nil_append, List.singleton_append, List.cons.injEq] at h
      rw [← h.1]; exact e
    | cons a A2 =>
      have e := R.first a (A2 ++ [pl] ++ x :: B) (by simp)
      have := hs.2.2 a.num (Or.inl ⟨a, by simp, rfl⟩) x.num (Or.inl rfl)
      refine ⟨by omega, ?_⟩
      intro l rest h
      simp only [List.cons_append, List.cons.injEq] at h
      rw [← h.1]; exact e
  have hc := R.chain
  rw [Chain.append, Chain.append] at hc
  have hatx := Program.entryAt_of p x.num x.addr (R.find x (by simp))
  have hatpl := Program.entryAt_of p pl.num pl.addr (R.find pl (by simp))
  have hxcell : p.read x.addr = some ⟨x.num, x.text, x.stmt, headAddr none B⟩ :=
    Program.read_of p x.addr _ hc.2.1
  have hplcell : p.read pl.addr = some ⟨pl.num, pl.text, pl.stmt, some x.addr⟩ :=
    Program.read_of p pl.addr _ hc.1.2.1
  have hne : x.addr ≠ pl.addr :=
    R.addr_ne (by simp) (by simp) (by omega)
  have hx1 : (p.write pl.addr ⟨pl.num, pl.text, pl.stmt, headAddr none B⟩).read x.addr
      = some ⟨x.num, x.text, x.stmt, headAddr none B⟩ := by
    rw [← hxcell]
    simp only [Program.read, Program.write]
    rw [List.getElem?_set_ne (fun e => hne e.symm)]
  refine ⟨{ heap := (p.heap.set pl.addr (some ⟨pl.num, pl.text, pl.stmt, headAddr none B⟩)).set
              x.addr none,
            map := HashMap.remove p.map x.num, firstLineNum := p.firstLineNum }, ?_, ?_⟩
  · have hne2 : ¬ x.num = p.firstLineNum := fun e => hfirst.1 e.symm
    simp only [Program.removeSourceLine, R.is_stored x (by simp), ↓reduceIte,
      Program.removeEntry, ne_eq, hne2, not_false_eq_true, R.removeLoop, Res.bind]
    have hpos : pl.num < (x.num.toNat : Int) := by
      rw [Int.toNat_of_nonneg (R.nonneg x (by simp))]; exact hplx
    simp only [hpos, ↓reduceIte, hatpl, hatx, Program.deref, hxcell, hplcell]
    have hat2 : (p.write pl.addr ⟨pl.num, pl.text, pl.stmt, headAddr none B⟩).entryAt x.num
        = some x.addr := hatx
    simp only [hat2, hx1]
    rfl
  · have R0 : Represents p ((A ++ [pl]) ++ x :: B) := R
    refine R0.fields_after_remove rfl ?_ hfirst.2
    rw [Chain.append, Chain.append]
    have hpllen := hlen pl (by simp)
    refine ⟨⟨?_, ?_, trivial⟩, ?_⟩
    · refine hc.1.1.frame ?_
      intro l hl
      show ((p.heap.set _ _).set _ _)[l.addr]? = _
      have h1 := hs.2.2 l.num (Or.inl ⟨l, hl, rfl⟩) x.num (Or.inl rfl)
      have h2 := hs.1.2.2 l.num ⟨l, hl, rfl⟩ pl.num (Or.inl rfl)
      rw [List.getElem?_set_ne (R.addr_ne (by simp) (by simp [hl]) (by omega)),
        List.getElem?_set_ne (R.addr_ne (by simp) (by simp [hl]) (by omega))]
    · show ((p.heap.set _ _).set _ _)[pl.addr]? = _
      rw [List.getElem?_set_ne hne, List.getElem?_set_self hpllen]
      rfl
    · refine hc.2.2.frame ?_
      intro l hl
      show ((p.heap.set _ _).set _ _)[l.addr]? = _
      have h1 := hs.2.1.1 l.num ⟨l, hl, rfl⟩
      rw [List.getElem?_set_ne (R.addr_ne (by simp) (by simp [hl]) (by omega)),
        List.getElem?_set_ne (R.addr_ne (by simp) (by simp [hl]) (by omega))]

/-- Removal lemma: `removeSourceLine` of a stored line succeeds and yields the
store of the remaining lines. -/
theorem Represents.remove {p : Program} {A B : List Line} {x : Line}
    (R : Represents p (A ++ x :: B)) :
    ∃ q, p.removeSourceLine x.num = .ok q ∧ Represents q (A ++ B) := by
  rcases List.eq_nil_or_concat A with hA0 | ⟨A2, pl, hA2⟩
  · subst hA0
    exact R.remove_first
  · rw [List.concat_eq_append] at hA2
    subst hA2
    exact R.remove_later

theorem Represents.getFirst {p : Program} {L : List Line} (R : Represents p L) :
    p.getFirstLineNumber = headNum L := by
  unfold Program.getFirstLineNumber
  cases L with
  | nil =>
    have hm : p.map = [] := List.eq_nil_of_length_eq_zero R.size
    simp [hm, HashMap.isEmpty, headNum]
  | cons l rest =>
    have hm : HashMap.isEmpty p.map = false := by
      simp [HashMap.isEmpty, R.size]
    simp only [hm, Bool.not_false, ↓reduceIte, R.first l rest rfl, headNum]

theorem headNum_eq (L : List Line) : headNum L = (L.map Line.num).headD (-1) := by
  cases L <;> rfl

/-- C3: in a store built by adding distinct positive lines to a new `Program`,
`removeSourceLine(k)` of a stored line `k` succeeds, the traversal afterwards is
the previous traversal with `k` deleted, and `getFirstLineNumber` returns the
first remaining line, or `-1` when `k` was the only line. -/
theorem C3_remove_relinks (lines : List (Int × String)) (k : Int)
    (hpos : ∀ x ∈ lines, 0 < x.1) (hdistinct : (lines.map Prod.fst).Nodup)
    (hk : k ∈ lines.map Prod.fst) :
    ∃ p q l, Program.new.addLines lines = .ok p ∧ p.removeSourceLine k = .ok q
      ∧ (∀ fuel, lines.length ≤ fuel →
          p.traversal fuel = .ok l ∧ q.traversal fuel = .ok (l.erase k))
      ∧ q.getFirstLineNumber = (l.erase k).headD (-1) := by
  obtain ⟨p, L, hp, R, _, hmemk⟩ :=
    Represents.addLines lines Represents.new (fun _ => rfl)
      (fun x hx => le_of_lt (hpos x hx))
  have hmem : ∀ j, j ∈ L.map Line.num ↔ j ∈ lines.map Prod.fst := by
    intro j; rw [hmemk j]; simp
  have hnd : (L.map Line.num).Nodup := R.sorted.imp (fun h => ne_of_lt h)
  have hlen : L.length = lines.length := by
    have := ((List.perm_ext_iff_of_nodup hnd hdistinct).mpr hmem).length_eq
    simpa using this
  obtain ⟨x, hx, hxk⟩ := List.mem_map.mp ((hmem k).mpr hk)
  obtain ⟨A, B, e⟩ := List.append_of_mem hx
  subst e
  subst hxk
  obtain ⟨q, hq, Rq⟩ := R.remove
  have herase : ((A ++ x :: B).map Line.num).erase x.num = (A ++ B).map Line.num := by
    have hnotin : x.num ∉ A.map Line.num := by
      intro h
      rw [List.map_append, List.map_cons] at hnd
      exact (List.nodup_append.mp hnd).2.2 h (by simp)
    rw [List.map_append, List.map_cons, List.erase_append_right _ hnotin,
      List.erase_cons_head, List.map_append]
  refine ⟨p, q, (A ++ x :: B).map Line.num, hp, hq, ?_, ?_⟩
  · intro fuel hf
    refine ⟨R.traversal fuel (by omega), ?_⟩
    rw [herase]
    apply Rq.traversal
    have : (A ++ B).length ≤ (A ++ x :: B).length := by simp
    omega
  · rw [herase, Rq.getFirst, headNum_eq]

/-- Witness for C3: lines 10, 20, 30; removing 20 leaves 10, 30, and removing
the first line 10 makes 20 the first line. -/
theorem C3_remove_relinks_witness :
    (∃ p q l, Program.new.addLines [(10, "10 REM a"), (20, "20 REM b"), (30, "30 REM c")] = .ok p
      ∧ p.removeSourceLine 20 = .ok q
      ∧ (∀ fuel, 3 ≤ fuel → p.traversal fuel = .ok l ∧ q.traversal fuel = .ok (l.erase 20))
      ∧ q.getFirstLineNumber = (l.erase 20).headD (-1))
    ∧ ((Program.new.addLines [(10, "10 REM a"), (20, "20 REM b"), (30, "30 REM c")]).bind
        (fun p => (p.removeSourceLine 20).bind (fun q => q.traversal 3))) = .ok [10, 30]
    ∧ ((Program.new.addLines [(10, "10 REM a"), (20, "20 REM b"), (30, "30 REM c")]).bind
        (fun p => (p.removeSourceLine 10).bind (fun q => .ok q.getFirstLineNumber))) = .ok 20
    ∧ ((Program.new.addLines [(10, "10 REM a")]).bind
        (fun p => (p.removeSourceLine 10).bind (fun q => .ok q.getFirstLineNumber)))
          = .ok (-1) :=
  ⟨C3_remove_relinks [(10, "10 REM a"), (20, "20 REM b"), (30, "30 REM c")] 20
      (by decide) (by decide) (by decide), by decide, by decide, by decide⟩

/-! ### What callers observe of a represented store -/

theorem Represents.contains_iff {p : Program} {L : List Line} (R : Represents p L)
    (k : Int) : HashMap.containsKey p.map k = true ↔ k ∈ L.map Line.num := by
  constructor
  · intro h
    obtain ⟨l, hl, e⟩ := R.stored k h
    exact List.mem_map.mpr ⟨l, hl, e⟩
  · intro h
    obtain ⟨l, hl, e⟩ := List.mem_map.mp h
    rw [← e]; exact R.is_stored l hl

theorem Represents.getSourceLine_mem {p : Program} {L : List Line} (R : Represents p L)
    (l : Line) (hl : l ∈ L) : p.getSourceLine l.num = .ok l.text := by
  obtain ⟨A, B, e⟩ := List.append_of_mem hl
  subst e
  simp [Program.getSourceLine, R.is_stored l hl, R.cell]

theorem Represents.getParsedStatement_mem {p : Program} {L : List Line}
    (R : Represents p L) (l : Line) (hl : l ∈ L) :
    p.getParsedStatement l.num = .ok l.stmt := by
  obtain ⟨A, B, e⟩ := List.append_of_mem hl
  subst e
  simp [Program.getParsedStatement, R.is_stored l hl, R.cell]

theorem mem_upsert_self (a : Addr) (n : Int) (t : String) (L : List Line) :
    (⟨a, n, t, none⟩ : Line) ∈ upsert a n t L := by
  induction L with
  | nil => simp [upsert]
  | cons l rest ih =>
    simp only [upsert]
    split_ifs <;> simp [ih]

theorem mem_upsert_of_ne (a : Addr) (n : Int) (t : String) (L : List Line) (l : Line)
    (h : l.num ≠ n) : l ∈ upsert a n t L ↔ l ∈ L := by
  induction L with
  | nil =>
    simp only [upsert, List.mem_singleton, List.not_mem_nil, iff_false]
    intro e; rw [e] at h; exact h rfl
  | cons x rest ih =>
    have hne : l ≠ (⟨a, n, t, none⟩ : Line) := by
      intro e; rw [e] at h; exact h rfl
    by_cases h1 : x.num < n
    · simp only [upsert, h1, ↓reduceIte, List.mem_cons, ih]
    · by_cases h2 : x.num = n
      · have hx : l ≠ x := by
          intro e; rw [e] at h; exact h h2
        simp only [upsert, h1, h2, ↓reduceIte, List.mem_cons, hne, hx, false_or,
          lt_self_iff_false]
      · simp only [upsert, h1, h2, ↓reduceIte, List.mem_cons, hne, false_or]

theorem upsert_num_of_mem (a : Addr) (n : Int) (t : String) (L : List Line)
    (hs : (L.map Line.num).Pairwise (· < ·)) (hn : n ∈ L.map Line.num) :
    (upsert a n t L).map Line.num = L.map Line.num := by
  induction L with
  | nil => simp at hn
  | cons x rest ih =>
    rw [List.map_cons, List.pairwise_cons] at hs
    rw [List.map_cons, List.mem_cons] at hn
    by_cases h1 : x.num < n
    · have hn2 : n ∈ rest.map Line.num := by
        rcases hn with e | h
        · omega
        · exact h
      simp only [upsert, h1, ↓reduceIte, List.map_cons, ih hs.2 hn2]
    · by_cases h2 : x.num = n
      · simp only [upsert, h1, h2, ↓reduceIte, List.map_cons, lt_self_iff_false]
      · exfalso
        rcases hn with e | h
        · exact h2 e.symm
        · have := hs.1 n h; omega

/-- Frame lemma: what is observed at a line number other than `n` is the same
in two stores whose lines agree away from `n`. -/
theorem Represents.same_elsewhere {p q : Program} {L L2 : List Line}
    (R : Represents p L) (R2 : Represents q L2) (n k : Int) (hk : k ≠ n)
    (h : ∀ l : Line, l.num ≠ n → (l ∈ L2 ↔ l ∈ L)) :
    q.getSourceLine k = p.getSourceLine k
      ∧ q.getParsedStatement k = p.getParsedStatement k
      ∧ HashMap.containsKey q.map k = HashMap.containsKey p.map k := by
  by_cases hc : HashMap.containsKey p.map k = true
  · obtain ⟨l, hl, e⟩ := R.stored k hc
    have hl2 : l ∈ L2 := (h l (by rw [e]; exact hk)).mpr hl
    subst e
    exact ⟨by rw [R.getSourceLine_mem l hl, R2.getSourceLine_mem l hl2],
      by rw [R.getParsedStatement_mem l hl, R2.getParsedStatement_mem l hl2],
      by rw [R.is_stored l hl, R2.is_stored l hl2]⟩
  · have hc2 : ¬ HashMap.containsKey q.map k = true := by
      intro hq
      obtain ⟨l, hl, e⟩ := R2.stored k hq
      have := (h l (by rw [e]; exact hk)).mp hl
      exact hc (by rw [← e]; exact R.is_stored l this)
    simp only [Bool.not_eq_true] at hc hc2
    simp [Program.getSourceLine, Program.getParsedStatement, hc, hc2]

theorem Represents.setStmt {p : Program} {A B : List Line} {x : Line}
    (R : Represents p (A ++ x :: B)) (s : Statement) :
    ∃ q, p.setParsedStatement x.num s = .ok q
      ∧ Represents q (A ++ ⟨x.addr, x.num, x.text, some s⟩ :: B) := by
  have hc := R.chain
  rw [Chain.append] at hc
  have hxlen := R.chain.lt_length x (by simp)
  have hs := R.sorted
  simp only [List.map_append, List.map_cons, List.pairwise_append, List.pairwise_cons,
    List.mem_map, List.mem_cons] at hs
  refine ⟨p.write x.addr ⟨x.num, x.text, some s, headAddr none B⟩, ?_, ?_⟩
  · simp [Program.setParsedStatement, R.is_stored x (by simp),
      Program.entryAt_of p x.num x.addr (R.find x (by simp)),
      Program.read_of p x.addr _ hc.2.1]
  · refine ⟨?_, ?_, ?_, ?_, R.keys, ?_, ?_, ?_, ?_⟩
    · rw [Chain.append]
      refine ⟨hc.1.frame ?_, ?_, hc.2.2.frame ?_⟩
      · intro l hl
        have := hs.2.2 l.num ⟨l, hl, rfl⟩ x.num (Or.inl rfl)
        show (p.heap.set _ _)[l.addr]? = _
        rw [List.getElem?_set_ne (R.addr_ne (by simp) (by simp [hl]) (by omega))]
      · show (p.heap.set _ _)[x.addr]? = _
        rw [List.getElem?_set_self hxlen]
      · intro l hl
        have := hs.2.1.1 l.num ⟨l, hl, rfl⟩
        show (p.heap.set _ _)[l.addr]? = _
        rw [List.getElem?_set_ne (R.addr_ne (by simp) (by simp [hl]) (by omega))]
    · have := R.sorted
      simpa using this
    · intro l hl
      simp only [List.mem_append, List.mem_cons] at hl
      rcases hl with h | h | h
      · exact R.nonneg l (by simp [h])
      · rw [h]; exact R.nonneg x (by simp)
      · exact R.nonneg l (by simp [h])
    · have := R.addrs
      simpa using this
    · intro l hl
      simp only [List.mem_append, List.mem_cons] at hl
      rcases hl with h | h | h
      · exact R.find l (by simp [h])
      · rw [h]; exact R.find x (by simp)
      · exact R.find l (by simp [h])
    · intro k hk
      obtain ⟨l, hl, e⟩ := R.stored k hk
      simp only [List.mem_append, List.mem_cons] at hl
      rcases hl with h | h | h
      · exact ⟨l, by simp [h], e⟩
      · exact ⟨⟨x.addr, x.num, x.text, some s⟩, by simp, by rw [← e, h]⟩
      · exact ⟨l, by simp [h], e⟩
    · have := R.size
      simpa using this
    · intro l rest e
      cases A with
      | nil =>
        simp only [List.nil_append, List.cons.injEq] at e
        rw [← e.1]
        exact R.first x B rfl
      | cons a A2 =>
        simp only [List.cons_append, List.cons.injEq] at e
        rw [← e.1]
        exact R.first a (A2 ++ x :: B) rfl

theorem Program.WellFormed.addSourceLine {p q : Program} (h : p.WellFormed) (n : Int)
    (t : String) (hn : 0 ≤ n) (hq : p.addSourceLine n t = .ok q) : q.WellFormed := by
  obtain ⟨L, R, hf⟩ := h
  obtain ⟨q2, hq2, R2⟩ := R.add hf n t hn
  rw [hq] at hq2
  cases hq2
  exact ⟨_, R2, fun e => absurd e (upsert_ne_nil _ _ _ _)⟩

theorem Program.WellFormed.setParsedStatement {p q : Program} (h : p.WellFormed)
    (n : Int) (s : Statement) (hq : p.setParsedStatement n s = .ok q) : q.WellFormed := by
  obtain ⟨L, R, hf⟩ := h
  by_cases hc : HashMap.containsKey p.map n = true
  · obtain ⟨x, hx, e⟩ := R.stored n hc
    obtain ⟨A, B, e2⟩ := List.append_of_mem hx
    subst e2
    subst e
    obtain ⟨q2, hq2, R2⟩ := R.setStmt s
    rw [hq] at hq2
    cases hq2
    exact ⟨_, R2, fun e => by simp at e⟩
  · simp [Program.setParsedStatement, hc] at hq

theorem exampleStore_built :
    (Program.new.addLines [(20, "20 END"), (10, "10 REM a"), (30, "30 REM c")]).bind
      (fun p => p.setParsedStatement 20 .EndStmt) = .ok exampleStore := by
  decide

theorem exampleStore_wellFormed : exampleStore.WellFormed := by
  have h := exampleStore_built
  obtain ⟨q, L, hq, R, hf, _⟩ :=
    Represents.addLines [(20, "20 END"), (10, "10 REM a"), (30, "30 REM c")]
      Represents.new (fun _ => rfl) (by decide)
  rw [hq] at h
  exact Program.WellFormed.setParsedStatement ⟨L, R, hf⟩ 20 .EndStmt h

/-- C2 (evaluation at the failing input): after line 10 is added to a new
`Program` and removed again, `firstLineNum` still holds 10; adding line 20 then
dereferences `map[-1]`, a null pointer, and adding line 5 instead leaves the
number 10 in the map as a key without an entry. -/
theorem C2_emptied_store_keeps_first_line :
    ((Program.new.addSourceLine 10 "10 END").bind (fun p =>
        (p.removeSourceLine 10).bind (fun q => .ok q.firstLineNum))) = .ok 10
    ∧ ((Program.new.addSourceLine 10 "10 END").bind (fun p =>
        (p.removeSourceLine 10).bind (fun q => q.addSourceLine 20 "20 END"))) = .undef
    ∧ ((Program.new.addSourceLine 10 "10 END").bind (fun p =>
        (p.removeSourceLine 10).bind (fun q => (q.addSourceLine 5 "5 END").bind (fun r =>
          .ok (r.traversal 5, HashMap.containsKey r.map 10, r.getSourceLine 10)))))
        = .ok (.ok [5], true, .undef)
    ∧ (Program.new.addSourceLine 20 "20 END") ≠ .undef := by
  decide

/-- C4 (evaluation at the failing input): in the store holding only line 10,
`getNextLineNumber(5)` finds no preceding line, `findPrevLine` returns `-1`, the
test `prevLineNumber == 0` fails and `map[-1]` is dereferenced. -/
theorem C4_getNext_below_first_line :
    ((Program.new.addSourceLine 10 "10 END").bind (fun p => .ok (p.findPrevLine 5)))
      = .ok (-1)
    ∧ ((Program.new.addSourceLine 10 "10 END").bind (fun p => p.getNextLineNumber 5))
      = .undef
    ∧ ((Program.new.addSourceLine 10 "10 END").bind (fun p => p.getNextLineNumber 15))
      = .ok (-1) := by
  decide

/-- C5 (counterexample): line 10 holds `10 PRINT 1` with its statement; the
submission `10 PRINT )` fails to parse, and afterwards line 10 holds the new
text and no statement. -/
theorem C5_failed_parse_changes_store :
    (processCode readDecimal 50 10 "10 PRINT 1" ["PRINT", "1"] Program.new).1 = .ok ()
    ∧ (processCode readDecimal 50 10 "10 PRINT 1" ["PRINT", "1"] Program.new).2.getSourceLine 10
        = .ok "10 PRINT 1"
    ∧ (processCode readDecimal 50 10 "10 PRINT 1" ["PRINT", "1"] Program.new).2.getParsedStatement 10
        = .ok (some (.PrintStmt "" [.ConstantExp 1]))
    ∧ parseStatement readDecimal 50 ["PRINT", ")"] = .error "Illegal term in expression)"
    ∧ (processCode readDecimal 50 10 "10 PRINT )" ["PRINT", ")"]
        (processCode readDecimal 50 10 "10 PRINT 1" ["PRINT", "1"] Program.new).2).1
        = .error "Illegal term in expression)"
    ∧ (processCode readDecimal 50 10 "10 PRINT )" ["PRINT", ")"]
        (processCode readDecimal 50 10 "10 PRINT 1" ["PRINT", "1"] Program.new).2).2.getSourceLine 10
        = .ok "10 PRINT )"
    ∧ (processCode readDecimal 50 10 "10 PRINT )" ["PRINT", ")"]
        (processCode readDecimal 50 10 "10 PRINT 1" ["PRINT", "1"] Program.new).2).2.getParsedStatement 10
        = .ok none := by
  decide

/-- What `addSourceLine` does to a well-formed store, as callers observe it. -/
theorem Program.WellFormed.add_observed {p : Program} (hwf : p.WellFormed) (n : Int)
    (t : String) (hn : 0 ≤ n) :
    ∃ q, p.addSourceLine n t = .ok q ∧ q.WellFormed
      ∧ q.getSourceLine n = .ok t ∧ q.getParsedStatement n = .ok none
      ∧ (∀ k, k ≠ n → q.getSourceLine k = p.getSourceLine k
          ∧ q.getParsedStatement k = p.getParsedStatement k)
      ∧ (∀ k, HashMap.containsKey q.map k = true
          ↔ (k = n ∨ HashMap.containsKey p.map k = true))
      ∧ (∀ fuel, HashMap.size q.map ≤ fuel →
          ∃ l, q.traversal fuel = .ok l ∧ l.Pairwise (· < ·)
            ∧ (∀ k, k ∈ l ↔ HashMap.containsKey q.map k = true)
            ∧ (HashMap.containsKey p.map n = true → p.traversal fuel = .ok l)) := by
  obtain ⟨L, R, hf⟩ := hwf
  obtain ⟨q, hq, R2⟩ := R.add hf n t hn
  have hnew := mem_upsert_self p.heap.length n t L
  refine ⟨q, hq, ⟨_, R2, fun e => absurd e (upsert_ne_nil _ _ _ _)⟩,
    R2.getSourceLine_mem _ hnew, R2.getParsedStatement_mem _ hnew, ?_, ?_, ?_⟩
  · intro k hk
    have := R.same_elsewhere R2 n k hk (fun l hl => mem_upsert_of_ne _ n t L l hl)
    exact ⟨this.1, this.2.1⟩
  · intro k
    rw [R2.contains_iff, R.contains_iff, mem_upsert_num]
  · intro fuel hfuel
    have hsz : HashMap.size q.map = (upsert p.heap.length n t L).length := R2.size
    refine ⟨_, R2.traversal fuel (by omega), R2.sorted, ?_, ?_⟩
    · intro k; rw [R2.contains_iff]
    · intro hst
      have hmem := (R.contains_iff n).mp hst
      have e := upsert_num_of_mem p.heap.length n t L R.sorted hmem
      rw [e]
      apply R.traversal
      have : L.length = (upsert p.heap.length n t L).length := by
        have := congrArg List.length e
        simpa using this.symm
      omega

/-- C5 (amended): on a well-formed store, a submitted line `n <text>` whose
statement fails to parse makes `processCode` raise the parse error after the
text has been committed: line `n` then holds the submitted text and no
statement, every other line keeps its text and statement, the stored numbers
are the previous ones together with `n`, and the traversal is strictly
ascending over them. -/
theorem C5_failed_parse_commits_text (stringToReal : String → Res Rat) (fuel : Nat)
    (p : Program) (n : Int) (line : String) (scanner : Scanner) (m : String)
    (hwf : p.WellFormed) (hn : 0 ≤ n) (hmore : (hasMoreTokens scanner).1 = true)
    (hfail : parseStatement stringToReal fuel (hasMoreTokens scanner).2 = .error m) :
    ∃ q, processCode stringToReal fuel n line scanner p = (.error m, q)
      ∧ q.getSourceLine n = .ok line ∧ q.getParsedStatement n = .ok none
      ∧ (∀ k, k ≠ n → q.getSourceLine k = p.getSourceLine k
          ∧ q.getParsedStatement k = p.getParsedStatement k)
      ∧ (∀ k, HashMap.containsKey q.map k = true
          ↔ (k = n ∨ HashMap.containsKey p.map k = true))
      ∧ (∀ fuel2, HashMap.size q.map ≤ fuel2 →
          ∃ l, q.traversal fuel2 = .ok l ∧ l.Pairwise (· < ·)
            ∧ ∀ k, k ∈ l ↔ HashMap.containsKey q.map k = true) := by
  obtain ⟨q, hq, _, h1, h2, h3, h4, h5⟩ := hwf.add_observed n line hn
  refine ⟨q, ?_, h1, h2, h3, h4, ?_⟩
  · simp only [processCode, hmore, ↓reduceIte, hq, hfail]
  · intro fuel2 hf2
    obtain ⟨l, hl1, hl2, hl3, _⟩ := h5 fuel2 hf2
    exact ⟨l, hl1, hl2, hl3⟩

/-- Witness for C5: the submission `20 LET` to the example store. -/
theorem C5_failed_parse_commits_text_witness :
    ∃ q, processCode readDecimal 50 20 "20 LET" ["LET"] exampleStore
        = (.error "Illegal operator: ", q)
      ∧ q.getSourceLine 20 = .ok "20 LET" ∧ q.getParsedStatement 20 = .ok none
      ∧ (∀ k, k ≠ 20 → q.getSourceLine k = exampleStore.getSourceLine k
          ∧ q.getParsedStatement k = exampleStore.getParsedStatement k)
      ∧ (∀ k, HashMap.containsKey q.map k = true
          ↔ (k = 20 ∨ HashMap.containsKey exampleStore.map k = true))
      ∧ (∀ fuel2, HashMap.size q.map ≤ fuel2 →
          ∃ l, q.traversal fuel2 = .ok l ∧ l.Pairwise (· < ·)
            ∧ ∀ k, k ∈ l ↔ HashMap.containsKey q.map k = true) :=
  C5_failed_parse_commits_text readDecimal 50 exampleStore 20 "20 LET" ["LET"]
    "Illegal operator: " exampleStore_wellFormed (by decide) (by decide) (by decide)

/-- C6 (counterexample): after `addSourceLine(10, ...)` on a new `Program`, with
no statement attached, `getParsedStatement(10)` returns `NULL` and raises no
error. -/
theorem C6_added_line_without_statement_no_error :
    ((Program.new.addSourceLine 10 "10 PRINT").bind (fun p => p.getParsedStatement 10))
      = .ok none
    ∧ ((Program.new.addSourceLine 10 "10 PRINT").bind
        (fun p => p.getParsedStatement 10)).isError = false := by
  decide

/-- C6 (amended): `getParsedStatement(n)` raises an error for every `n` that is
not in the store; for a line `n` just added by `addSourceLine` to a well-formed
store, with no statement attached, it returns `NULL` without an error. -/
theorem C6_getParsedStatement_absent_or_unparsed (p : Program) (n : Int) (t : String) :
    (HashMap.containsKey p.map n = false →
      p.getParsedStatement n = .error ("Invalid line number: " ++ toString n))
    ∧ (p.WellFormed → 0 ≤ n →
        ∃ q, p.addSourceLine n t = .ok q ∧ q.getParsedStatement n = .ok none) := by
  constructor
  · intro h
    simp [Program.getParsedStatement, h]
  · intro hwf hn
    obtain ⟨q, hq, _, _, h2, _⟩ := hwf.add_observed n t hn
    exact ⟨q, hq, h2⟩

/-- Witness for C6: line 40 in the example store. -/
theorem C6_getParsedStatement_absent_or_unparsed_witness :
    exampleStore.getParsedStatement 40 = .error ("Invalid line number: " ++ toString (40 : Int))
    ∧ ∃ q, exampleStore.addSourceLine 40 "40 PRINT" = .ok q
        ∧ q.getParsedStatement 40 = .ok none :=
  ⟨(C6_getParsedStatement_absent_or_unparsed exampleStore 40 "40 PRINT").1 (by decide),
   (C6_getParsedStatement_absent_or_unparsed exampleStore 40 "40 PRINT").2
     exampleStore_wellFormed (by decide)⟩

/-- C7: in a well-formed store that contains line `n`, with or without a
statement attached, `addSourceLine(n, t)` succeeds; afterwards `getSourceLine(n)`
is `t`, no statement is attached to `n`, and the stored line numbers and the
traversal are the same as before. -/
theorem C7_readd_replaces_text (p : Program) (n : Int) (t : String)
    (hwf : p.WellFormed) (hstored : HashMap.containsKey p.map n = true) :
    ∃ q, p.addSourceLine n t = .ok q
      ∧ q.getSourceLine n = .ok t ∧ q.getParsedStatement n = .ok none
      ∧ (∀ k, HashMap.containsKey q.map k = HashMap.containsKey p.map k)
      ∧ (∀ fuel, HashMap.size p.map ≤ fuel →
          ∃ l, p.traversal fuel = .ok l ∧ q.traversal fuel = .ok l) := by
  have hn : 0 ≤ n := by
    obtain ⟨L, R, _⟩ := hwf
    obtain ⟨l, hl, e⟩ := R.stored n hstored
    rw [← e]; exact R.nonneg l hl
  obtain ⟨q, hq, hwf2, h1, h2, _, h4, h5⟩ := hwf.add_observed n t hn
  have hsame : ∀ k, HashMap.containsKey q.map k = HashMap.containsKey p.map k := by
    intro k
    rw [Bool.eq_iff_iff, h4 k]
    constructor
    · rintro (e | h)
      · rw [e]; exact hstored
      · exact h
    · exact Or.inr
  have hsize : HashMap.size q.map = HashMap.size p.map := by
    obtain ⟨L, R, hf⟩ := hwf
    obtain ⟨q2, hq2, R2⟩ := R.add hf n t hn
    rw [hq] at hq2
    cases hq2
    have e := upsert_num_of_mem p.heap.length n t L R.sorted ((R.contains_iff n).mp hstored)
    have e2 := congrArg List.length e
    simp only [List.length_map] at e2
    show q.map.length = p.map.length
    rw [R2.size, R.size, e2]
  refine ⟨q, hq, h1, h2, hsame, ?_⟩
  intro fuel hfuel
  obtain ⟨l, hl1, _, _, hl4⟩ := h5 fuel (by omega)
  exact ⟨l, hl4 hstored, hl1⟩

/-- Witness for C7: line 20 of the example store, which has the statement `END`
attached, is added again with a new text. -/
theorem C7_readd_replaces_text_witness :
    exampleStore.getParsedStatement 20 = .ok (some .EndStmt)
    ∧ ∃ q, exampleStore.addSourceLine 20 "20 REM z" = .ok q
      ∧ q.getSourceLine 20 = .ok "20 REM z" ∧ q.getParsedStatement 20 = .ok none
      ∧ (∀ k, HashMap.containsKey q.map k = HashMap.containsKey exampleStore.map k)
      ∧ (∀ fuel, HashMap.size exampleStore.map ≤ fuel →
          ∃ l, exampleStore.traversal fuel = .ok l ∧ q.traversal fuel = .ok l) :=
  ⟨by decide,
   C7_readd_replaces_text exampleStore 20 "20 REM z" exampleStore_wellFormed (by decide)⟩

/-! ### Stepping lemmas for the parser -/

theorem readELoop_stop (stringToReal : String → Res Rat) (f prec : Nat) (e : Expression)
    (s : Scanner) (h : precedence (nextToken s).1 ≤ prec) :
    readELoop stringToReal (f + 1) prec e s = .ok (e, afterLookahead s) := by
  rw [readELoop]
  simp only [h, ↓reduceIte, afterLookahead]

theorem readELoop_step (stringToReal : String → Res Rat) (f prec : Nat) (e rhs : Expression)
    (op : String) (s s2 : Scanner) (h : prec < precedence op)
    (hr : readE stringToReal f (precedence op) s = .ok (rhs, s2)) :
    readELoop stringToReal (f + 1) prec e (op :: s)
      = readELoop stringToReal f prec (.CompoundExp op e rhs) s2 := by
  rw [readELoop]
  simp only [nextToken, Nat.not_le.mpr h, ↓reduceIte, hr]

theorem readE_of_readT (stringToReal : String → Res Rat) (f prec : Nat) (s s4 : Scanner)
    (exp : Expression) (h : (nextToken s).1 ≠ "-")
    (hr : readT stringToReal f s = .ok (exp, s4)) :
    readE stringToReal (f + 1) prec s = readELoop stringToReal f prec exp s4 := by
  have hs : saveToken (nextToken s).1 (nextToken s).2 = s := by
    cases s with
    | nil =>
      exfalso
      cases f with
      | zero => rw [readT] at hr; cases hr
      | succ f =>
        rw [readT] at hr
        simp [nextToken, getTokenType] at hr
    | cons t ts => rfl
  rw [readE]
  simp only [h, ↓reduceIte, hs, hr]

theorem afterLookahead_next (s : Scanner) : nextToken (afterLookahead s) = nextToken s := by
  cases s <;> rfl

theorem afterLookahead_idem (s : Scanner) :
    afterLookahead (afterLookahead s) = afterLookahead s := by
  cases s <;> rfl

theorem ReadsT.head_ne_minus {stringToReal : String → Res Rat} {s s2 : Scanner}
    {e : Expression} (h : ReadsT stringToReal s e s2) : (nextToken s).1 ≠ "-" := by
  obtain ⟨f0, hf⟩ := h
  have h1 := hf (f0 + 1) (by omega)
  rw [readT] at h1
  intro e1
  rw [e1] at h1
  simp [getTokenType] at h1

theorem ReadsLoop.stop {stringToReal : String → Res Rat} {prec : Nat} {e : Expression}
    {s : Scanner} (h : precedence (nextToken s).1 ≤ prec) :
    ReadsLoop stringToReal prec e s e (afterLookahead s) := by
  refine ⟨1, ?_⟩
  intro f hf
  obtain ⟨k, rfl⟩ := Nat.exists_eq_add_of_le hf
  rw [Nat.add_comm, readELoop_stop stringToReal k prec e s h]

theorem ReadsLoop.stop_again {stringToReal : String → Res Rat} {prec : Nat}
    {e : Expression} {s : Scanner} (h : precedence (nextToken s).1 ≤ prec) :
    ReadsLoop stringToReal prec e (afterLookahead s) e (afterLookahead s) := by
  have h2 : precedence (nextToken (afterLookahead s)).1 ≤ prec := by
    rw [afterLookahead_next]; exact h
  have h3 : ReadsLoop stringToReal prec e (afterLookahead s) e
      (afterLookahead (afterLookahead s)) := ReadsLoop.stop h2
  rwa [afterLookahead_idem] at h3

theorem ReadsLoop.step {stringToReal : String → Res Rat} {prec : Nat}
    {e0 rhs e : Expression} {op : String} {s s2 s3 : Scanner}
    (h : prec < precedence op) (hr : ReadsE stringToReal (precedence op) s rhs s2)
    (hl : ReadsLoop stringToReal prec (.CompoundExp op e0 rhs) s2 e s3) :
    ReadsLoop stringToReal prec e0 (op :: s) e s3 := by
  obtain ⟨F1, h1⟩ := hr
  obtain ⟨F2, h2⟩ := hl
  refine ⟨F1 + F2 + 1, ?_⟩
  intro f hf
  obtain ⟨k, rfl⟩ := Nat.exists_eq_add_of_le hf
  have e1 : F1 + F2 + 1 + k = (F1 + F2 + k) + 1 := by omega
  rw [e1, readELoop_step stringToReal _ prec e0 rhs op s s2 h (h1 _ (by omega))]
  exact h2 _ (by omega)

theorem ReadsE.of_term {stringToReal : String → Res Rat} {prec : Nat}
    {e0 e : Expression} {s s1 s2 : Scanner} (ht : ReadsT stringToReal s e0 s1)
    (hl : ReadsLoop stringToReal prec e0 s1 e s2) : ReadsE stringToReal prec s e s2 := by
  have hne := ht.head_ne_minus
  obtain ⟨F1, h1⟩ := ht
  obtain ⟨F2, h2⟩ := hl
  refine ⟨F1 + F2 + 1, ?_⟩
  intro f hf
  obtain ⟨k, rfl⟩ := Nat.exists_eq_add_of_le hf
  have e1 : F1 + F2 + 1 + k = (F1 + F2 + k) + 1 := by omega
  rw [e1, readE_of_readT stringToReal _ prec s s1 e0 hne (h1 _ (by omega))]
  exact h2 _ (by omega)

theorem ReadsT.paren {stringToReal : String → Res Rat} {e : Expression}
    {s s2 : Scanner} (h : ReadsE stringToReal 0 s e (")" :: s2)) :
    ReadsT stringToReal ("(" :: s) e s2 := by
  obtain ⟨F, hF⟩ := h
  refine ⟨F + 1, ?_⟩
  intro f hf
  obtain ⟨k, rfl⟩ := Nat.exists_eq_add_of_le hf
  have e1 : F + 1 + k = (F + k) + 1 := by omega
  rw [e1, readT]
  simp [nextToken, getTokenType, hF (F + k) (by omega)]

theorem ParsesTerm.word (stringToReal : String → Res Rat) (x : String)
    (h : getTokenType x = .WORD) : ParsesTerm stringToReal [x] (.IdentifierExp x) := by
  intro rest
  refine ⟨1, ?_⟩
  intro f hf
  obtain ⟨k, rfl⟩ := Nat.exists_eq_add_of_le hf
  rw [Nat.add_comm, readT]
  simp [nextToken, h]

theorem ParsesTerm.number (stringToReal : String → Res Rat) (x : String) (v : Rat)
    (h : getTokenType x = .NUMBER) (hv : stringToReal x = .ok v) :
    ParsesTerm stringToReal [x] (.ConstantExp v) := by
  intro rest
  refine ⟨1, ?_⟩
  intro f hf
  obtain ⟨k, rfl⟩ := Nat.exists_eq_add_of_le hf
  rw [Nat.add_comm, readT]
  simp [nextToken, h, hv]

/-- A term followed by a token that does not continue the expression. -/
theorem ReadsE.term_end {stringToReal : String → Res Rat} {prec : Nat} {ts : List String}
    {e : Expression} (ht : ParsesTerm stringToReal ts e) (rest : Scanner)
    (hend : precedence (nextToken rest).1 ≤ prec) :
    ReadsE stringToReal prec (ts ++ rest) e (afterLookahead rest) :=
  ReadsE.of_term (ht rest) (ReadsLoop.stop hend)

/-- Two terms joined by one operator above the threshold. -/
theorem ReadsE.binary {stringToReal : String → Res Rat} {prec : Nat}
    {ta tb : List String} {ea eb : Expression} {op : String}
    (ha : ParsesTerm stringToReal ta ea) (hb : ParsesTerm stringToReal tb eb)
    (hop : prec < precedence op) (rest : Scanner)
    (hend : precedence (nextToken rest).1 ≤ prec) :
    ReadsE stringToReal prec (ta ++ op :: (tb ++ rest)) (.CompoundExp op ea eb)
      (afterLookahead rest) := by
  refine ReadsE.of_term (ha _) (ReadsLoop.step hop (ReadsE.term_end hb rest ?_) ?_)
  · omega
  · exact ReadsLoop.stop_again hend

theorem ParsesTo.of_readsE {stringToReal : String → Res Rat} {s : Scanner}
    {e : Expression} (h : ReadsE stringToReal 0 s e (afterLookahead [])) :
    ParsesTo stringToReal s e := by
  obtain ⟨F, hF⟩ := h
  refine ⟨F, ?_⟩
  intro f hf
  rw [parseExp, hF f hf]
  rfl

theorem precedence_low {op : String} (h : op = "+" ∨ op = "-") : precedence op = 1 := by
  rcases h with rfl | rfl <;> decide

theorem precedence_high {op : String} (h : op = "*" ∨ op = "/") : precedence op = 2 := by
  rcases h with rfl | rfl <;> decide

theorem reads_low_high {stringToReal : String → Res Rat} {ta tb tc : List String}
    {ea eb ec : Expression} {lo hi : String}
    (ha : ParsesTerm stringToReal ta ea) (hb : ParsesTerm stringToReal tb eb)
    (hc : ParsesTerm stringToReal tc ec) (hlo : precedence lo = 1)
    (hhi : precedence hi = 2) (rest : Scanner) (hend : precedence (nextToken rest).1 = 0) :
    ReadsE stringToReal 0 (ta ++ lo :: (tb ++ hi :: (tc ++ rest)))
      (.CompoundExp lo ea (.CompoundExp hi eb ec)) (afterLookahead rest) := by
  have h1 : ReadsE stringToReal (precedence lo) (tb ++ hi :: (tc ++ rest))
      (.CompoundExp hi eb ec) (afterLookahead rest) := by
    rw [hlo]
    exact ReadsE.binary hb hc (by omega) rest (by omega)
  have h2 : ReadsLoop stringToReal 0 (.CompoundExp lo ea (.CompoundExp hi eb ec))
      (afterLookahead rest) (.CompoundExp lo ea (.CompoundExp hi eb ec))
      (afterLookahead rest) :=
    ReadsLoop.stop_again (by omega)
  exact ReadsE.of_term (ha _) (ReadsLoop.step (by omega) h1 h2)

/-- The second operator does not bind tighter than the first: the first pair is
grouped. -/
theorem reads_same_or_lower {stringToReal : String → Res Rat} {ta tb tc : List String}
    {ea eb ec : Expression} {op1 op2 : String}
    (ha : ParsesTerm stringToReal ta ea) (hb : ParsesTerm stringToReal tb eb)
    (hc : ParsesTerm stringToReal tc ec) (h1 : 0 < precedence op1) (h2 : 0 < precedence op2)
    (h12 : precedence op2 ≤ precedence op1) (rest : Scanner)
    (hend : precedence (nextToken rest).1 = 0) :
    ReadsE stringToReal 0 (ta ++ op1 :: (tb ++ op2 :: (tc ++ rest)))
      (.CompoundExp op2 (.CompoundExp op1 ea eb) ec) (afterLookahead rest) := by
  have hb1 : ReadsE stringToReal (precedence op1) (tb ++ op2 :: (tc ++ rest)) eb
      (op2 :: (tc ++ rest)) :=
    ReadsE.term_end hb (op2 :: (tc ++ rest)) h12
  have hc1 : ReadsE stringToReal (precedence op2) (tc ++ rest) ec (afterLookahead rest) :=
    ReadsE.term_end hc rest (by omega)
  have hstop : ReadsLoop stringToReal 0 (.CompoundExp op2 (.CompoundExp op1 ea eb) ec)
      (afterLookahead rest) (.CompoundExp op2 (.CompoundExp op1 ea eb) ec)
      (afterLookahead rest) :=
    ReadsLoop.stop_again (by omega)
  exact ReadsE.of_term (ha _) (ReadsLoop.step h1 hb1 (ReadsLoop.step h2 hc1 hstop))

theorem reads_high_low {stringToReal : String → Res Rat} {ta tb tc : List String}
    {ea eb ec : Expression} {lo hi : String}
    (ha : ParsesTerm stringToReal ta ea) (hb : ParsesTerm stringToReal tb eb)
    (hc : ParsesTerm stringToReal tc ec) (hlo : precedence lo = 1)
    (hhi : precedence hi = 2) (rest : Scanner) (hend : precedence (nextToken rest).1 = 0) :
    ReadsE stringToReal 0 (ta ++ hi :: (tb ++ lo :: (tc ++ rest)))
      (.CompoundExp lo (.CompoundExp hi ea eb) ec) (afterLookahead rest) := by
  exact reads_same_or_lower ha hb hc (by omega) (by omega) (by omega) rest hend

theorem reads_same_level {stringToReal : String → Res Rat} {ta tb tc : List String}
    {ea eb ec : Expression} {op1 op2 : String}
    (ha : ParsesTerm stringToReal ta ea) (hb : ParsesTerm stringToReal tb eb)
    (hc : ParsesTerm stringToReal tc ec) (h1 : 0 < precedence op1)
    (h12 : precedence op2 = precedence op1) (rest : Scanner)
    (hend : precedence (nextToken rest).1 = 0) :
    ReadsE stringToReal 0 (ta ++ op1 :: (tb ++ op2 :: (tc ++ rest)))
      (.CompoundExp op2 (.CompoundExp op1 ea eb) ec) (afterLookahead rest) := by
  exact reads_same_or_lower ha hb hc h1 (by omega) (by omega) rest hend

/-- A parenthesised pair of terms joined by an operator is a term. -/
theorem ParsesTerm.paren_binary {stringToReal : String → Res Rat} {ta tb : List String}
    {ea eb : Expression} {op : String}
    (ha : ParsesTerm stringToReal ta ea) (hb : ParsesTerm stringToReal tb eb)
    (hop : 0 < precedence op) :
    ParsesTerm stringToReal ("(" :: (ta ++ op :: (tb ++ [")"]))) (.CompoundExp op ea eb) := by
  intro rest
  have h : ReadsE stringToReal 0 (ta ++ op :: (tb ++ ")" :: rest)) (.CompoundExp op ea eb)
      (")" :: rest) :=
    ReadsE.binary ha hb hop (")" :: rest) (show precedence ")" ≤ 0 by decide)
  have e : ("(" :: (ta ++ op :: (tb ++ [")"]))) ++ rest
      = "(" :: (ta ++ op :: (tb ++ ")" :: rest)) := by simp
  rw [e]
  exact ReadsT.paren h

theorem evalText_of_parse {fuel : Nat} {s : Scanner} {e : Expression}
    (h : parseExp readDecimal fuel s = .ok e) : evalText fuel s = (eval e emptyState).1 := by
  simp only [evalText, h]

/-- C8: for all terms `a`, `b`, `c`, an operator `lo` among `+`, `-` and an
operator `hi` among `*`, `/`: `a lo b hi c` is read as `lo(a, hi(b, c))`,
`a hi b lo c` as `lo(hi(a, b), c)`, and the parenthesised `( a lo b ) hi c` as
`hi(lo(a, b), c)`; both by `parseExp` on the whole text and by `readE` in front of
any token that is not an arithmetic operator. -/
theorem C8_precedence (stringToReal : String → Res Rat) (ta tb tc : List String)
    (ea eb ec : Expression) (lo hi : String)
    (ha : ParsesTerm stringToReal ta ea) (hb : ParsesTerm stringToReal tb eb)
    (hc : ParsesTerm stringToReal tc ec)
    (hlo : lo = "+" ∨ lo = "-") (hhi : hi = "*" ∨ hi = "/") :
    ParsesTo stringToReal (ta ++ [lo] ++ tb ++ [hi] ++ tc)
        (.CompoundExp lo ea (.CompoundExp hi eb ec))
    ∧ ParsesTo stringToReal (ta ++ [hi] ++ tb ++ [lo] ++ tc)
        (.CompoundExp lo (.CompoundExp hi ea eb) ec)
    ∧ ParsesTo stringToReal (["("] ++ ta ++ [lo] ++ tb ++ [")"] ++ [hi] ++ tc)
        (.CompoundExp hi (.CompoundExp lo ea eb) ec)
    ∧ (∀ rest, precedence (nextToken rest).1 = 0 →
        ReadsE stringToReal 0 (ta ++ [lo] ++ tb ++ [hi] ++ tc ++ rest)
          (.CompoundExp lo ea (.CompoundExp hi eb ec)) (afterLookahead rest)
        ∧ ReadsE stringToReal 0 (ta ++ [hi] ++ tb ++ [lo] ++ tc ++ rest)
          (.CompoundExp lo (.CompoundExp hi ea eb) ec) (afterLookahead rest)
        ∧ ReadsE stringToReal 0 (["("] ++ ta ++ [lo] ++ tb ++ [")"] ++ [hi] ++ tc ++ rest)
          (.CompoundExp hi (.CompoundExp lo ea eb) ec) (afterLookahead rest)) := by
  have h1 := precedence_low hlo
  have h2 := precedence_high hhi
  have hgen : ∀ rest, precedence (nextToken rest).1 = 0 →
      ReadsE stringToReal 0 (ta ++ [lo] ++ tb ++ [hi] ++ tc ++ rest)
        (.CompoundExp lo ea (.CompoundExp hi eb ec)) (afterLookahead rest)
      ∧ ReadsE stringToReal 0 (ta ++ [hi] ++ tb ++ [lo] ++ tc ++ rest)
        (.CompoundExp lo (.CompoundExp hi ea eb) ec) (afterLookahead rest)
      ∧ ReadsE stringToReal 0 (["("] ++ ta ++ [lo] ++ tb ++ [")"] ++ [hi] ++ tc ++ rest)
        (.CompoundExp hi (.CompoundExp lo ea eb) ec) (afterLookahead rest) := by
    intro rest hend
    refine ⟨?_, ?_, ?_⟩
    · have := reads_low_high ha hb hc h1 h2 rest hend
      simpa [List.append_assoc] using this
    · have := reads_high_low ha hb hc h1 h2 rest hend
      simpa [List.append_assoc] using this
    · have hp := ParsesTerm.paren_binary ha hb (show 0 < precedence lo by omega)
      have := ReadsE.binary hp hc (show 0 < precedence hi by omega) rest (by omega)
      simpa [List.append_assoc] using this
  have h0 := hgen [] (by decide)
  refine ⟨?_, ?_, ?_, hgen⟩
  · exact ParsesTo.of_readsE (by simpa using h0.1)
  · exact ParsesTo.of_readsE (by simpa using h0.2.1)
  · exact ParsesTo.of_readsE (by simpa using h0.2.2)

/-- Witness for C8: the terms `2`, `3`, `4` with `+` and `*`; `2+3*4` evaluates
to 14 and `(2+3)*4` to 20. -/
theorem C8_precedence_witness :
    (ParsesTo readDecimal (["2"] ++ ["+"] ++ ["3"] ++ ["*"] ++ ["4"])
        (.CompoundExp "+" (.ConstantExp 2) (.CompoundExp "*" (.ConstantExp 3) (.ConstantExp 4)))
    ∧ ParsesTo readDecimal (["2"] ++ ["*"] ++ ["3"] ++ ["+"] ++ ["4"])
        (.CompoundExp "+" (.CompoundExp "*" (.ConstantExp 2) (.ConstantExp 3)) (.ConstantExp 4))
    ∧ ParsesTo readDecimal (["("] ++ ["2"] ++ ["+"] ++ ["3"] ++ [")"] ++ ["*"] ++ ["4"])
        (.CompoundExp "*" (.CompoundExp "+" (.ConstantExp 2) (.ConstantExp 3)) (.ConstantExp 4))
    ∧ (∀ rest, precedence (nextToken rest).1 = 0 →
        ReadsE readDecimal 0 (["2"] ++ ["+"] ++ ["3"] ++ ["*"] ++ ["4"] ++ rest)
          (.CompoundExp "+" (.ConstantExp 2) (.CompoundExp "*" (.ConstantExp 3) (.ConstantExp 4)))
          (afterLookahead rest)
        ∧ ReadsE readDecimal 0 (["2"] ++ ["*"] ++ ["3"] ++ ["+"] ++ ["4"] ++ rest)
          (.CompoundExp "+" (.CompoundExp "*" (.ConstantExp 2) (.ConstantExp 3)) (.ConstantExp 4))
          (afterLookahead rest)
        ∧ ReadsE readDecimal 0
          (["("] ++ ["2"] ++ ["+"] ++ ["3"] ++ [")"] ++ ["*"] ++ ["4"] ++ rest)
          (.CompoundExp "*" (.CompoundExp "+" (.ConstantExp 2) (.ConstantExp 3)) (.ConstantExp 4))
          (afterLookahead rest)))
    ∧ evalText 9 ["2", "+", "3", "*", "4"] = .ok 14
    ∧ evalText 9 ["(", "2", "+", "3", ")", "*", "4"] = .ok 20
    ∧ evalText 9 ["8", "-", "6", "/", "2"] = .ok 5 :=
  ⟨C8_precedence readDecimal ["2"] ["3"] ["4"] (.ConstantExp 2) (.ConstantExp 3)
      (.ConstantExp 4) "+" "*"
      (ParsesTerm.number readDecimal "2" 2 (by decide) (by decide))
      (ParsesTerm.number readDecimal "3" 3 (by decide) (by decide))
      (ParsesTerm.number readDecimal "4" 4 (by decide) (by decide))
      (Or.inl rfl) (Or.inl rfl),
    by rw [evalText_of_parse (e := .CompoundExp "+" (.ConstantExp 2)
          (.CompoundExp "*" (.ConstantExp 3) (.ConstantExp 4))) (by decide)]
       simp [eval]; norm_num,
    by rw [evalText_of_parse (e := .CompoundExp "*" (.CompoundExp "+" (.ConstantExp 2)
          (.ConstantExp 3)) (.ConstantExp 4)) (by decide)]
       simp [eval]; norm_num,
    by rw [evalText_of_parse (e := .CompoundExp "-" (.ConstantExp 8)
          (.CompoundExp "/" (.ConstantExp 6) (.ConstantExp 2))) (by decide)]
       simp [eval]; norm_num⟩

/-- C9: for all terms `a`, `b`, `c` and operators `op1`, `op2` that are both
among `+`, `-` or both among `*`, `/`: `a op1 b op2 c` is read as
`op2(op1(a, b), c)`, by `parseExp` on the whole text and by `readE` in front of any
token that is not an arithmetic operator. -/
theorem C9_left_associative (stringToReal : String → Res Rat) (ta tb tc : List String)
    (ea eb ec : Expression) (op1 op2 : String)
    (ha : ParsesTerm stringToReal ta ea) (hb : ParsesTerm stringToReal tb eb)
    (hc : ParsesTerm stringToReal tc ec)
    (hops : ((op1 = "+" ∨ op1 = "-") ∧ (op2 = "+" ∨ op2 = "-"))
      ∨ ((op1 = "*" ∨ op1 = "/") ∧ (op2 = "*" ∨ op2 = "/"))) :
    ParsesTo stringToReal (ta ++ [op1] ++ tb ++ [op2] ++ tc)
        (.CompoundExp op2 (.CompoundExp op1 ea eb) ec)
    ∧ (∀ rest, precedence (nextToken rest).1 = 0 →
        ReadsE stringToReal 0 (ta ++ [op1] ++ tb ++ [op2] ++ tc ++ rest)
          (.CompoundExp op2 (.CompoundExp op1 ea eb) ec) (afterLookahead rest)) := by
  have hp : 0 < precedence op1 ∧ precedence op2 = precedence op1 := by
    rcases hops with ⟨h1, h2⟩ | ⟨h1, h2⟩
    · rw [precedence_low h1, precedence_low h2]; exact ⟨by omega, rfl⟩
    · rw [precedence_high h1, precedence_high h2]; exact ⟨by omega, rfl⟩
  have hgen : ∀ rest, precedence (nextToken rest).1 = 0 →
      ReadsE stringToReal 0 (ta ++ [op1] ++ tb ++ [op2] ++ tc ++ rest)
        (.CompoundExp op2 (.CompoundExp op1 ea eb) ec) (afterLookahead rest) := by
    intro rest hend
    have := reads_same_level ha hb hc hp.1 hp.2 rest hend
    simpa [List.append_assoc] using this
  exact ⟨ParsesTo.of_readsE (by simpa using hgen [] (by decide)), hgen⟩

/-- Witness for C9: the terms `10`, `3`, `2` with `-` twice; `10-3-2` evaluates
to 5, and `8/4/2` to 1. -/
theorem C9_left_associative_witness :
    (ParsesTo readDecimal (["10"] ++ ["-"] ++ ["3"] ++ ["-"] ++ ["2"])
        (.CompoundExp "-" (.CompoundExp "-" (.ConstantExp 10) (.ConstantExp 3)) (.ConstantExp 2))
    ∧ (∀ rest, precedence (nextToken rest).1 = 0 →
        ReadsE readDecimal 0 (["10"] ++ ["-"] ++ ["3"] ++ ["-"] ++ ["2"] ++ rest)
          (.CompoundExp "-" (.CompoundExp "-" (.ConstantExp 10) (.ConstantExp 3)) (.ConstantExp 2))
          (afterLookahead rest)))
    ∧ evalText 9 ["10", "-", "3", "-", "2"] = .ok 5
    ∧ evalText 9 ["8", "/", "4", "/", "2"] = .ok 1 :=
  ⟨C9_left_associative readDecimal ["10"] ["3"] ["2"] (.ConstantExp 10) (.ConstantExp 3)
      (.ConstantExp 2) "-" "-"
      (ParsesTerm.number readDecimal "10" 10 (by decide) (by decide))
      (ParsesTerm.number readDecimal "3" 3 (by decide) (by decide))
      (ParsesTerm.number readDecimal "2" 2 (by decide) (by decide))
      (Or.inl ⟨Or.inr rfl, Or.inr rfl⟩),
    by rw [evalText_of_parse (e := .CompoundExp "-" (.CompoundExp "-" (.ConstantExp 10)
          (.ConstantExp 3)) (.ConstantExp 2)) (by decide)]
       simp [eval]; norm_num,
    by rw [evalText_of_parse (e := .CompoundExp "/" (.CompoundExp "/" (.ConstantExp 8)
          (.ConstantExp 4)) (.ConstantExp 2)) (by decide)]
       simp [eval]; norm_num⟩

/-- C10: reading an expression from `-` followed by any tokens `ts` gives the
same outcome (the same tree and remaining tokens, or the same failure) as
reading it from `0`, `-` and then `ts`, for `readE` at every threshold and for
`parseExp`; `-5+3` is read as `(0 - 5) + 3` and evaluates to -2. -/
theorem C10_leading_minus (stringToReal : String → Res Rat) (fuel prec : Nat)
    (ts : List String) :
    readE stringToReal fuel prec ("-" :: ts)
        = readE stringToReal fuel prec ("0" :: "-" :: ts)
    ∧ parseExp stringToReal fuel ("-" :: ts) = parseExp stringToReal fuel ("0" :: "-" :: ts)
    ∧ parseExp readDecimal 9 ["-", "5", "+", "3"]
        = .ok (.CompoundExp "+" (.CompoundExp "-" (.ConstantExp 0) (.ConstantExp 5))
            (.ConstantExp 3))
    ∧ evalText 9 ["-", "5", "+", "3"] = .ok (-2) := by
  have h : ∀ p, readE stringToReal fuel p ("-" :: ts)
      = readE stringToReal fuel p ("0" :: "-" :: ts) := by
    intro p
    cases fuel with
    | zero => rw [readE, readE]
    | succ f =>
      rw [readE, readE]
      simp [nextToken, saveToken]
  refine ⟨h prec, ?_, by decide, ?_⟩
  · rw [parseExp, parseExp, h 0]
  · rw [evalText_of_parse (e := .CompoundExp "+" (.CompoundExp "-" (.ConstantExp 0)
        (.ConstantExp 5)) (.ConstantExp 3)) (by decide)]
    simp [eval]; norm_num

/-! ### The symbol table -/

theorem EvalState.isDefined_setValue_same (st : EvalState) (var : String) (value : Rat) :
    (st.setValue var value).isDefined var = true := by
  unfold EvalState.setValue
  by_cases h : st.isDefined var = true
  · rw [if_pos h]
    simp only [EvalState.isDefined, List.any_map, List.any_eq_true] at h ⊢
    obtain ⟨kv, hkv, e⟩ := h
    refine ⟨kv, hkv, ?_⟩
    have e2 : kv.1 = var := by simpa using e
    simp [e2]
  · rw [if_neg h]
    simp [EvalState.isDefined]

theorem find_replace_same (l : List (String × Rat)) (var : String) (value : Rat)
    (h : l.any (fun kv => kv.1 == var) = true) :
    (l.map (fun kv => if kv.1 = var then (var, value) else kv)).find?
      (fun kv => kv.1 == var) = some (var, value) := by
  induction l with
  | nil => simp at h
  | cons kv rest ih =>
    by_cases e : kv.1 = var
    · simp [e]
    · have h2 : rest.any (fun kv => kv.1 == var) = true := by
        simpa [e] using h
      simp only [List.map_cons, e, ↓reduceIte]
      rw [List.find?_cons_of_neg _ (by simpa using e)]
      exact ih h2

theorem EvalState.getValue_setValue_same (st : EvalState) (var : String) (value : Rat) :
    (st.setValue var value).getValue var = value := by
  unfold EvalState.setValue
  by_cases h : st.isDefined var = true
  · rw [if_pos h]
    simp only [EvalState.getValue]
    rw [find_replace_same _ var value h]
  · rw [if_neg h]
    simp [EvalState.getValue]

theorem any_replace_other (l : List (String × Rat)) (var w : String) (value : Rat)
    (hw : w ≠ var) :
    (l.map (fun kv => if kv.1 = var then (var, value) else kv)).any (fun kv => kv.1 == w)
      = l.any (fun kv => kv.1 == w) := by
  induction l with
  | nil => rfl
  | cons kv rest ih =>
    by_cases e : kv.1 = var
    · have h1 : ¬ var = w := fun h => hw h.symm
      have h2 : ¬ kv.1 = w := by rw [e]; exact h1
      simp only [List.map_cons, e, ↓reduceIte, List.any_cons]
      rw [← e] at ih ⊢
      simp only [e] at ih ⊢
      simp [h1, ih]
    · simp only [List.map_cons, e, ↓reduceIte, List.any_cons, ih]

theorem find_replace_other (l : List (String × Rat)) (var w : String) (value : Rat)
    (hw : w ≠ var) :
    (l.map (fun kv => if kv.1 = var then (var, value) else kv)).find? (fun kv => kv.1 == w)
      = l.find? (fun kv => kv.1 == w) := by
  induction l with
  | nil => rfl
  | cons kv rest ih =>
    have h1 : ¬ var = w := fun h => hw h.symm
    by_cases e : kv.1 = var
    · have h2 : ¬ kv.1 = w := by rw [e]; exact h1
      simp only [List.map_cons, e, ↓reduceIte]
      rw [List.find?_cons_of_neg _ (by simpa using h1),
        List.find?_cons_of_neg _ (by simpa using h2)]
      simpa [e] using ih
    · simp only [List.map_cons, e, ↓reduceIte]
      by_cases e2 : kv.1 = w
      · simp [e2]
      · rw [List.find?_cons_of_neg _ (by simpa using e2),
          List.find?_cons_of_neg _ (by simpa using e2)]
        exact ih

theorem EvalState.isDefined_setValue_other (st : EvalState) (var w : String) (value : Rat)
    (hw : w ≠ var) : (st.setValue var value).isDefined w = st.isDefined w := by
  unfold EvalState.setValue
  by_cases h : st.isDefined var = true
  · rw [if_pos h]
    exact any_replace_other _ var w value hw
  · rw [if_neg h]
    have h1 : ¬ var = w := fun h => hw h.symm
    simp [EvalState.isDefined, h1]

theorem EvalState.getValue_setValue_other (st : EvalState) (var w : String) (value : Rat)
    (hw : w ≠ var) : (st.setValue var value).getValue w = st.getValue w := by
  unfold EvalState.setValue
  by_cases h : st.isDefined var = true
  · rw [if_pos h]
    simp only [EvalState.getValue]
    rw [find_replace_other _ var w value hw]
  · rw [if_neg h]
    have h1 : ¬ var = w := fun h => hw h.symm
    simp only [EvalState.getValue]
    rw [List.find?_cons_of_neg _ (by simpa using h1)]

/-- C15: evaluating `Identifier(name)` raises the error `name is undefined` when
`name` has no binding and otherwise returns the value looked up for `name`; a
binding made by `setValue` is the value returned; the state is unchanged in
every case. Evaluating `y` in the state without bindings fails. -/
theorem C15_identifier_lookup (st : EvalState) (name : String) (v : Rat) :
    (st.isDefined name = false →
      eval (.IdentifierExp name) st = (.error (name ++ " is undefined"), st))
    ∧ (st.isDefined name = true →
      eval (.IdentifierExp name) st = (.ok (st.getValue name), st))
    ∧ eval (.IdentifierExp name) (st.setValue name v) = (.ok v, st.setValue name v)
    ∧ evalText 9 ["y"] = .error "y is undefined" := by
  refine ⟨?_, ?_, ?_, by decide⟩
  · intro h
    simp [eval, h]
  · intro h
    simp [eval, h]
  · simp [eval, EvalState.isDefined_setValue_same, EvalState.getValue_setValue_same]

/-- Witness for C15: `x` bound to 5 and `y` unbound. -/
theorem C15_identifier_lookup_witness :
    eval (.IdentifierExp "y") (emptyState.setValue "x" 5)
        = (.error "y is undefined", emptyState.setValue "x" 5)
    ∧ eval (.IdentifierExp "x") (emptyState.setValue "x" 5)
        = (.ok ((emptyState.setValue "x" 5).getValue "x"), emptyState.setValue "x" 5)
    ∧ (emptyState.setValue "x" 5).getValue "x" = 5 :=
  ⟨(C15_identifier_lookup (emptyState.setValue "x" 5) "y" 0).1 (by decide),
   (C15_identifier_lookup (emptyState.setValue "x" 5) "x" 0).2.1 (by decide),
   EvalState.getValue_setValue_same emptyState "x" 5⟩

/-- C16: evaluating `Compound("=", Identifier v, r)` evaluates `r`; when that
yields a value, the value is bound to `v` in the state left by `r` and returned,
whether or not `v` was defined before; when `r` fails, the failure is passed on
and nothing is bound. -/
theorem C16_assignment (st st1 : EvalState) (v : String) (r : Expression) :
    (∀ val, eval r st = (.ok val, st1) →
      eval (.CompoundExp "=" (.IdentifierExp v) r) st = (.ok val, st1.setValue v val)
      ∧ (st1.setValue v val).isDefined v = true
      ∧ (st1.setValue v val).getValue v = val
      ∧ ∀ w, w ≠ v → (st1.setValue v val).isDefined w = st1.isDefined w
          ∧ (st1.setValue v val).getValue w = st1.getValue w)
    ∧ (∀ m, eval r st = (.error m, st1) →
      eval (.CompoundExp "=" (.IdentifierExp v) r) st = (.error m, st1)) := by
  constructor
  · intro val h
    refine ⟨?_, EvalState.isDefined_setValue_same _ _ _,
      EvalState.getValue_setValue_same _ _ _, ?_⟩
    · simp [eval, h]
    · intro w hw
      exact ⟨EvalState.isDefined_setValue_other _ _ _ _ hw,
        EvalState.getValue_setValue_other _ _ _ _ hw⟩
  · intro m h
    simp [eval, h]

/-- Witness for C16: `x = 5` in the state without bindings, where `x` is
undefined, and `x = y` with `y` undefined. -/
theorem C16_assignment_witness :
    emptyState.isDefined "x" = false
    ∧ (eval (.CompoundExp "=" (.IdentifierExp "x") (.ConstantExp 5)) emptyState
        = (.ok 5, emptyState.setValue "x" 5)
      ∧ (emptyState.setValue "x" 5).isDefined "x" = true
      ∧ (emptyState.setValue "x" 5).getValue "x" = 5
      ∧ ∀ w, w ≠ "x" → (emptyState.setValue "x" 5).isDefined w = emptyState.isDefined w
          ∧ (emptyState.setValue "x" 5).getValue w = emptyState.getValue w)
    ∧ eval (.CompoundExp "=" (.IdentifierExp "x") (.IdentifierExp "y")) emptyState
        = (.error "y is undefined", emptyState) :=
  ⟨by decide,
   (C16_assignment emptyState emptyState "x" (.ConstantExp 5)).1 5 rfl,
   (C16_assignment emptyState emptyState "x" (.IdentifierExp "y")).2 "y is undefined"
     (by decide)⟩

/-- C17: evaluating `Compound("=", l, r)` with `l` not an identifier raises
`Illegal variable in assignment` and leaves the state as it was, whatever `r`
is: `r` is not evaluated. -/
theorem C17_illegal_assignment_target (l r : Expression) (st : EvalState)
    (hl : ∀ name, l ≠ .IdentifierExp name) :
    eval (.CompoundExp "=" l r) st = (.error "Illegal variable in assignment", st) := by
  cases l with
  | IdentifierExp name => exact absurd rfl (hl name)
  | ConstantExp value => simp [eval]
  | CompoundExp op a b => simp [eval]

/-- Witness for C17: the target is the constant 5 and the right-hand side is an
assignment to `y`, which would change the state if it were evaluated. -/
theorem C17_illegal_assignment_target_witness :
    eval (.CompoundExp "=" (.ConstantExp 5)
        (.CompoundExp "=" (.IdentifierExp "y") (.ConstantExp 1))) emptyState
      = (.error "Illegal variable in assignment", emptyState)
    ∧ (eval (.CompoundExp "=" (.IdentifierExp "y") (.ConstantExp 1)) emptyState).2
      ≠ emptyState :=
  ⟨C17_illegal_assignment_target (.ConstantExp 5)
      (.CompoundExp "=" (.IdentifierExp "y") (.ConstantExp 1)) emptyState
      (fun _ h => Expression.noConfusion h),
   by decide⟩

/-! ### Statement dispatch -/

/-- C18 (evaluation at the failing input): `PRINT 5` and `print 5` build the
`PRINT` statement, but `Print 5` and `pRINT 5` are taken for assignments and
rejected, `Print = 5` is read as an assignment to a variable `Print`, `End` is
rejected, and `Then` in an `IF` statement is rejected while `THEN` and `then`
are accepted. -/
theorem C18_mixed_case_keywords_not_recognised :
    parseStatement readDecimal 9 ["PRINT", "5"] = .ok (.PrintStmt "" [.ConstantExp 5])
    ∧ parseStatement readDecimal 9 ["print", "5"] = .ok (.PrintStmt "" [.ConstantExp 5])
    ∧ parseStatement readDecimal 9 ["Print", "5"] = .error "Illegal operator: 5"
    ∧ parseStatement readDecimal 9 ["pRINT", "5"] = .error "Illegal operator: 5"
    ∧ parseStatement readDecimal 9 ["Print", "=", "5"] = .ok (.LetStmt "Print" (.ConstantExp 5))
    ∧ parseStatement readDecimal 9 ["END"] = .ok .EndStmt
    ∧ parseStatement readDecimal 9 ["End"] = .error "Illegal operator: "
    ∧ parseStatement readDecimal 9 ["IF", "x", ">", "3", "THEN", "40"]
        = .ok (.IfStmt (.IdentifierExp "x") ">" (.ConstantExp 3) "40")
    ∧ parseStatement readDecimal 9 ["if", "x", ">", "3", "then", "40"]
        = .ok (.IfStmt (.IdentifierExp "x") ">" (.ConstantExp 3) "40")
    ∧ parseStatement readDecimal 9 ["IF", "x", ">", "3", "Then", "40"]
        = .error "Incorrect command format." := by
  decide

/-- C19: for every identifier `v` that is none of the keyword spellings and
every token list `rest`, `parseStatement` gives the same outcome on `v rest` as
on `LET v rest` and on `let v rest`, namely that of the `LET` constructor on
`v rest`. -/
theorem C19_optional_let (stringToReal : String → Res Rat) (fuel : Nat) (v : String)
    (rest : List String) (hword : getTokenType v = .WORD)
    (hkw : v ∉ statementKeywords) :
    parseStatement stringToReal fuel (v :: rest)
        = parseStatement stringToReal fuel ("LET" :: v :: rest)
    ∧ parseStatement stringToReal fuel (v :: rest)
        = parseStatement stringToReal fuel ("let" :: v :: rest)
    ∧ parseStatement stringToReal fuel (v :: rest)
        = mkLetStmt stringToReal fuel (v :: rest) := by
  simp only [statementKeywords, List.mem_cons, List.mem_singleton, List.not_mem_nil,
    or_false, not_or] at hkw
  have h3 : parseStatement stringToReal fuel (v :: rest)
      = mkLetStmt stringToReal fuel (v :: rest) := by
    simp [parseStatement, nextToken, saveToken, hkw, hword]
  have h1 : parseStatement stringToReal fuel ("LET" :: v :: rest)
      = mkLetStmt stringToReal fuel (v :: rest) := by
    simp [parseStatement, nextToken]
  have h2 : parseStatement stringToReal fuel ("let" :: v :: rest)
      = mkLetStmt stringToReal fuel (v :: rest) := by
    simp [parseStatement, nextToken]
  exact ⟨by rw [h3, h1], by rw [h3, h2], h3⟩

/-- Witness for C19: `x = 5` and `LET x = 5` both give the statement `LET x = 5`,
and `x + 5` and `LET x + 5` fail alike. -/
theorem C19_optional_let_witness :
    (parseStatement readDecimal 9 ("x" :: ["=", "5"])
        = parseStatement readDecimal 9 ("LET" :: "x" :: ["=", "5"])
      ∧ parseStatement readDecimal 9 ("x" :: ["=", "5"])
        = parseStatement readDecimal 9 ("let" :: "x" :: ["=", "5"])
      ∧ parseStatement readDecimal 9 ("x" :: ["=", "5"])
        = mkLetStmt readDecimal 9 ("x" :: ["=", "5"]))
    ∧ parseStatement readDecimal 9 ["x", "=", "5"] = .ok (.LetStmt "x" (.ConstantExp 5))
    ∧ parseStatement readDecimal 9 ["x", "+", "5"] = .error "Illegal operator: +"
    ∧ parseStatement readDecimal 9 ["LET", "x", "+", "5"] = .error "Illegal operator: +" :=
  ⟨C19_optional_let readDecimal 9 "x" ["=", "5"] (by decide) (by decide),
   by decide, by decide, by decide⟩

/-- C20 (evaluation at the failing input): `END 5`, `GOTO 10 20`, `LET x = 1 2`,
`INPUT x y` and `IF x > 3 THEN 40 50` raise `Extraneous token`, but `PRINT x y`
is accepted as `PRINT x`: the loop of `addRest` has already read `y` when the
check for further tokens is made. With a third token the check fires. -/
theorem C20_print_drops_trailing_token :
    parseStatement readDecimal 9 ["END", "5"] = .error "Extraneous token 5"
    ∧ parseStatement readDecimal 9 ["GOTO", "10", "20"] = .error "Extraneous token 20"
    ∧ parseStatement readDecimal 9 ["LET", "x", "=", "1", "2"] = .error "Extraneous token 2"
    ∧ parseStatement readDecimal 9 ["INPUT", "x", "y"] = .error "Extraneous token y"
    ∧ parseStatement readDecimal 9 ["IF", "x", ">", "3", "THEN", "40", "50"]
        = .error "Extraneous token 50"
    ∧ parseStatement readDecimal 9 ["PRINT", "x", "y"]
        = .ok (.PrintStmt "" [.IdentifierExp "x"])
    ∧ parseStatement readDecimal 9 ["PRINT", "x"] = .ok (.PrintStmt "" [.IdentifierExp "x"])
    ∧ addRest readDecimal 9 ["y"] [.IdentifierExp "x"] = .ok ([.IdentifierExp "x"], [])
    ∧ parseStatement readDecimal 9 ["PRINT", "x", "y", "z"] = .error "Extraneous token z" := by
  decide

/-! ### The minus sign after an operator -/

/-- After an operator, where `readE` runs at a threshold of at least 1, a
leading minus sign makes `readE` return the injected constant alone and leave
the minus sign unread. -/
theorem readE_minus_after_operator (stringToReal : String → Res Rat) (f prec : Nat)
    (s : Scanner) (v0 : Rat) (h0 : stringToReal "0" = .ok v0) (hprec : 1 ≤ prec) :
    readE stringToReal (f + 3) prec ("-" :: s) = .ok (.ConstantExp v0, "-" :: s) := by
  have hp : precedence "-" ≤ prec := by
    have : precedence "-" = 1 := by decide
    omega
  have ht : getTokenType "0" = .NUMBER := by decide
  rw [readE]
  simp only [nextToken, saveToken, ↓reduceIte]
  rw [readT]
  simp only [nextToken, ht, h0]
  have hw : ¬ (TokenType.NUMBER = TokenType.WORD) := by decide
  simp only [hw, ↓reduceIte]
  rw [readELoop]
  simp only [nextToken, hp, ↓reduceIte, saveToken]

/-- C11 (evaluation at the failing input): at the start of an expression and
after `(` the minus sign negates its operand, but after a binary operator the
injected `0` alone becomes the right operand: `2*-3` is read as `(2*0)-3` and
evaluates to -3, and `2 - -3` is read as `(2-0)-3` and evaluates to -1. -/
theorem C11_minus_after_operator :
    evalText 9 ["-", "3"] = .ok (-3)
    ∧ evalText 9 ["2", "*", "(", "-", "3", ")"] = .ok (-6)
    ∧ parseExp readDecimal 9 ["2", "*", "-", "3"]
        = .ok (.CompoundExp "-" (.CompoundExp "*" (.ConstantExp 2) (.ConstantExp 0))
            (.ConstantExp 3))
    ∧ evalText 9 ["2", "*", "-", "3"] = .ok (-3)
    ∧ parseExp readDecimal 9 ["2", "-", "-", "3"]
        = .ok (.CompoundExp "-" (.CompoundExp "-" (.ConstantExp 2) (.ConstantExp 0))
            (.ConstantExp 3))
    ∧ evalText 9 ["2", "-", "-", "3"] = .ok (-1) := by
  refine ⟨?_, ?_, by decide, ?_, by decide, ?_⟩
  · rw [evalText_of_parse (e := .CompoundExp "-" (.ConstantExp 0) (.ConstantExp 3))
      (by decide)]
    simp [eval]
  · rw [evalText_of_parse (e := .CompoundExp "*" (.ConstantExp 2)
      (.CompoundExp "-" (.ConstantExp 0) (.ConstantExp 3))) (by decide)]
    simp [eval]; norm_num
  · rw [evalText_of_parse (e := .CompoundExp "-" (.CompoundExp "*" (.ConstantExp 2)
      (.ConstantExp 0)) (.ConstantExp 3)) (by decide)]
    simp [eval]
  · rw [evalText_of_parse (e := .CompoundExp "-" (.CompoundExp "-" (.ConstantExp 2)
      (.ConstantExp 0)) (.ConstantExp 3)) (by decide)]
    simp [eval]; norm_num

/-! ### Assignment and the expression parser -/

/-- C12 (counterexample): `parseExp` on the text `x = 5` raises an error, as `=`
is no operator of the expression parser. -/
theorem C12_assignment_text_rejected :
    parseExp readDecimal 9 ["x", "=", "5"] = .error "parseExp: Found extra token: ="
    ∧ readE readDecimal 9 0 ["x", "=", "5"] = .ok (.IdentifierExp "x", ["=", "5"])
    ∧ precedence "=" = 0 := by
  decide

/-- C12 (amended): `parseExp` rejects the text `x = 5` with an extra-token error
for every fuel of at least 2; the assignment node
`Compound("=", Identifier x, Constant 5)` evaluated in any state binds `x` to 5
and returns 5, and `x + 1`, parsed and evaluated in the resulting state, yields
6. -/
theorem C12_assignment_node_then_read (stringToReal : String → Res Rat)
    (st : EvalState) :
    (∀ fuel, 2 ≤ fuel →
      parseExp stringToReal fuel ["x", "=", "5"] = .error "parseExp: Found extra token: =")
    ∧ eval (.CompoundExp "=" (.IdentifierExp "x") (.ConstantExp 5)) st
        = (.ok 5, st.setValue "x" 5)
    ∧ ParsesTo readDecimal ["x", "+", "1"]
        (.CompoundExp "+" (.IdentifierExp "x") (.ConstantExp 1))
    ∧ eval (.CompoundExp "+" (.IdentifierExp "x") (.ConstantExp 1)) (st.setValue "x" 5)
        = (.ok 6, st.setValue "x" 5) := by
  refine ⟨?_, ?_, ?_, ?_⟩
  · intro fuel hfuel
    obtain ⟨k, rfl⟩ := Nat.exists_eq_add_of_le hfuel
    have e : 2 + k = (k + 1) + 1 := by omega
    have hx : getTokenType "x" = .WORD := by decide
    have ht : readT stringToReal (k + 1) ["x", "=", "5"]
        = .ok (.IdentifierExp "x", ["=", "5"]) := by
      rw [readT]
      simp [nextToken, hx]
    have hl : readELoop stringToReal (k + 1) 0 (.IdentifierExp "x") ["=", "5"]
        = .ok (.IdentifierExp "x", afterLookahead ["=", "5"]) :=
      readELoop_stop stringToReal k 0 _ _ (by decide)
    rw [e, parseExp, readE_of_readT stringToReal (k + 1) 0 _ _ _ (by decide) ht, hl]
    simp [afterLookahead, nextToken, saveToken, hasMoreTokens]
  · simp [eval]
  · exact ParsesTo.of_readsE (ReadsE.binary (ParsesTerm.word readDecimal "x" (by decide))
      (ParsesTerm.number readDecimal "1" 1 (by decide) (by decide))
      (show 0 < precedence "+" by decide) [] (by decide))
  · simp [eval, EvalState.isDefined_setValue_same, EvalState.getValue_setValue_same]
    norm_num

/-- Witness for C12: the state without bindings and fuel 9. -/
theorem C12_assignment_node_then_read_witness :
    parseExp readDecimal 9 ["x", "=", "5"] = .error "parseExp: Found extra token: ="
    ∧ eval (.CompoundExp "=" (.IdentifierExp "x") (.ConstantExp 5)) emptyState
        = (.ok 5, emptyState.setValue "x" 5)
    ∧ ParsesTo readDecimal ["x", "+", "1"]
        (.CompoundExp "+" (.IdentifierExp "x") (.ConstantExp 1))
    ∧ eval (.CompoundExp "+" (.IdentifierExp "x") (.ConstantExp 1))
        (emptyState.setValue "x" 5) = (.ok 6, emptyState.setValue "x" 5) :=
  ⟨(C12_assignment_node_then_read readDecimal emptyState).1 9 (by decide),
   (C12_assignment_node_then_read readDecimal emptyState).2.1,
   (C12_assignment_node_then_read readDecimal emptyState).2.2.1,
   (C12_assignment_node_then_read readDecimal emptyState).2.2.2⟩

/-! ### Errors of the term reader -/

theorem readT_illegal (stringToReal : String → Res Rat) (f : Nat) (s : Scanner)
    (hw : getTokenType (nextToken s).1 ≠ .WORD)
    (hn : getTokenType (nextToken s).1 ≠ .NUMBER) (hp : (nextToken s).1 ≠ "(") :
    readT stringToReal (f + 1) s
      = .error ("Illegal term in expression" ++ (nextToken s).1) := by
  rw [readT]
  simp only [hw, hn, hp, ↓reduceIte, ne_eq, not_false_eq_true]

/-- C14: `readT` raises `Illegal term in expression` whenever the token it reads
is neither a word, a number nor `(`, and so does `readE` at any threshold unless
that token is the minus sign; the empty token stream is rejected by `readT`,
`readE` and `parseExp`; and `readT` raises `Unbalanced parentheses in expression`
whenever the expression read after `(` is not followed by `)`. -/
theorem C14_illegal_term (stringToReal : String → Res Rat) (f : Nat) (s : Scanner) :
    (getTokenType (nextToken s).1 ≠ .WORD → getTokenType (nextToken s).1 ≠ .NUMBER →
      (nextToken s).1 ≠ "(" →
        readT stringToReal (f + 1) s
          = .error ("Illegal term in expression" ++ (nextToken s).1)
        ∧ ((nextToken s).1 ≠ "-" → ∀ prec,
            readE stringToReal (f + 2) prec s
              = .error ("Illegal term in expression" ++ (nextToken s).1)))
    ∧ (readT stringToReal (f + 1) [] = .error "Illegal term in expression"
        ∧ (∀ prec, readE stringToReal (f + 2) prec [] = .error "Illegal term in expression")
        ∧ parseExp stringToReal (f + 2) [] = .error "Illegal term in expression")
    ∧ (∀ e s2, readE stringToReal f 0 s = .ok (e, s2) → (nextToken s2).1 ≠ ")" →
        readT stringToReal (f + 1) ("(" :: s)
          = .error "Unbalanced parentheses in expression") := by
  have hE : ∀ (s : Scanner), getTokenType (nextToken s).1 ≠ .WORD →
      getTokenType (nextToken s).1 ≠ .NUMBER → (nextToken s).1 ≠ "(" →
      (nextToken s).1 ≠ "-" → ∀ prec,
        readE stringToReal (f + 2) prec s
          = .error ("Illegal term in expression" ++ (nextToken s).1) := by
    intro s hw hn hp hm prec
    have hnext : nextToken (saveToken (nextToken s).1 (nextToken s).2) = nextToken s :=
      afterLookahead_next s
    rw [readE]
    simp only [hm, ↓reduceIte]
    rw [readT_illegal stringToReal f _ (by rw [hnext]; exact hw) (by rw [hnext]; exact hn)
      (by rw [hnext]; exact hp), hnext]
  have hnil : ∀ prec, readE stringToReal (f + 2) prec []
      = .error "Illegal term in expression" := by
    intro prec
    have := hE [] (by decide) (by decide) (by decide) (by decide) prec
    simpa [nextToken] using this
  refine ⟨?_, ⟨?_, hnil, ?_⟩, ?_⟩
  · intro hw hn hp
    exact ⟨readT_illegal stringToReal f s hw hn hp, fun hm prec => hE s hw hn hp hm prec⟩
  · have := readT_illegal stringToReal f [] (by decide) (by decide) (by decide)
    simpa [nextToken] using this
  · rw [parseExp, hnil 0]
  · intro e s2 h hne
    have hpar : getTokenType "(" = .OPERATOR := by decide
    have h1 : nextToken ("(" :: s) = ("(", s) := rfl
    rw [readT]
    simp [h1, hpar, h, hne]

/-- Witness for C14: the token `)` at a term position, and the text `(2+3`. -/
theorem C14_illegal_term_witness :
    (readT readDecimal (7 + 1) [")", "2"] = .error ("Illegal term in expression" ++ ")")
      ∧ ∀ prec, readE readDecimal (7 + 2) prec [")", "2"]
          = .error ("Illegal term in expression" ++ ")"))
    ∧ readT readDecimal (7 + 1) ("(" :: ["2", "+", "3"])
        = .error "Unbalanced parentheses in expression"
    ∧ parseExp readDecimal 9 ["(", "2", "+", "3"]
        = .error "Unbalanced parentheses in expression"
    ∧ parseExp readDecimal 9 ["2", "+", ")"] = .error "Illegal term in expression)"
    ∧ parseExp readDecimal 9 ["2", "*", "(", "+", "3", ")"]
        = .error "Illegal term in expression+"
    ∧ parseExp readDecimal 9 [] = .error "Illegal term in expression" :=
  ⟨⟨((C14_illegal_term readDecimal 7 [")", "2"]).1 (by decide) (by decide) (by decide)).1,
     ((C14_illegal_term readDecimal 7 [")", "2"]).1 (by decide) (by decide) (by decide)).2
       (by decide)⟩,
   (C14_illegal_term readDecimal 7 ["2", "+", "3"]).2.2 (.CompoundExp "+" (.ConstantExp 2)
     (.ConstantExp 3)) [""] (by decide) (by decide),
   by decide, by decide, by decide, by decide⟩

/-! ### What the expression reader leaves unread -/

theorem readELoop_afterLookahead (stringToReal : String → Res Rat) (f prec : Nat)
    (e : Expression) (r : Scanner) :
    readELoop stringToReal f prec e (afterLookahead r) = readELoop stringToReal f prec e r := by
  cases f with
  | zero => rw [readELoop, readELoop]
  | succ f =>
    rw [readELoop, readELoop]
    simp only [afterLookahead_next]

theorem nextToken_snd_suffix (s : Scanner) : (nextToken s).2 <:+ s := by
  cases s with
  | nil => exact List.suffix_refl _
  | cons t ts => exact List.suffix_cons t ts

/-- The tokens left by `readT`, `readE` and the loop of `readE` are a suffix of
the tokens they were given; `readE` and its loop have looked at the next one. -/
theorem reads_leave_suffix (stringToReal : String → Res Rat) : ∀ f : Nat,
    (∀ s e s1, readT stringToReal f s = .ok (e, s1) → s1 <:+ s)
    ∧ (∀ prec s e s1, readE stringToReal f prec s = .ok (e, s1) →
        ∃ rest, rest <:+ s ∧ s1 = afterLookahead rest)
    ∧ (∀ prec e0 s e s1, readELoop stringToReal f prec e0 s = .ok (e, s1) →
        ∃ rest, rest <:+ s ∧ s1 = afterLookahead rest) := by
  intro f
  induction f with
  | zero =>
    refine ⟨?_, ?_, ?_⟩
    · intro s e s1 h; rw [readT] at h; cases h
    · intro prec s e s1 h; rw [readE] at h; cases h
    · intro prec e0 s e s1 h; rw [readELoop] at h; cases h
  | succ f ih =>
    obtain ⟨ihT, ihE, ihL⟩ := ih
    refine ⟨?_, ?_, ?_⟩
    · intro s e s1 h
      rw [readT] at h
      by_cases hw : getTokenType (nextToken s).1 = .WORD
      · simp only [hw, ↓reduceIte, Res.ok.injEq, Prod.mk.injEq] at h
        rw [← h.2]; exact nextToken_snd_suffix s
      · by_cases hn : getTokenType (nextToken s).1 = .NUMBER
        · have hnw : ¬ (TokenType.NUMBER = TokenType.WORD) := by decide
          simp only [hn, hnw, ↓reduceIte] at h
          cases hv : stringToReal (nextToken s).1 with
          | ok v =>
            simp only [hv, Res.ok.injEq, Prod.mk.injEq] at h
            rw [← h.2]; exact nextToken_snd_suffix s
          | error m => simp [hv] at h
          | undef => simp [hv] at h
          | nofuel => simp [hv] at h
        · simp only [hw, hn, ↓reduceIte] at h
          by_cases hp : (nextToken s).1 = "("
          · simp only [hp, ↓reduceIte, ne_eq, not_true_eq_false] at h
            cases hr : readE stringToReal f 0 (nextToken s).2 with
            | ok r =>
              obtain ⟨exp, s2⟩ := r
              simp only [hr] at h
              by_cases hc : (nextToken s2).1 = ")"
              · simp only [hc, not_true_eq_false, ↓reduceIte, Res.ok.injEq,
                  Prod.mk.injEq] at h
                obtain ⟨rest, hrest, hs2⟩ := ihE 0 _ _ _ hr
                rw [← h.2, hs2, afterLookahead_next]
                exact (nextToken_snd_suffix rest).trans (hrest.trans (nextToken_snd_suffix s))
              · simp [hc] at h
            | error m => simp [hr] at h
            | undef => simp [hr] at h
            | nofuel => simp [hr] at h
          · simp [hp] at h
    · intro prec s e s1 h
      rw [readE] at h
      cases ht : readT stringToReal f
          (if (nextToken s).1 = "-" then
            saveToken "0" (saveToken (nextToken s).1 (nextToken s).2)
          else saveToken (nextToken s).1 (nextToken s).2) with
      | ok r =>
        obtain ⟨exp, s4⟩ := r
        simp only [ht] at h
        obtain ⟨rest, hrest, hs1⟩ := ihL prec exp s4 e s1 h
        have hs4 := ihT _ _ _ ht
        refine ⟨rest, ?_, hs1⟩
        cases s with
        | nil =>
          exfalso
          have hnil : (nextToken ([] : Scanner)).1 ≠ "-" := by decide
          simp only [hnil, ↓reduceIte] at ht
          cases f with
          | zero => rw [readT] at ht; cases ht
          | succ f =>
            rw [readT] at ht
            simp [nextToken, saveToken, getTokenType] at ht
        | cons t ts =>
          by_cases hm : t = "-"
          · subst hm
            have h0 : getTokenType "0" = .NUMBER := by decide
            simp only [nextToken, saveToken, ↓reduceIte] at ht
            cases f with
            | zero => rw [readT] at ht; cases ht
            | succ f =>
              rw [readT] at ht
              simp only [nextToken, h0] at ht
              have hw : ¬ (TokenType.NUMBER = TokenType.WORD) := by decide
              simp only [hw, ↓reduceIte] at ht
              cases hv : stringToReal "0" with
              | ok v =>
                simp only [hv, Res.ok.injEq, Prod.mk.injEq] at ht
                rw [← ht.2] at hrest
                exact hrest
              | error m => simp [hv] at ht
              | undef => simp [hv] at ht
              | nofuel => simp [hv] at ht
          · simp only [nextToken, saveToken, hm, ↓reduceIte] at hs4
            exact hrest.trans hs4
      | error m => simp [ht] at h
      | undef => simp [ht] at h
      | nofuel => simp [ht] at h
    · intro prec e0 s e s1 h
      rw [readELoop] at h
      by_cases hp : precedence (nextToken s).1 ≤ prec
      · simp only [hp, ↓reduceIte, Res.ok.injEq, Prod.mk.injEq] at h
        exact ⟨s, List.suffix_refl s, h.2.symm⟩
      · simp only [hp, ↓reduceIte] at h
        cases hr : readE stringToReal f (precedence (nextToken s).1) (nextToken s).2 with
        | ok r =>
          obtain ⟨rhs, s2⟩ := r
          simp only [hr] at h
          obtain ⟨rest2, hrest2, hs2⟩ := ihE _ _ _ _ hr
          rw [hs2, readELoop_afterLookahead] at h
          obtain ⟨rest, hrest, hs1⟩ := ihL _ _ _ _ _ h
          exact ⟨rest, hrest.trans (hrest2.trans (nextToken_snd_suffix s)), hs1⟩
        | error m => simp [hr] at h
        | undef => simp [hr] at h
        | nofuel => simp [hr] at h

theorem parseExp_of_readE (stringToReal : String → Res Rat) (fuel : Nat) (s rest : Scanner)
    (e : Expression) (h : readE stringToReal fuel 0 s = .ok (e, afterLookahead rest)) :
    parseExp stringToReal fuel s
      = if (nextToken rest).1 = "" then .ok e
        else .error ("parseExp: Found extra token: " ++ (nextToken rest).1) := by
  rw [parseExp, h]
  have h1 : nextToken (afterLookahead rest) = nextToken rest := afterLookahead_next rest
  have h2 : nextToken (hasMoreTokens (afterLookahead rest)).2 = nextToken rest := by
    show nextToken (afterLookahead (afterLookahead rest)) = nextToken rest
    rw [afterLookahead_next, afterLookahead_next]
  have h3 : (hasMoreTokens (afterLookahead rest)).1 = ((nextToken rest).1 != "") := by
    show ((nextToken (afterLookahead rest)).1 != "") = _
    rw [h1]
  simp only [h2, h3]
  by_cases hne : (nextToken rest).1 = ""
  · simp [hne]
  · simp [hne]

/-- C13: for a token list without empty tokens, when `readE` has read a
complete expression `e` from a prefix and tokens remain, `parseExp` raises
`parseExp: Found extra token:` with the first remaining token; when nothing
remains it returns `e`; and whenever `parseExp` returns an expression, `readE`
has consumed the whole token list. -/
theorem C13_extra_tokens (stringToReal : String → Res Rat) (fuel : Nat) (s : Scanner)
    (hclean : "" ∉ s) :
    (∀ e s1, readE stringToReal fuel 0 s = .ok (e, s1) →
      ∃ consumed rest, s = consumed ++ rest ∧ s1 = afterLookahead rest
        ∧ (∀ t ts, rest = t :: ts →
            parseExp stringToReal fuel s = .error ("parseExp: Found extra token: " ++ t))
        ∧ (rest = [] → parseExp stringToReal fuel s = .ok e))
    ∧ (∀ e, parseExp stringToReal fuel s = .ok e →
        readE stringToReal fuel 0 s = .ok (e, afterLookahead [])) := by
  have hfirst : ∀ e s1, readE stringToReal fuel 0 s = .ok (e, s1) →
      ∃ consumed rest, s = consumed ++ rest ∧ s1 = afterLookahead rest
        ∧ (∀ t ts, rest = t :: ts →
            parseExp stringToReal fuel s = .error ("parseExp: Found extra token: " ++ t))
        ∧ (rest = [] → parseExp stringToReal fuel s = .ok e) := by
    intro e s1 h
    obtain ⟨rest, ⟨consumed, hc⟩, hs1⟩ := (reads_leave_suffix stringToReal fuel).2.1 0 s e s1 h
    rw [hs1] at h
    have hp := parseExp_of_readE stringToReal fuel s rest e h
    refine ⟨consumed, rest, hc.symm, hs1, ?_, ?_⟩
    · intro t ts hrest
      have ht : t ≠ "" := by
        intro e0
        apply hclean
        rw [← hc, hrest, e0]
        simp
      rw [hp, hrest]
      simp [nextToken, ht]
    · intro hrest
      rw [hp, hrest]
      simp [nextToken]
  refine ⟨hfirst, ?_⟩
  intro e hpe
  cases hr : readE stringToReal fuel 0 s with
  | ok r =>
    obtain ⟨e1, s1⟩ := r
    obtain ⟨consumed, rest, _, hs1, herr, hok⟩ := hfirst e1 s1 hr
    cases rest with
    | nil =>
      have := hok rfl
      rw [hpe] at this
      cases this
      rw [hs1]
    | cons t ts =>
      have := herr t ts rfl
      rw [hpe] at this
      cases this
  | error m => rw [parseExp, hr] at hpe; cases hpe
  | undef => rw [parseExp, hr] at hpe; cases hpe
  | nofuel => rw [parseExp, hr] at hpe; cases hpe

/-- Witness for C13: the texts `2 3`, `2+3)` and `2+3`. -/
theorem C13_extra_tokens_witness :
    (∃ consumed rest, ["2", "3"] = consumed ++ rest ∧ ["3"] = afterLookahead rest
      ∧ (∀ t ts, rest = t :: ts →
          parseExp readDecimal 9 ["2", "3"] = .error ("parseExp: Found extra token: " ++ t))
      ∧ (rest = [] → parseExp readDecimal 9 ["2", "3"] = .ok (.ConstantExp 2)))
    ∧ readE readDecimal 9 0 ["2", "+", "3"]
        = .ok (.CompoundExp "+" (.ConstantExp 2) (.ConstantExp 3), afterLookahead [])
    ∧ parseExp readDecimal 9 ["2", "3"] = .error "parseExp: Found extra token: 3"
    ∧ parseExp readDecimal 9 ["2", "+", "3", ")"] = .error "parseExp: Found extra token: )"
    ∧ parseExp readDecimal 9 ["2", "+", "3"]
        = .ok (.CompoundExp "+" (.ConstantExp 2) (.ConstantExp 3)) :=
  ⟨(C13_extra_tokens readDecimal 9 ["2", "3"] (by decide)).1 (.ConstantExp 2) ["3"]
      (by decide),
   (C13_extra_tokens readDecimal 9 ["2", "+", "3"] (by decide)).2
      (.CompoundExp "+" (.ConstantExp 2) (.ConstantExp 3)) (by decide),
   by decide, by decide, by decide⟩

/-! ### The `nextLine` register -/

theorem stringToInteger_NULL :
    stringToInteger "NULL" = .error "stringToInteger: Illegal integer format" := by
  decide

theorem stringToInteger_minus_one : stringToInteger "-1" = .ok (-1) := by decide

theorem Machine.setNextLine_NULL (m : Machine) :
    m.setNextLine "NULL" = (.ok (), m.withNextLine 0) := by
  simp [Machine.setNextLine, EvalState.setNextLine, Machine.withNextLine]

theorem Machine.setNextLine_number (m : Machine) (lineNum : String) (n : Int)
    (h : stringToInteger lineNum = .ok n) :
    m.setNextLine lineNum = (.ok (), m.withNextLine n) := by
  have hne : lineNum ≠ "NULL" := by
    intro hc
    rw [hc, stringToInteger_NULL] at h
    exact absurd h (by simp)
  simp [Machine.setNextLine, EvalState.setNextLine, Machine.withNextLine, hne, h, Res.bind]

theorem execute_goto (m : Machine) (next : String) (n : Int)
    (h : stringToInteger next = .ok n) :
    execute (.GotoStmt next) m = (.ok (), m.withNextLine n) := by
  simp [execute, Machine.setNextLine_number m next n h]

theorem execute_end (m : Machine) :
    execute .EndStmt m = (.ok (), m.withNextLine (-1)) := by
  simp [execute, Machine.setNextLine_number m "-1" (-1) stringToInteger_minus_one]

/-! ### Turns of the loop of `run` -/

theorem runLoop_halt (p : Program) (fuel : Nat) (m : Machine) :
    runLoop p fuel (-1) m = (.ok (), m) := by
  cases fuel <;> simp [runLoop]

theorem runLoop_step (p : Program) (fuel : Nat) (index nx : Int) (m m1 : Machine)
    (hi : index ≠ -1) (h : runStep p index m = (.ok nx, m1)) :
    runLoop p (fuel + 1) index m = runLoop p fuel nx m1 := by
  rw [runLoop]
  simp [hi, h]

theorem runLoop_error (p : Program) (fuel : Nat) (index : Int) (m m1 : Machine)
    (msg : String) (hi : index ≠ -1) (h : runStep p index m = (.error msg, m1)) :
    runLoop p (fuel + 1) index m = (.error msg, m1) := by
  rw [runLoop]
  simp [hi, h]

theorem runStep_fetch (p : Program) (index : Int) (m : Machine) (stmt : Statement)
    (h : p.getParsedStatement index = .ok (some stmt)) :
    runStep p index m
      = nextIndex p index (execute stmt { m with visited := m.visited ++ [index] }) := by
  simp [runStep, h]

theorem runStep_jump (p : Program) (index : Int) (m m1 : Machine) (stmt : Statement)
    (h : p.getParsedStatement index = .ok (some stmt))
    (he : execute stmt { m with visited := m.visited ++ [index] } = (.ok (), m1))
    (hn : m1.state.nextLine ≠ 0) :
    runStep p index m = (.ok m1.state.nextLine, m1) := by
  rw [runStep_fetch p index m stmt h, he]
  simp [nextIndex, EvalState.getNextLine, hn]

theorem runStep_unknown (p : Program) (n : Int) (m : Machine)
    (h : HashMap.containsKey p.map n = false) :
    runStep p n m
      = (.error ("Invalid line number: " ++ toString n),
         { m with visited := m.visited ++ [n] }) := by
  simp [runStep, Program.getParsedStatement, h]

/-! ### The example programs -/

theorem jumpProgram_entered :
    enterLines 10
      [(10, "10 LET x = 1", ["LET", "x", "=", "1"]),
       (20, "20 GOTO 40", ["GOTO", "40"]),
       (30, "30 LET x = 2", ["LET", "x", "=", "2"]),
       (40, "40 PRINT x", ["PRINT", "x"])] Program.new = jumpProgram := by
  decide

theorem branchProgram_entered :
    enterLines 10
      [(10, "10 LET x = 5", ["LET", "x", "=", "5"]),
       (20, "20 IF x > 3 THEN 40", ["IF", "x", ">", "3", "THEN", "40"]),
       (30, "30 PRINT 0", ["PRINT", "0"]),
       (40, "40 PRINT 1", ["PRINT", "1"])] Program.new = branchProgram := by
  decide

theorem zeroProgram_entered :
    enterLines 10
      [(10, "10 GOTO 0", ["GOTO", "0"]),
       (20, "20 PRINT 7", ["PRINT", "7"])] Program.new = zeroProgram := by
  decide

theorem lostProgram_entered :
    enterLines 10
      [(10, "10 GOTO 25", ["GOTO", "25"]),
       (20, "20 PRINT 7", ["PRINT", "7"])] Program.new = lostProgram := by
  decide

theorem endProgram_entered :
    enterLines 10
      [(10, "10 END", ["END"]),
       (20, "20 PRINT 1", ["PRINT", "1"])] Program.new = endProgram := by
  decide

theorem failingProgram_entered :
    enterLines 10
      [(10, "10 LET x = 1", ["LET", "x", "=", "1"]),
       (20, "20 PRINT y", ["PRINT", "y"]),
       (30, "30 LET x = 2", ["LET", "x", "=", "2"])] Program.new = failingProgram := by
  decide

theorem bindProgram_entered :
    enterLines 10 [(10, "10 LET x = 1", ["LET", "x", "=", "1"])] Program.new
      = bindProgram := by
  decide

theorem printProgram_entered :
    enterLines 10 [(10, "10 PRINT x", ["PRINT", "x"])] Program.new = printProgram := by
  decide

/-! ### Jumps -/

theorem execute_if_true (l r : Expression) (op next : String) (n : Int) (m : Machine)
    (st1 : EvalState) (hc : processCondition l op r m.state = (.ok true, st1))
    (hnext : stringToInteger next = .ok n) :
    execute (.IfStmt l op r next) m
      = (.ok (), Machine.withNextLine { m with state := st1 } n) := by
  simp [execute, hc, displayResult, Machine.setNextLine_number _ next n hnext]

/-- C22 (as written, refuted): in the program 10 GOTO 0 / 20 PRINT 7 no line 0
is stored, yet the run that executes `GOTO 0` raises no error: it goes on with
line 20 and prints 7. -/
theorem C22_goto_zero_falls_through :
    HashMap.containsKey zeroProgram.map 0 = false
    ∧ run 10 zeroProgram startMachine
        = (.ok (),
           { state := { symbolTable := [], nextLine := 0 },
             input := [],
             output := [.str "", .real 7, .str " ", .endl, .endl],
             visited := [10, 20] }) := by
  decide

/-- C22 (amended): for every positive integer `n` that is not a stored line
number, when the loop of `run` comes to a line `k` that holds `GOTO n`, or
`IF l op r THEN n` with a condition that holds, the run aborts with the error
"Invalid line number: n" raised by the store lookup of `n`: line `n` is the
last one the loop turns to and nothing is written. -/
theorem C22_jump_to_unknown_line (p : Program) (k n : Int) (stmt : Statement)
    (next : String) (m : Machine) (fuel : Nat)
    (hk : k ≠ -1)
    (hfetch : p.getParsedStatement k = .ok (some stmt))
    (hstmt : stmt = .GotoStmt next
      ∨ ∃ l op r, stmt = .IfStmt l op r next
          ∧ (processCondition l op r m.state).1 = .ok true)
    (hnext : stringToInteger next = .ok n) (hn : 0 < n)
    (habsent : HashMap.containsKey p.map n = false) :
    (runLoop p (fuel + 2) k m).1 = .error ("Invalid line number: " ++ toString n)
    ∧ (runLoop p (fuel + 2) k m).2.visited = m.visited ++ [k, n]
    ∧ (runLoop p (fuel + 2) k m).2.output = m.output := by
  have hn0 : n ≠ 0 := by omega
  have hn1 : n ≠ -1 := by omega
  obtain ⟨m1, he, hv, ho⟩ : ∃ m1 : Machine,
      execute stmt { m with visited := m.visited ++ [k] } = (.ok (), m1.withNextLine n)
      ∧ m1.visited = m.visited ++ [k] ∧ m1.output = m.output := by
    rcases hstmt with h | ⟨l, op, r, h, hc⟩
    · exact ⟨{ m with visited := m.visited ++ [k] },
        by rw [h]; exact execute_goto _ next n hnext, rfl, rfl⟩
    · have hc2 : processCondition l op r m.state
          = (.ok true, (processCondition l op r m.state).2) := by
        rw [← hc]
      exact ⟨{ m with visited := m.visited ++ [k],
                      state := (processCondition l op r m.state).2 },
        by rw [h]; exact execute_if_true l r op next n _ _ hc2 hnext, rfl, rfl⟩
  have hstep : runStep p k m = (.ok n, m1.withNextLine n) := by
    have := runStep_jump p k m (m1.withNextLine n) stmt hfetch he
      (by simpa [Machine.withNextLine] using hn0)
    simpa [Machine.withNextLine] using this
  rw [runLoop_step p (fuel + 1) k n m _ hk hstep,
    runLoop_error p fuel n _ _ _ hn1 (runStep_unknown p n _ habsent)]
  simp [Machine.withNextLine, hv, ho]

theorem C22_jump_to_unknown_line_witness :
    (runLoop lostProgram 2 10 startMachine).1 = .error ("Invalid line number: " ++ toString (25 : Int))
    ∧ (runLoop lostProgram 2 10 startMachine).2.visited = startMachine.visited ++ [10, 25]
    ∧ (runLoop lostProgram 2 10 startMachine).2.output = startMachine.output :=
  C22_jump_to_unknown_line lostProgram 10 25 (.GotoStmt "25") "25" startMachine 0
    (by decide) (by decide) (Or.inl rfl) (by decide) (by decide)
    (by decide)

/-! ### The operator of an IF statement -/

theorem processCondition_other (l r : Expression) (op : String) (st : EvalState)
    (h1 : op ≠ "=") (h2 : op ≠ ">") (h3 : op ≠ "<") :
    processCondition l op r st = (.ok false, st) := by
  simp [processCondition, conditionCase, h1, h2, h3]

/-- C21 (evaluation at the failing input): the line `IF x ! 3 THEN 40` is parsed
without an error although the token between its two expressions is none of
`=`, `<`, `>`; executed in a state where `x` is undefined, the statement
evaluates nothing, raises no error and falls through. The constructor of LET,
by contrast, rejects `LET x ! 3` for its operator. -/
theorem C21_unknown_operator_accepted :
    parseStatement readDecimal 10 ["IF", "x", "!", "3", "THEN", "40"]
      = .ok (.IfStmt (.IdentifierExp "x") "!" (.ConstantExp 3) "40")
    ∧ execute (.IfStmt (.IdentifierExp "x") "!" (.ConstantExp 3) "40") startMachine
        = (.ok (), startMachine.withNextLine 0)
    ∧ parseStatement readDecimal 10 ["LET", "x", "!", "3"]
        = .error "Illegal operator: !" := by
  decide

/-- The constructor of an IF statement does not look at the token between its
two expressions. When the left expression is read up to a token `op`, the right
one up to `THEN` (or `then`) and a number token ends the line, the statement is
built with `op` as its operator, whatever `op` is; when such a statement is
executed with `op` none of `=`, `<`, `>`, neither expression is evaluated and
the run falls through to the next line. -/
theorem mkIfStmt_operator_unchecked (stringToReal : String → Res Rat) (fuel : Nat)
    (s s1 : Scanner) (expL expR : Expression) (op t next : String)
    (hL : readE stringToReal fuel 0 s = .ok (expL, op :: s1))
    (hR : readE stringToReal fuel 0 s1 = .ok (expR, [t, next]))
    (ht : t = "THEN" ∨ t = "then")
    (hn : getTokenType next = .NUMBER) :
    parseStatement stringToReal fuel ("IF" :: s) = .ok (.IfStmt expL op expR next)
    ∧ (op ≠ "=" → op ≠ ">" → op ≠ "<" →
        ∀ m : Machine, execute (.IfStmt expL op expR next) m = (.ok (), m.withNextLine 0)) := by
  constructor
  · have h0 : nextToken ("IF" :: s) = ("IF", s) := rfl
    have h1 : nextToken (op :: s1) = (op, s1) := rfl
    have h2 : nextToken [t, next] = (t, [next]) := rfl
    have h3 : nextToken [next] = (next, []) := rfl
    have h4 : (hasMoreTokens ([] : Scanner)).1 = false := by decide
    have ht2 : ¬ (t ≠ "THEN" ∧ t ≠ "then") := by
      rcases ht with h | h <;> simp [h]
    simp [parseStatement, h0, mkIfStmt, hL, h1, hR, h2, h3, ht2, hn, checkExtraneous, h4]
  · intro h1 h2 h3 m
    simp [execute, processCondition_other expL expR op m.state h1 h2 h3, displayResult,
      Machine.setNextLine_NULL, Machine.withNextLine]

theorem jumpProgram_run :
    run 10 jumpProgram startMachine
      = (.ok (),
         { state := { symbolTable := [("x", 1)], nextLine := 0 },
           input := [],
           output := [.str "", .real 1, .str " ", .endl, .endl],
           visited := [10, 20, 40] }) := by
  decide

/-- C23: when the loop of `run` comes to a line `k` that holds `GOTO n`, with `n`
a stored positive line number, the next turn of the loop is at line `n` and
executes the statement stored there, wherever `n` lies relative to `k`; no
binding changes. The program 10 LET x = 1 / 20 GOTO 40 / 30 LET x = 2 /
40 PRINT x runs to completion through lines 10, 20, 40, prints 1 and ends
with x = 1. -/
theorem C23_goto_transfers (p : Program) (k n : Int) (next : String)
    (stmtN : Statement) (m : Machine) (fuel : Nat)
    (hk : k ≠ -1)
    (hfetch : p.getParsedStatement k = .ok (some (.GotoStmt next)))
    (hnext : stringToInteger next = .ok n) (hn : 0 < n)
    (hstored : p.getParsedStatement n = .ok (some stmtN)) :
    runStep p k m
      = (.ok n, Machine.withNextLine { m with visited := m.visited ++ [k] } n)
    ∧ runLoop p (fuel + 1) k m
        = runLoop p fuel n (Machine.withNextLine { m with visited := m.visited ++ [k] } n)
    ∧ runStep p n (Machine.withNextLine { m with visited := m.visited ++ [k] } n)
        = nextIndex p n
            (execute stmtN
              (Machine.withNextLine { m with visited := m.visited ++ [k, n] } n))
    ∧ run 10 jumpProgram startMachine
        = (.ok (),
           { state := { symbolTable := [("x", 1)], nextLine := 0 },
             input := [],
             output := [.str "", .real 1, .str " ", .endl, .endl],
             visited := [10, 20, 40] }) := by
  have hn0 : n ≠ 0 := by omega
  have hstep : runStep p k m
      = (.ok n, Machine.withNextLine { m with visited := m.visited ++ [k] } n) := by
    have := runStep_jump p k m _ (.GotoStmt next) hfetch (execute_goto _ next n hnext)
      (by simpa [Machine.withNextLine] using hn0)
    simpa [Machine.withNextLine] using this
  refine ⟨hstep, runLoop_step p fuel k n m _ hk hstep, ?_, jumpProgram_run⟩
  rw [runStep_fetch p n _ stmtN hstored]
  simp [Machine.withNextLine]

theorem C23_goto_transfers_witness :
    runStep jumpProgram 20 startMachine
      = (.ok 40, Machine.withNextLine
          { startMachine with visited := startMachine.visited ++ [20] } 40)
    ∧ runLoop jumpProgram (5 + 1) 20 startMachine
        = runLoop jumpProgram 5 40
            (Machine.withNextLine
              { startMachine with visited := startMachine.visited ++ [20] } 40)
    ∧ runStep jumpProgram 40
          (Machine.withNextLine
            { startMachine with visited := startMachine.visited ++ [20] } 40)
        = nextIndex jumpProgram 40
            (execute (.PrintStmt "" [.IdentifierExp "x"])
              (Machine.withNextLine
                { startMachine with visited := startMachine.visited ++ [20, 40] } 40))
    ∧ run 10 jumpProgram startMachine
        = (.ok (),
           { state := { symbolTable := [("x", 1)], nextLine := 0 },
             input := [],
             output := [.str "", .real 1, .str " ", .endl, .endl],
             visited := [10, 20, 40] }) :=
  C23_goto_transfers jumpProgram 20 40 "40" (.PrintStmt "" [.IdentifierExp "x"])
    startMachine 5 (by decide) (by decide) (by decide) (by decide)
    (by decide)

/-! ### END -/

/-- C25: when the loop of `run` comes to a line that holds END, it executes that
statement and stops: no further line is fetched. In particular, for a program
whose first line holds END, `run` returns normally having turned to that line
only, with the symbol table and the input as they were and nothing written but
the line feed that `run` itself writes at its end. -/
theorem C25_end_halts (p : Program) (k : Int) (m : Machine) (fuel : Nat)
    (hk : k ≠ -1) (hfetch : p.getParsedStatement k = .ok (some .EndStmt)) :
    runLoop p (fuel + 1) k m
      = (.ok (), Machine.withNextLine { m with visited := m.visited ++ [k] } (-1))
    ∧ (p.getFirstLineNumber = k →
        run (fuel + 1) p m
          = (.ok (),
             { state := { symbolTable := m.state.symbolTable, nextLine := -1 },
               input := m.input,
               output := m.output ++ [.endl],
               visited := m.visited ++ [k] })) := by
  have hstep : runStep p k m
      = (.ok (-1), Machine.withNextLine { m with visited := m.visited ++ [k] } (-1)) := by
    have := runStep_jump p k m _ .EndStmt hfetch (execute_end _)
      (by simp [Machine.withNextLine])
    simpa [Machine.withNextLine] using this
  have hloop := runLoop_step p fuel k (-1) m _ hk hstep
  rw [runLoop_halt] at hloop
  refine ⟨hloop, ?_⟩
  intro hfirst
  simp [run, hfirst, hloop, Machine.withNextLine]

theorem C25_end_halts_witness :
    runLoop endProgram (3 + 1) 10 startMachine
      = (.ok (), Machine.withNextLine
          { startMachine with visited := startMachine.visited ++ [10] } (-1))
    ∧ (endProgram.getFirstLineNumber = 10 →
        run (3 + 1) endProgram startMachine
          = (.ok (),
             { state := { symbolTable := startMachine.state.symbolTable, nextLine := -1 },
               input := startMachine.input,
               output := startMachine.output ++ [.endl],
               visited := startMachine.visited ++ [10] })) :=
  C25_end_halts endProgram 10 startMachine 3 (by decide) (by decide)

/-! ### Expressions without assignment -/

theorem eval_arithmetic_state (e : Expression) :
    ∀ st : EvalState, e.arithmetic = true → (eval e st).2 = st := by
  induction e with
  | ConstantExp v => intro st _; simp [eval]
  | IdentifierExp name =>
    intro st _
    simp only [eval]
    split <;> rfl
  | CompoundExp op lhs rhs ihl ihr =>
    intro st h
    simp only [Expression.arithmetic, Bool.and_eq_true, decide_eq_true_eq] at h
    obtain ⟨⟨hop, hl⟩, hr⟩ := h
    have hne : op ≠ "=" := by
      rcases hop with h | h | h | h <;> rw [h] <;> decide
    have h1 := ihl st hl
    unfold eval
    simp only [hne, ↓reduceIte]
    rcases hL : eval lhs st with ⟨rl, st1⟩
    rw [hL] at h1
    simp only at h1
    subst h1
    cases rl with
    | ok left =>
      have h2 := ihr st1 hr
      rcases hR : eval rhs st1 with ⟨rr, st2⟩
      rw [hR] at h2
      simp only at h2
      subst h2
      cases rr with
      | ok right =>
        simp only
        split_ifs <;> simp [hR]
      | error msg => simp [hR]
      | undef => simp [hR]
      | nofuel => simp [hR]
    | error msg => simp [hL]
    | undef => simp [hL]
    | nofuel => simp [hL]

/-! ### The IF statement -/

theorem execute_if_compare (l r : Expression) (op next : String) (n : Int) (m : Machine)
    (a b : Rat) (st1 st2 : EvalState)
    (hop : op = "=" ∨ op = "<" ∨ op = ">")
    (hl : eval l m.state = (.ok a, st1)) (hr : eval r st1 = (.ok b, st2))
    (hnext : stringToInteger next = .ok n) :
    execute (.IfStmt l op r next) m
      = (.ok (), Machine.withNextLine { m with state := st2 }
          (if (op = "=" ∧ a = b) ∨ (op = "<" ∧ a < b) ∨ (op = ">" ∧ b < a) then n else 0)) := by
  have hN := fun m0 : Machine => Machine.setNextLine_number m0 next n hnext
  have h1 : ¬ ("=" = "<") := by decide
  have h2 : ¬ ("=" = ">") := by decide
  have h3 : ¬ ("<" = "=") := by decide
  have h4 : ¬ ("<" = ">") := by decide
  have h5 : ¬ (">" = "=") := by decide
  have h6 : ¬ (">" = "<") := by decide
  rcases hop with h | h | h
  · subst h
    by_cases hab : a = b
    · simp [execute, processCondition, conditionCase, evalOperands, hl, hr, hab,
        displayResult, hN, h1, h2]
    · simp [execute, processCondition, conditionCase, evalOperands, hl, hr, hab,
        displayResult, Machine.setNextLine_NULL, h1, h2]
  · subst h
    by_cases hab : a < b
    · simp [execute, processCondition, conditionCase, evalOperands, hl, hr, hab,
        displayResult, hN, h3, h4]
    · simp [execute, processCondition, conditionCase, evalOperands, hl, hr, hab,
        displayResult, Machine.setNextLine_NULL, h3, h4]
  · subst h
    by_cases hab : b < a
    · simp [execute, processCondition, conditionCase, evalOperands, hl, hr, hab,
        displayResult, hN, h5, h6]
    · simp [execute, processCondition, conditionCase, evalOperands, hl, hr, hab,
        displayResult, Machine.setNextLine_NULL, h5, h6]

theorem branchProgram_run :
    run 10 branchProgram startMachine
      = (.ok (),
         { state := { symbolTable := [("x", 5)], nextLine := 0 },
           input := [],
           output := [.str "", .real 1, .str " ", .endl, .endl],
           visited := [10, 20, 40] }) := by
  have s1 : runStep branchProgram 10 startMachine
      = (.ok 20, ⟨⟨[("x", 5)], 0⟩, [], [], [10]⟩) := by decide
  have e2 := execute_if_compare (.IdentifierExp "x") (.ConstantExp 3) ">" "40" 40
    ⟨⟨[("x", 5)], 0⟩, [], [], [10, 20]⟩ 5 3 ⟨[("x", 5)], 0⟩ ⟨[("x", 5)], 0⟩
    (Or.inr (Or.inr rfl)) (by decide) (by decide) (by decide)
  have hc : ((">" : String) = "=" ∧ (5 : Rat) = 3) ∨ ((">" : String) = "<" ∧ (5 : Rat) < 3)
      ∨ ((">" : String) = ">" ∧ (3 : Rat) < 5) := Or.inr (Or.inr ⟨rfl, by norm_num⟩)
  rw [if_pos hc] at e2
  have s2 : runStep branchProgram 20 ⟨⟨[("x", 5)], 0⟩, [], [], [10]⟩
      = (.ok 40, ⟨⟨[("x", 5)], 40⟩, [], [], [10, 20]⟩) :=
    runStep_jump branchProgram 20 ⟨⟨[("x", 5)], 0⟩, [], [], [10]⟩
      ⟨⟨[("x", 5)], 40⟩, [], [], [10, 20]⟩ _ (by decide) e2 (by decide)
  have s3 : runStep branchProgram 40 ⟨⟨[("x", 5)], 40⟩, [], [], [10, 20]⟩
      = (.ok (-1),
         ⟨⟨[("x", 5)], 0⟩, [], [.str "", .real 1, .str " ", .endl], [10, 20, 40]⟩) := by
    decide
  have hl : runLoop branchProgram 10 10 startMachine
      = (.ok (),
         ⟨⟨[("x", 5)], 0⟩, [], [.str "", .real 1, .str " ", .endl], [10, 20, 40]⟩) := by
    rw [runLoop_step branchProgram 9 10 20 _ _ (by decide) s1,
      runLoop_step branchProgram 8 20 40 _ _ (by decide) s2,
      runLoop_step branchProgram 7 40 (-1) _ _ (by decide) s3, runLoop_halt]
  have hf : branchProgram.getFirstLineNumber = 10 := by decide
  simp [run, hf, hl]

theorem zeroTargetProgram_entered :
    enterLines 10
      [(0, "0 PRINT 9", ["PRINT", "9"]),
       (10, "10 IF 1 = 1 THEN 0", ["IF", "1", "=", "1", "THEN", "0"]),
       (20, "20 PRINT 7", ["PRINT", "7"])] Program.new = zeroTargetProgram := by
  decide

theorem processCondition_one_one (st : EvalState) :
    processCondition (.ConstantExp 1) "=" (.ConstantExp 1) st = (.ok true, st) := by
  simp [processCondition, conditionCase, evalOperands, eval]

theorem execute_if_one_one (m : Machine) :
    execute (.IfStmt (.ConstantExp 1) "=" (.ConstantExp 1) "0") m
      = (.ok (), m.withNextLine 0) := by
  have h0 : stringToInteger "0" = .ok 0 := by decide
  simp [execute, processCondition_one_one, displayResult,
    Machine.setNextLine_number _ "0" 0 h0, Machine.withNextLine]

theorem zeroTargetProgram_run :
    run 10 zeroTargetProgram startMachine
      = (.ok (),
         { state := { symbolTable := [], nextLine := 0 },
           input := [],
           output := [.str "", .real 9, .str " ", .endl,
                      .str "", .real 7, .str " ", .endl, .endl],
           visited := [0, 10, 20] }) := by
  have s1 : runStep zeroTargetProgram 0 startMachine
      = (.ok 10, ⟨⟨[], 0⟩, [], [.str "", .real 9, .str " ", .endl], [0]⟩) := by decide
  have hf2 : zeroTargetProgram.getParsedStatement 10
      = .ok (some (.IfStmt (.ConstantExp 1) "=" (.ConstantExp 1) "0")) := by decide
  have hn2 : zeroTargetProgram.getNextLineNumber 10 = .ok 20 := by decide
  have s2 : runStep zeroTargetProgram 10
        ⟨⟨[], 0⟩, [], [.str "", .real 9, .str " ", .endl], [0]⟩
      = (.ok 20, ⟨⟨[], 0⟩, [], [.str "", .real 9, .str " ", .endl], [0, 10]⟩) := by
    rw [runStep_fetch _ _ _ _ hf2, execute_if_one_one]
    simp [nextIndex, EvalState.getNextLine, Machine.withNextLine, hn2]
  have s3 : runStep zeroTargetProgram 20
        ⟨⟨[], 0⟩, [], [.str "", .real 9, .str " ", .endl], [0, 10]⟩
      = (.ok (-1),
         ⟨⟨[], 0⟩, [],
          [.str "", .real 9, .str " ", .endl, .str "", .real 7, .str " ", .endl],
          [0, 10, 20]⟩) := by decide
  have hl : runLoop zeroTargetProgram 10 0 startMachine
      = (.ok (),
         ⟨⟨[], 0⟩, [],
          [.str "", .real 9, .str " ", .endl, .str "", .real 7, .str " ", .endl],
          [0, 10, 20]⟩) := by
    rw [runLoop_step zeroTargetProgram 9 0 10 _ _ (by decide) s1,
      runLoop_step zeroTargetProgram 8 10 20 _ _ (by decide) s2,
      runLoop_step zeroTargetProgram 7 20 (-1) _ _ (by decide) s3, runLoop_halt]
  have hf : zeroTargetProgram.getFirstLineNumber = 0 := by decide
  simp [run, hf, hl]

/-- C24 (as written, refuted): in the program 0 PRINT 9 / 10 IF 1 = 1 THEN 0 /
20 PRINT 7 the condition of line 10 holds and line 0 is stored, yet the run
does not jump to line 0: the statement sets the `nextLine` register to 0, the
value that means "no jump", and the run falls through to line 20 and ends. -/
theorem C24_true_if_with_target_zero_falls_through :
    parseStatement readDecimal 10 ["IF", "1", "=", "1", "THEN", "0"]
      = .ok (.IfStmt (.ConstantExp 1) "=" (.ConstantExp 1) "0")
    ∧ processCondition (.ConstantExp 1) "=" (.ConstantExp 1) emptyState
        = (.ok true, emptyState)
    ∧ HashMap.containsKey zeroTargetProgram.map 0 = true
    ∧ execute (.IfStmt (.ConstantExp 1) "=" (.ConstantExp 1) "0")
        (startMachine.withNextLine 5)
        = (.ok (), startMachine.withNextLine 0)
    ∧ run 10 zeroTargetProgram startMachine
        = (.ok (),
           { state := { symbolTable := [], nextLine := 0 },
             input := [],
             output := [.str "", .real 9, .str " ", .endl,
                        .str "", .real 7, .str " ", .endl, .endl],
             visited := [0, 10, 20] }) :=
  ⟨by decide, processCondition_one_one emptyState, by decide,
    execute_if_one_one (startMachine.withNextLine 5), zeroTargetProgram_run⟩

/-- C24 (amended): executing `IF l op r THEN n` with `op` one of `=`, `<`, `>` and
a positive target `n`, in a state where `l` and then `r` evaluate to `a` and
`b`, raises no error and sets the `nextLine` register to `n` when `a op b`
holds and to 0 otherwise; operands without assignment are both evaluated in the
current state and leave it as it is. For the loop of `run` at a line `k` that
holds the statement this is a jump exactly when the condition holds: the next
turn is at line `n` when it holds, and at the line that follows `k` in the store
when it does not. The program 10 LET x = 5 / 20 IF x > 3 THEN 40 / 30 PRINT 0 /
40 PRINT 1 runs through lines 10, 20, 40 and prints only 1. -/
theorem C24_if_transfers (p : Program) (k : Int) (l r : Expression) (op next : String)
    (n : Int) (m : Machine) (a b : Rat) (st1 st2 : EvalState)
    (hfetch : p.getParsedStatement k = .ok (some (.IfStmt l op r next)))
    (hop : op = "=" ∨ op = "<" ∨ op = ">")
    (hl : eval l m.state = (.ok a, st1)) (hr : eval r st1 = (.ok b, st2))
    (hnext : stringToInteger next = .ok n) (hn : 0 < n) :
    execute (.IfStmt l op r next) m
      = (.ok (), Machine.withNextLine { m with state := st2 }
          (if (op = "=" ∧ a = b) ∨ (op = "<" ∧ a < b) ∨ (op = ">" ∧ a > b) then n else 0))
    ∧ (l.arithmetic = true → r.arithmetic = true → st1 = m.state ∧ st2 = m.state)
    ∧ ((op = "=" ∧ a = b) ∨ (op = "<" ∧ a < b) ∨ (op = ">" ∧ a > b) →
        runStep p k m
          = (.ok n, Machine.withNextLine
              { m with state := st2, visited := m.visited ++ [k] } n))
    ∧ (¬ ((op = "=" ∧ a = b) ∨ (op = "<" ∧ a < b) ∨ (op = ">" ∧ a > b)) →
        ∀ nx, p.getNextLineNumber k = .ok nx →
          runStep p k m
            = (.ok nx, Machine.withNextLine
                { m with state := st2, visited := m.visited ++ [k] } 0))
    ∧ run 10 branchProgram startMachine
        = (.ok (),
           { state := { symbolTable := [("x", 5)], nextLine := 0 },
             input := [],
             output := [.str "", .real 1, .str " ", .endl, .endl],
             visited := [10, 20, 40] }) := by
  have hn0 : n ≠ 0 := by omega
  have hex := execute_if_compare l r op next n { m with visited := m.visited ++ [k] }
    a b st1 st2 hop hl hr hnext
  refine ⟨execute_if_compare l r op next n m a b st1 st2 hop hl hr hnext, ?_, ?_, ?_,
    branchProgram_run⟩
  · intro hla hra
    have h1 : st1 = m.state := by
      have := eval_arithmetic_state l m.state hla
      rw [hl] at this
      exact this
    have h2 : st2 = st1 := by
      have := eval_arithmetic_state r st1 hra
      rw [hr] at this
      exact this
    exact ⟨h1, h2.trans h1⟩
  · intro hc
    rw [if_pos hc] at hex
    have := runStep_jump p k m _ _ hfetch hex (by simpa [Machine.withNextLine] using hn0)
    simpa [Machine.withNextLine] using this
  · intro hc nx hnx
    rw [if_neg hc] at hex
    rw [runStep_fetch p k m _ hfetch, hex]
    simp [nextIndex, EvalState.getNextLine, Machine.withNextLine, hnx]

theorem C24_if_transfers_witness :
    execute (.IfStmt (.IdentifierExp "x") ">" (.ConstantExp 3) "40")
        (Machine.mk ⟨[("x", 5)], 0⟩ [] [] [10])
      = (.ok (), Machine.withNextLine
          { Machine.mk ⟨[("x", 5)], 0⟩ [] [] [10] with
            state := (⟨[("x", 5)], 0⟩ : EvalState) }
          (if ((">" : String) = "=" ∧ (5 : Rat) = 3) ∨ ((">" : String) = "<" ∧ (5 : Rat) < 3)
              ∨ ((">" : String) = ">" ∧ (5 : Rat) > 3) then 40 else 0))
    ∧ ((Expression.IdentifierExp "x").arithmetic = true →
        (Expression.ConstantExp 3).arithmetic = true →
        (⟨[("x", 5)], 0⟩ : EvalState) = (Machine.mk ⟨[("x", 5)], 0⟩ [] [] [10]).state
          ∧ (⟨[("x", 5)], 0⟩ : EvalState) = (Machine.mk ⟨[("x", 5)], 0⟩ [] [] [10]).state)
    ∧ (((">" : String) = "=" ∧ (5 : Rat) = 3) ∨ ((">" : String) = "<" ∧ (5 : Rat) < 3)
          ∨ ((">" : String) = ">" ∧ (5 : Rat) > 3) →
        runStep branchProgram 20 (Machine.mk ⟨[("x", 5)], 0⟩ [] [] [10])
          = (.ok 40, Machine.withNextLine
              { Machine.mk ⟨[("x", 5)], 0⟩ [] [] [10] with
                state := (⟨[("x", 5)], 0⟩ : EvalState),
                visited := (Machine.mk ⟨[("x", 5)], 0⟩ [] [] [10]).visited ++ [20] } 40))
    ∧ (¬ (((">" : String) = "=" ∧ (5 : Rat) = 3) ∨ ((">" : String) = "<" ∧ (5 : Rat) < 3)
          ∨ ((">" : String) = ">" ∧ (5 : Rat) > 3)) →
        ∀ nx, branchProgram.getNextLineNumber 20 = .ok nx →
          runStep branchProgram 20 (Machine.mk ⟨[("x", 5)], 0⟩ [] [] [10])
            = (.ok nx, Machine.withNextLine
                { Machine.mk ⟨[("x", 5)], 0⟩ [] [] [10] with
                  state := (⟨[("x", 5)], 0⟩ : EvalState),
                  visited := (Machine.mk ⟨[("x", 5)], 0⟩ [] [] [10]).visited ++ [20] } 0))
    ∧ run 10 branchProgram startMachine
        = (.ok (),
           { state := { symbolTable := [("x", 5)], nextLine := 0 },
             input := [],
             output := [.str "", .real 1, .str " ", .endl, .endl],
             visited := [10, 20, 40] }) :=
  C24_if_transfers branchProgram 20 (.IdentifierExp "x") (.ConstantExp 3) ">" "40" 40
    (Machine.mk ⟨[("x", 5)], 0⟩ [] [] [10]) 5 3 ⟨[("x", 5)], 0⟩ ⟨[("x", 5)], 0⟩
    (by decide) (Or.inr (Or.inr rfl)) (by decide) (by decide) (by decide) (by decide)

/-! ### Statements leave the record of visited lines alone -/

theorem Machine.setNextLine_visited (m : Machine) (lineNum : String) :
    (m.setNextLine lineNum).2.visited = m.visited := by
  unfold Machine.setNextLine
  split <;> rfl

theorem printExps_visited (vec : List Expression) :
    ∀ m : Machine, (printExps vec m).2.visited = m.visited := by
  induction vec with
  | nil => intro m; rfl
  | cons exp rest ih =>
    intro m
    unfold printExps
    split
    · rw [ih]
    · rfl
    · rfl
    · rfl

theorem execute_visited (stmt : Statement) (m : Machine) :
    (execute stmt m).2.visited = m.visited := by
  cases stmt with
  | RemStmt str => simp [execute, Machine.setNextLine_visited]
  | LetStmt var exp =>
    simp only [execute]
    split
    · rw [Machine.setNextLine_visited]
    · rfl
    · rfl
    · rfl
  | PrintStmt comment vec =>
    have h := printExps_visited vec { m with output := m.output ++ [.str comment] }
    simp only [execute]
    split
    · rename_i m1 heq
      rw [Machine.setNextLine_visited]
      rw [heq] at h
      exact h
    · rename_i r m1 heq
      rw [heq] at h
      exact h
  | InputStmt var =>
    simp only [execute]
    split
    · rfl
    · rw [Machine.setNextLine_visited]
  | GotoStmt next => simp [execute, Machine.setNextLine_visited]
  | IfStmt expL op expR next =>
    simp only [execute]
    split
    · unfold displayResult
      split <;> rw [Machine.setNextLine_visited]
    · rfl
    · rfl
    · rfl
  | EndStmt => simp [execute, Machine.setNextLine_visited]

theorem nextIndex_machine (p : Program) (index : Int) (r : Res Unit × Machine) :
    (nextIndex p index r).2 = r.2 := by
  unfold nextIndex
  split
  · split
    · rfl
    · split <;> rfl
  · rfl
  · rfl
  · rfl

theorem runStep_visited (p : Program) (index : Int) (m : Machine) :
    (runStep p index m).2.visited = m.visited ++ [index] := by
  unfold runStep
  split
  · rw [nextIndex_machine, execute_visited]
  · rfl
  · rfl
  · rfl
  · rfl

/-! ### Runs that come to a line -/

theorem runSteps_runLoop (p : Program) (j : Nat) :
    ∀ (index : Int) (m : Machine) (k : Int) (mk : Machine) (fuel : Nat),
      runSteps p j index m = some (k, mk) →
      runLoop p (j + fuel) index m = runLoop p fuel k mk := by
  induction j with
  | zero =>
    intro index m k mk fuel h
    simp [runSteps] at h
    obtain ⟨h1, h2⟩ := h
    subst h1
    subst h2
    simp
  | succ j ih =>
    intro index m k mk fuel h
    unfold runSteps at h
    by_cases hi : index = -1
    · simp [hi] at h
    · simp only [hi, ↓reduceIte] at h
      rcases hs : runStep p index m with ⟨r, m1⟩
      rw [hs] at h
      cases r with
      | ok nx =>
        simp only at h
        have e : j + 1 + fuel = (j + fuel) + 1 := by omega
        rw [e, runLoop_step p (j + fuel) index nx m m1 hi hs]
        exact ih nx m1 k mk fuel h
      | error msg => simp at h
      | undef => simp at h
      | nofuel => simp at h

/-- C27: when a run, after any number `j` of statements, comes to a line `k`
whose turn raises an error, be it in fetching the statement or in executing
it, `run` returns that error to its caller, together with the machine exactly
as the failing turn left it: line `k` is the last line the loop turned to, and
no binding and no output changes after the failing statement. -/
theorem C27_error_stops_run (p : Program) (j fuel : Nat) (k : Int)
    (m mk m1 : Machine) (msg : String)
    (hreach : runSteps p j p.getFirstLineNumber m = some (k, mk))
    (hk : k ≠ -1)
    (hfail : runStep p k mk = (.error msg, m1)) :
    run (j + (fuel + 1)) p m = (.error msg, m1)
    ∧ m1.visited = mk.visited ++ [k] := by
  constructor
  · have h := runSteps_runLoop p j _ m k mk (fuel + 1) hreach
    rw [runLoop_error p fuel k mk m1 msg hk hfail] at h
    simp [run, h]
  · have := runStep_visited p k mk
    rw [hfail] at this
    exact this

theorem C27_error_stops_run_witness :
    run (1 + (0 + 1)) failingProgram startMachine
      = (.error "y is undefined",
         { state := { symbolTable := [("x", 1)], nextLine := 0 },
           input := [],
           output := [.str ""],
           visited := [10, 20] })
    ∧ ({ state := { symbolTable := [("x", 1)], nextLine := 0 },
         input := [],
         output := [.str ""],
         visited := [10, 20] } : Machine).visited
        = ({ state := { symbolTable := [("x", 1)], nextLine := 0 },
             input := [],
             output := [],
             visited := [10] } : Machine).visited ++ [20] :=
  C27_error_stops_run failingProgram 1 0 20 startMachine
    { state := { symbolTable := [("x", 1)], nextLine := 0 },
      input := [],
      output := [],
      visited := [10] }
    { state := { symbolTable := [("x", 1)], nextLine := 0 },
      input := [],
      output := [.str ""],
      visited := [10, 20] }
    "y is undefined" (by decide) (by decide) (by decide)

/-! ### Step mode -/

theorem debugLoop_eq_runLoop (p : Program) (fuel : Nat) :
    ∀ (clicks : Nat) (index : Int) (m : Machine), fuel ≤ clicks →
      debugLoop p fuel clicks index m = runLoop p fuel index m := by
  induction fuel with
  | zero =>
    intro clicks index m _
    unfold debugLoop runLoop
    rfl
  | succ f ih =>
    intro clicks index m h
    obtain ⟨c, rfl⟩ : ∃ c, clicks = c + 1 := ⟨clicks - 1, by omega⟩
    unfold debugLoop runLoop
    by_cases hi : index = -1
    · simp [hi]
    · simp only [hi, ↓reduceIte]
      rcases hs : runStep p index m with ⟨r, m1⟩
      cases r with
      | ok nx => exact ih c nx m1 (by omega)
      | error msg => rfl
      | undef => rfl
      | nofuel => rfl

/-- C28: step mode and normal mode have the same control logic. Whenever the
clicks that `debug` waits for keep coming (here: at least as many clicks as
turns of the loop are allowed), `debug` returns exactly what `run` returns for
the same program and machine: the same outcome (normal end or the same error),
the same symbol table, the same output and the same sequence of lines. -/
theorem C28_debug_matches_run (fuel clicks : Nat) (p : Program) (m : Machine)
    (hclicks : fuel ≤ clicks) :
    debug fuel clicks p m = run fuel p m := by
  unfold debug run
  rw [debugLoop_eq_runLoop p fuel clicks _ m hclicks]

theorem C28_debug_matches_run_witness :
    debug 10 10 branchProgram startMachine = run 10 branchProgram startMachine :=
  C28_debug_matches_run 10 10 branchProgram startMachine (by decide)

/-! ### The parser builds no assignment -/

theorem precedence_pos (t : String) (prec : Nat) (h : ¬ precedence t ≤ prec) :
    t = "+" ∨ t = "-" ∨ t = "*" ∨ t = "/" := by
  unfold precedence at h
  by_cases h1 : t = "+" ∨ t = "-"
  · rcases h1 with h1 | h1
    · exact Or.inl h1
    · exact Or.inr (Or.inl h1)
  · by_cases h2 : t = "*" ∨ t = "/"
    · rcases h2 with h2 | h2
      · exact Or.inr (Or.inr (Or.inl h2))
      · exact Or.inr (Or.inr (Or.inr h2))
    · simp [h1, h2] at h

theorem reads_arithmetic (stringToReal : String → Res Rat) : ∀ f : Nat,
    (∀ s e s1, readT stringToReal f s = .ok (e, s1) → e.arithmetic = true)
    ∧ (∀ prec s e s1, readE stringToReal f prec s = .ok (e, s1) → e.arithmetic = true)
    ∧ (∀ prec e0 s e s1, readELoop stringToReal f prec e0 s = .ok (e, s1) →
        e0.arithmetic = true → e.arithmetic = true) := by
  intro f
  induction f with
  | zero =>
    refine ⟨?_, ?_, ?_⟩
    · intro s e s1 h; rw [readT] at h; cases h
    · intro prec s e s1 h; rw [readE] at h; cases h
    · intro prec e0 s e s1 h; rw [readELoop] at h; cases h
  | succ f ih =>
    obtain ⟨ihT, ihE, ihL⟩ := ih
    refine ⟨?_, ?_, ?_⟩
    · intro s e s1 h
      rw [readT] at h
      by_cases hw : getTokenType (nextToken s).1 = .WORD
      · simp only [hw, ↓reduceIte, Res.ok.injEq, Prod.mk.injEq] at h
        rw [← h.1]; rfl
      · by_cases hn : getTokenType (nextToken s).1 = .NUMBER
        · have hnw : ¬ (TokenType.NUMBER = TokenType.WORD) := by decide
          simp only [hn, hnw, ↓reduceIte] at h
          cases hv : stringToReal (nextToken s).1 with
          | ok v =>
            simp only [hv, Res.ok.injEq, Prod.mk.injEq] at h
            rw [← h.1]; rfl
          | error m => simp [hv] at h
          | undef => simp [hv] at h
          | nofuel => simp [hv] at h
        · simp only [hw, hn, ↓reduceIte] at h
          by_cases hp : (nextToken s).1 = "("
          · simp only [hp, ↓reduceIte, ne_eq, not_true_eq_false] at h
            cases hr : readE stringToReal f 0 (nextToken s).2 with
            | ok r =>
              obtain ⟨exp, s2⟩ := r
              simp only [hr] at h
              by_cases hc : (nextToken s2).1 = ")"
              · simp only [hc, not_true_eq_false, ↓reduceIte, Res.ok.injEq,
                  Prod.mk.injEq] at h
                rw [← h.1]
                exact ihE 0 _ _ _ hr
              · simp [hc] at h
            | error m => simp [hr] at h
            | undef => simp [hr] at h
            | nofuel => simp [hr] at h
          · simp [hp] at h
    · intro prec s e s1 h
      rw [readE] at h
      cases ht : readT stringToReal f
          (if (nextToken s).1 = "-" then
            saveToken "0" (saveToken (nextToken s).1 (nextToken s).2)
          else saveToken (nextToken s).1 (nextToken s).2) with
      | ok r =>
        obtain ⟨exp, s4⟩ := r
        simp only [ht] at h
        exact ihL prec exp s4 e s1 h (ihT _ _ _ ht)
      | error m => simp [ht] at h
      | undef => simp [ht] at h
      | nofuel => simp [ht] at h
    · intro prec e0 s e s1 h h0
      rw [readELoop] at h
      by_cases hp : precedence (nextToken s).1 ≤ prec
      · simp only [hp, ↓reduceIte, Res.ok.injEq, Prod.mk.injEq] at h
        rw [← h.1]; exact h0
      · simp only [hp, ↓reduceIte] at h
        cases hr : readE stringToReal f (precedence (nextToken s).1) (nextToken s).2 with
        | ok r =>
          obtain ⟨rhs, s2⟩ := r
          simp only [hr] at h
          refine ihL _ _ _ _ _ h ?_
          have hop := precedence_pos _ _ hp
          have hrhs := ihE _ _ _ _ hr
          simp [Expression.arithmetic, hop, h0, hrhs]
        | error m => simp [hr] at h
        | undef => simp [hr] at h
        | nofuel => simp [hr] at h

theorem checkExtraneous_ok (s : Scanner) (stmt r : Statement)
    (h : checkExtraneous s stmt = .ok r) : r = stmt := by
  unfold checkExtraneous at h
  simp only at h
  split at h
  · cases h
  · cases h; rfl

theorem mkLetStmt_arithmetic (stringToReal : String → Res Rat) (fuel : Nat) (s : Scanner)
    (v : String) (e : Expression)
    (h : mkLetStmt stringToReal fuel s = .ok (.LetStmt v e)) : e.arithmetic = true := by
  unfold mkLetStmt at h
  simp only at h
  split at h
  · cases h
  · split at h
    · rename_i exp s1 hr
      have := checkExtraneous_ok _ _ _ h
      cases this
      exact (reads_arithmetic stringToReal fuel).2.1 _ _ _ _ hr
    · cases h
    · cases h
    · cases h

theorem mkPrintStmt_not_let (stringToReal : String → Res Rat) (fuel : Nat) (s : Scanner)
    (v : String) (e : Expression) :
    mkPrintStmt stringToReal fuel s ≠ .ok (.LetStmt v e) := by
  intro h
  unfold mkPrintStmt at h
  simp only at h
  split at h
  · split at h
    · have := checkExtraneous_ok _ _ _ h
      cases this
    · cases h
    · cases h
    · cases h
  · cases h
  · cases h
  · cases h

theorem mkIfStmt_not_let (stringToReal : String → Res Rat) (fuel : Nat) (s : Scanner)
    (v : String) (e : Expression) :
    mkIfStmt stringToReal fuel s ≠ .ok (.LetStmt v e) := by
  intro h
  unfold mkIfStmt at h
  split at h
  · simp only at h
    split at h
    · split at h
      · cases h
      · split at h
        · cases h
        · have := checkExtraneous_ok _ _ _ h
          cases this
    · cases h
    · cases h
    · cases h
  · cases h
  · cases h
  · cases h

theorem parseStatement_let_arithmetic (stringToReal : String → Res Rat) (fuel : Nat)
    (s : Scanner) (v : String) (e : Expression)
    (h : parseStatement stringToReal fuel s = .ok (.LetStmt v e)) :
    e.arithmetic = true := by
  unfold parseStatement at h
  simp only at h
  split at h
  · unfold mkRemStmt at h; cases h
  · split at h
    · exact mkLetStmt_arithmetic stringToReal fuel _ v e h
    · split at h
      · exact absurd h (mkPrintStmt_not_let stringToReal fuel _ v e)
      · split at h
        · unfold mkInputStmt at h
          simp only at h
          split at h
          · cases h
          · have := checkExtraneous_ok _ _ _ h
            cases this
        · split at h
          · unfold mkGotoStmt at h
            have := checkExtraneous_ok _ _ _ h
            cases this
          · split at h
            · exact absurd h (mkIfStmt_not_let stringToReal fuel _ v e)
            · split at h
              · unfold mkEndStmt at h
                have := checkExtraneous_ok _ _ _ h
                cases this
              · split at h
                · exact mkLetStmt_arithmetic stringToReal fuel _ v e h
                · cases h

/-! ### The LET statement -/

/-- C26: for every LET statement `v = e` that `parseStatement` returns and
every machine state: when `e` evaluates to `x`, executing the statement raises
no error and leaves the state with `v` bound to `x`, every other variable
bound as before and the `nextLine` register at 0 (fall through); when
evaluating `e` raises an error, executing the statement raises that error and
leaves the machine as it was. -/
theorem C26_let_binds (stringToReal : String → Res Rat) (fuel : Nat) (tokens : Scanner)
    (v : String) (e : Expression) (m : Machine)
    (hparse : parseStatement stringToReal fuel tokens = .ok (.LetStmt v e)) :
    (∀ x st1, eval e m.state = (.ok x, st1) →
      execute (.LetStmt v e) m
        = (.ok (), Machine.withNextLine { m with state := m.state.setValue v x } 0)
      ∧ (m.state.setValue v x).isDefined v = true
      ∧ (m.state.setValue v x).getValue v = x
      ∧ ∀ w, w ≠ v →
          (m.state.setValue v x).isDefined w = m.state.isDefined w
          ∧ (m.state.setValue v x).getValue w = m.state.getValue w)
    ∧ (∀ msg st1, eval e m.state = (.error msg, st1) →
        execute (.LetStmt v e) m = (.error msg, m)) := by
  have ha := parseStatement_let_arithmetic stringToReal fuel tokens v e hparse
  have hst := eval_arithmetic_state e m.state ha
  constructor
  · intro x st1 he
    rw [he] at hst
    simp only at hst
    subst hst
    refine ⟨?_, EvalState.isDefined_setValue_same _ _ _, EvalState.getValue_setValue_same _ _ _,
      fun w hw => ⟨EvalState.isDefined_setValue_other _ _ _ _ hw,
        EvalState.getValue_setValue_other _ _ _ _ hw⟩⟩
    simp [execute, he, Machine.setNextLine_NULL]
  · intro msg st1 he
    rw [he] at hst
    simp only at hst
    subst hst
    simp [execute, he]

theorem C26_let_binds_witness :
    (∀ x st1, eval (.CompoundExp "+" (.IdentifierExp "y") (.ConstantExp 1))
          (Machine.mk ⟨[("y", 2)], 0⟩ [] [] []).state = (.ok x, st1) →
      execute (.LetStmt "x" (.CompoundExp "+" (.IdentifierExp "y") (.ConstantExp 1)))
          (Machine.mk ⟨[("y", 2)], 0⟩ [] [] [])
        = (.ok (), Machine.withNextLine
            { Machine.mk ⟨[("y", 2)], 0⟩ [] [] [] with
              state := (Machine.mk ⟨[("y", 2)], 0⟩ [] [] []).state.setValue "x" x } 0)
      ∧ ((Machine.mk ⟨[("y", 2)], 0⟩ [] [] []).state.setValue "x" x).isDefined "x" = true
      ∧ ((Machine.mk ⟨[("y", 2)], 0⟩ [] [] []).state.setValue "x" x).getValue "x" = x
      ∧ ∀ w, w ≠ "x" →
          ((Machine.mk ⟨[("y", 2)], 0⟩ [] [] []).state.setValue "x" x).isDefined w
            = (Machine.mk ⟨[("y", 2)], 0⟩ [] [] []).state.isDefined w
          ∧ ((Machine.mk ⟨[("y", 2)], 0⟩ [] [] []).state.setValue "x" x).getValue w
            = (Machine.mk ⟨[("y", 2)], 0⟩ [] [] []).state.getValue w)
    ∧ (∀ msg st1, eval (.CompoundExp "+" (.IdentifierExp "y") (.ConstantExp 1))
          (Machine.mk ⟨[("y", 2)], 0⟩ [] [] []).state = (.error msg, st1) →
        execute (.LetStmt "x" (.CompoundExp "+" (.IdentifierExp "y") (.ConstantExp 1)))
          (Machine.mk ⟨[("y", 2)], 0⟩ [] [] [])
          = (.error msg, Machine.mk ⟨[("y", 2)], 0⟩ [] [] [])) :=
  C26_let_binds readDecimal 10 ["LET", "x", "=", "y", "+", "1"] "x"
    (.CompoundExp "+" (.IdentifierExp "y") (.ConstantExp 1))
    (Machine.mk ⟨[("y", 2)], 0⟩ [] [] []) (by decide)

/-! ### `clear` -/

theorem Program.clearLoop_chain : ∀ (B : List Line) (x : Line) (heap : List (Option Entry))
    (map : HashMap) (first : Int) (fuel : Nat),
    Chain heap none (x :: B) → ((x :: B).map Line.addr).Nodup →
    (∀ l ∈ x :: B, HashMap.find map l.num = some (some l.addr)) →
    0 < map.length → B.length < fuel →
    ∃ (heap2 : List (Option Entry)) (y : Line) (e : Entry),
      Program.clearLoop fuel ⟨heap, map, first⟩ x.num = .ok (⟨heap2, map, first⟩, y.num)
      ∧ HashMap.find map y.num = some (some y.addr)
      ∧ heap2[y.addr]? = some (some e) := by
  intro B
  induction B with
  | nil =>
    intro x heap map first fuel hc _ hfind hsize hfuel
    obtain ⟨f, rfl⟩ : ∃ f, fuel = f + 1 := ⟨fuel - 1, by omega⟩
    have hx := hfind x (by simp)
    have hcell := hc.1
    refine ⟨heap, x, _, ?_, hx, hcell⟩
    have hd : (Program.mk heap map first).deref ((Program.mk heap map first).entryAt x.num)
        = some ⟨x.num, x.text, x.stmt, none⟩ := by
      rw [Program.entryAt_of _ x.num x.addr hx]
      exact Program.read_of _ x.addr _ hcell
    rw [Program.clearLoop]
    simp [HashMap.size, hsize, hd]
  | cons b B2 ih =>
    intro x heap map first fuel hc hnd hfind hsize hfuel
    obtain ⟨f, rfl⟩ : ∃ f, fuel = f + 1 := ⟨fuel - 1, by omega⟩
    have hx := hfind x (by simp)
    have hcell := hc.1
    have hb := hc.2.1
    have hd : (Program.mk heap map first).deref ((Program.mk heap map first).entryAt x.num)
        = some ⟨x.num, x.text, x.stmt, some b.addr⟩ := by
      rw [Program.entryAt_of _ x.num x.addr hx]
      exact Program.read_of _ x.addr _ hcell
    have hrb : (Program.mk heap map first).read b.addr
        = some ⟨b.num, b.text, b.stmt, headAddr none B2⟩ :=
      Program.read_of _ b.addr _ hb
    have hnd2 : ((b :: B2).map Line.addr).Nodup := by
      simp only [List.map_cons, List.nodup_cons] at hnd ⊢
      exact hnd.2
    have hxne : ∀ l ∈ b :: B2, l.addr ≠ x.addr := by
      intro l hl e
      simp only [List.map_cons, List.nodup_cons, List.mem_cons, List.mem_map] at hnd
      apply hnd.1
      rcases List.mem_cons.mp hl with h | h
      · left; rw [← h, e]
      · right; exact ⟨l, h, e⟩
    have hc2 : Chain (heap.set x.addr none) none (b :: B2) := by
      refine Chain.frame hc.2 ?_
      intro l hl
      rw [List.getElem?_set_ne (Ne.symm (hxne l hl))]
    obtain ⟨heap2, y, e, hloop, hy, hlive⟩ := ih b (heap.set x.addr none) map first f hc2 hnd2
      (fun l hl => hfind l (List.mem_cons_of_mem _ hl)) hsize
      (by simp only [List.length_cons] at hfuel; omega)
    refine ⟨heap2, y, e, ?_, hy, hlive⟩
    have hea : (Program.mk heap map first).entryAt x.num = some x.addr :=
      Program.entryAt_of _ x.num x.addr hx
    have hd2 : (Program.mk heap map first).deref (some x.addr)
        = some ⟨x.num, x.text, x.stmt, some b.addr⟩ := by
      rw [← hea]; exact hd
    rw [Program.clearLoop]
    simp only [HashMap.size, hsize, ↓reduceIte, hea, hd2, hrb]
    exact hloop

theorem Represents.clear {p : Program} {L : List Line} (R : Represents p L) (fuel : Nat)
    (hfuel : L.length < fuel) :
    ∃ heap2, p.clear fuel = .ok ⟨heap2, [], -1⟩ := by
  obtain ⟨f, rfl⟩ : ∃ f, fuel = f + 1 := ⟨fuel - 1, by omega⟩
  cases L with
  | nil =>
    have hsz : p.map = [] := by
      have := R.size
      simpa using this
    refine ⟨p.heap, ?_⟩
    unfold Program.clear
    rw [Program.clearLoop]
    simp [HashMap.size, hsz, Program.entryAt, HashMap.find]
  | cons x B =>
    have hsize : 0 < p.map.length := by
      rw [R.size]; simp
    have hfirst := R.first x B rfl
    obtain ⟨heap2, y, e, hloop, hy, hlive⟩ :=
      Program.clearLoop_chain B x p.heap p.map p.firstLineNum (f + 1) R.chain R.addrs R.find
        hsize (by simp only [List.length_cons] at hfuel; omega)
    refine ⟨heap2.set y.addr none, ?_⟩
    unfold Program.clear
    rw [hfirst]
    have hp : p = ⟨p.heap, p.map, p.firstLineNum⟩ := rfl
    rw [hp, hloop]
    have h1 : (Program.mk heap2 p.map p.firstLineNum).entryAt y.num = some y.addr :=
      Program.entryAt_of _ y.num y.addr hy
    have h2 : (Program.mk heap2 p.map p.firstLineNum).read y.addr = some e :=
      Program.read_of _ y.addr e hlive
    simp only [h1, h2]

theorem Represents.of_empty_map (heap : List (Option Entry)) :
    Represents ⟨heap, [], -1⟩ [] :=
  ⟨trivial, List.Pairwise.nil, by simp, List.nodup_nil, List.nodup_nil, by simp,
    by simp [HashMap.containsKey], rfl, by simp⟩

/-- C29 (as written, refuted): after CLEAR on a session in which `x` is bound to
1, the store is empty but `x` is still defined, with its value. -/
theorem C29_clear_keeps_bindings :
    (processCommand 10 0 .CLEAR jumpProgram
        { startMachine with state := { symbolTable := [("x", 1)], nextLine := 0 } }).1
      = .ok ()
    ∧ (processCommand 10 0 .CLEAR jumpProgram
        { startMachine with state := { symbolTable := [("x", 1)], nextLine := 0 } }
        ).2.1.getFirstLineNumber = -1
    ∧ (processCommand 10 0 .CLEAR jumpProgram
        { startMachine with state := { symbolTable := [("x", 1)], nextLine := 0 } }
        ).2.2.state.isDefined "x" = true
    ∧ (processCommand 10 0 .CLEAR jumpProgram
        { startMachine with state := { symbolTable := [("x", 1)], nextLine := 0 } }
        ).2.2.state.getValue "x" = 1 := by
  decide

/-- C29 (amended): the CLEAR command empties the store and leaves the
evaluation state alone. For every store that holds a list of lines, whatever
they are, and every machine, the command returns normally; afterwards the map
is empty, `getFirstLineNumber` returns -1, the store is well formed, and the
machine, with every binding, is exactly as before. -/
theorem C29_clear_empties_store (p : Program) (m : Machine) (fuel clicks : Nat)
    (hrep : ∃ L, Represents p L) (hfuel : HashMap.size p.map < fuel) :
    (processCommand fuel clicks .CLEAR p m).1 = .ok ()
    ∧ (processCommand fuel clicks .CLEAR p m).2.1.map = []
    ∧ (processCommand fuel clicks .CLEAR p m).2.1.getFirstLineNumber = -1
    ∧ (processCommand fuel clicks .CLEAR p m).2.1.WellFormed
    ∧ (processCommand fuel clicks .CLEAR p m).2.2 = m := by
  obtain ⟨L, R⟩ := hrep
  obtain ⟨heap2, h⟩ := R.clear fuel (by rw [← R.size]; exact hfuel)
  have hpc : processCommand fuel clicks .CLEAR p m = (.ok (), ⟨heap2, [], -1⟩, m) := by
    simp only [processCommand, h]
  rw [hpc]
  exact ⟨rfl, rfl, by simp [Program.getFirstLineNumber, HashMap.isEmpty],
    ⟨[], Represents.of_empty_map heap2, fun _ => rfl⟩, rfl⟩

theorem C29_clear_empties_store_witness :
    (processCommand 4 0 .CLEAR exampleStore startMachine).1 = .ok ()
    ∧ (processCommand 4 0 .CLEAR exampleStore startMachine).2.1.map = []
    ∧ (processCommand 4 0 .CLEAR exampleStore startMachine).2.1.getFirstLineNumber = -1
    ∧ (processCommand 4 0 .CLEAR exampleStore startMachine).2.1.WellFormed
    ∧ (processCommand 4 0 .CLEAR exampleStore startMachine).2.2 = startMachine :=
  C29_clear_empties_store exampleStore startMachine 4 0
    (exampleStore_wellFormed.imp (fun _ h => h.1)) (by decide)

/-! ### Two runs in one session -/

theorem execute_print_variable (x : String) (m : Machine)
    (h : m.state.isDefined x = true) :
    execute (.PrintStmt "" [.IdentifierExp x]) m
      = (.ok (), Machine.withNextLine
          { m with output := m.output ++ [.str "", .real (m.state.getValue x), .str " ", .endl] }
          0) := by
  simp [execute, printExps, eval, h, Machine.setNextLine_NULL, Machine.withNextLine]

/-- C30 (as written, refuted): in one session, RUN of the program 10 LET x = 1,
then the line 10 PRINT x entered in its place, then RUN again: the second run
raises no error and prints 1, the value that the first run gave to `x`. -/
theorem C30_second_run_sees_binding :
    processCommand 10 0 .RUN bindProgram startMachine
      = (.ok (), bindProgram,
         { state := { symbolTable := [("x", 1)], nextLine := 0 },
           input := [],
           output := [.endl],
           visited := [10] })
    ∧ (enterLines 10 [(10, "10 PRINT x", ["PRINT", "x"])] bindProgram).traversal 5
        = .ok [10]
    ∧ (processCommand 10 0 .RUN
        (enterLines 10 [(10, "10 PRINT x", ["PRINT", "x"])] bindProgram)
        { state := { symbolTable := [("x", 1)], nextLine := 0 },
          input := [],
          output := [.endl],
          visited := [10] }).1 = .ok ()
    ∧ (processCommand 10 0 .RUN
        (enterLines 10 [(10, "10 PRINT x", ["PRINT", "x"])] bindProgram)
        { state := { symbolTable := [("x", 1)], nextLine := 0 },
          input := [],
          output := [.endl],
          visited := [10] }).2.2.output
        = [.endl, .str "", .real 1, .str " ", .endl, .endl] := by
  decide

/-- C30 (amended): the evaluation state is not reset between runs: RUN executes
the program in the state the session is in. When a variable `x` is bound in the
machine `m1` that one RUN leaves, a following RUN of a program that consists of
the line `PRINT x` raises no error and prints the value `x` has in `m1`; the
symbol table stays as the first run left it. -/
theorem C30_bindings_survive_between_runs (fuel fuel2 clicks : Nat) (p p2 : Program)
    (m m1 : Machine) (x : String) (k : Int)
    (hrun : (processCommand fuel clicks .RUN p m).2.2 = m1)
    (hbound : m1.state.isDefined x = true)
    (hfirst : p2.getFirstLineNumber = k) (hk : k ≠ -1)
    (hstmt : p2.getParsedStatement k = .ok (some (.PrintStmt "" [.IdentifierExp x])))
    (hlast : p2.getNextLineNumber k = .ok (-1)) :
    processCommand (fuel2 + 1) clicks .RUN p2 (processCommand fuel clicks .RUN p m).2.2
      = (.ok (), p2,
         { state := { symbolTable := m1.state.symbolTable, nextLine := 0 },
           input := m1.input,
           output := m1.output
             ++ [.str "", .real (m1.state.getValue x), .str " ", .endl, .endl],
           visited := m1.visited ++ [k] }) := by
  rw [hrun]
  have he := execute_print_variable x { m1 with visited := m1.visited ++ [k] } hbound
  have hstep : runStep p2 k m1
      = (.ok (-1), Machine.withNextLine
          { m1 with
            output := m1.output ++ [.str "", .real (m1.state.getValue x), .str " ", .endl],
            visited := m1.visited ++ [k] } 0) := by
    rw [runStep_fetch p2 k m1 _ hstmt, he]
    simp [nextIndex, EvalState.getNextLine, Machine.withNextLine, hlast]
  have hloop := runLoop_step p2 fuel2 k (-1) m1 _ hk hstep
  rw [runLoop_halt] at hloop
  simp [processCommand, run, hfirst, hloop, Machine.withNextLine]

theorem C30_bindings_survive_between_runs_witness :
    processCommand (3 + 1) 0 .RUN printProgram
        (processCommand 5 0 .RUN bindProgram startMachine).2.2
      = (.ok (), printProgram,
         { state := { symbolTable := [("x", 1)], nextLine := 0 },
           input := [],
           output := [.endl, .str "", .real 1, .str " ", .endl, .endl],
           visited := [10, 10] }) :=
  C30_bindings_survive_between_runs 5 3 0 bindProgram printProgram startMachine
    { state := { symbolTable := [("x", 1)], nextLine := 0 },
      input := [],
      output := [.endl],
      visited := [10] } "x" 10
    (by decide) (by decide) (by decide) (by decide) (by decide) (by decide)

/-! ### Removing a line that is not stored -/

/-- C31: `removeSourceLine(n)` for a number `n` that is not a key of the map
returns normally and leaves the store exactly as it was, so the stored line
numbers, texts, statements, the first line and the traversal are unchanged;
the same holds when the call is made by `processCode` for a line that consists
of the number alone. -/
theorem C31_remove_absent_line (p : Program) (n : Int)
    (habsent : HashMap.containsKey p.map n = false) :
    p.removeSourceLine n = .ok p
    ∧ (∀ (stringToReal : String → Res Rat) (fuel : Nat) (line : String),
        processCode stringToReal fuel n line [] p = (.ok (), p)) := by
  have h : p.removeSourceLine n = .ok p := by
    simp [Program.removeSourceLine, habsent]
  refine ⟨h, ?_⟩
  intro stringToReal fuel line
  have h0 : (hasMoreTokens ([] : Scanner)).1 = false := by decide
  simp [processCode, h0, h]

theorem C31_remove_absent_line_witness :
    exampleStore.removeSourceLine 15 = .ok exampleStore
    ∧ (∀ (stringToReal : String → Res Rat) (fuel : Nat) (line : String),
        processCode stringToReal fuel 15 line [] exampleStore = (.ok (), exampleStore)) :=
  C31_remove_absent_line exampleStore 15 (by decide)

/-! ### Order of evaluation -/

/-- C32: a compound node with operator `+`, `-`, `*` or `/` evaluates its left
operand, then its right operand in the state the left one leaves, and returns
the result of the operator on the two values (for `/` with a divisor other
than 0, where rationals and doubles part). So `(x = 1) + x` evaluates to 2 in a
state without `x`, and `x + (x = 1)` raises "x is undefined" there. -/
theorem C32_left_operand_first (op : String) (lhs rhs : Expression)
    (st st1 st2 : EvalState) (a b : Rat)
    (hop : op = "+" ∨ op = "-" ∨ op = "*" ∨ op = "/")
    (hl : eval lhs st = (.ok a, st1)) (hr : eval rhs st1 = (.ok b, st2))
    (_hdiv : op = "/" → b ≠ 0) :
    eval (.CompoundExp op lhs rhs) st
      = (.ok (if op = "+" then a + b else if op = "-" then a - b
              else if op = "*" then a * b else a / b), st2)
    ∧ eval (.CompoundExp "+"
          (.CompoundExp "=" (.IdentifierExp "x") (.ConstantExp 1)) (.IdentifierExp "x"))
        emptyState
        = (.ok 2, { symbolTable := [("x", 1)], nextLine := 0 })
    ∧ eval (.CompoundExp "+" (.IdentifierExp "x")
          (.CompoundExp "=" (.IdentifierExp "x") (.ConstantExp 1)))
        emptyState
        = (.error "x is undefined", emptyState) := by
  refine ⟨?_, ?_, by decide⟩
  · have hne : op ≠ "=" := by
      rcases hop with h | h | h | h <;> rw [h] <;> decide
    unfold eval
    simp only [hne, ↓reduceIte, hl, hr]
    rcases hop with h | h | h | h <;> subst h <;> simp
  · have h1 : eval (.CompoundExp "=" (.IdentifierExp "x") (.ConstantExp 1)) emptyState
        = (.ok 1, { symbolTable := [("x", 1)], nextLine := 0 }) := by decide
    have h2 : eval (.IdentifierExp "x") { symbolTable := [("x", 1)], nextLine := 0 }
        = (.ok 1, { symbolTable := [("x", 1)], nextLine := 0 }) := by decide
    have hne : ¬ (("+" : String) = "=") := by decide
    unfold eval
    simp only [hne, ↓reduceIte, h1, h2]
    norm_num

theorem C32_left_operand_first_witness :
    eval (.CompoundExp "*" (.IdentifierExp "y") (.ConstantExp 3))
        { symbolTable := [("y", 2)], nextLine := 0 }
      = (.ok (if ("*" : String) = "+" then (2 : Rat) + 3
              else if ("*" : String) = "-" then (2 : Rat) - 3
              else if ("*" : String) = "*" then (2 : Rat) * 3 else (2 : Rat) / 3),
         { symbolTable := [("y", 2)], nextLine := 0 })
    ∧ eval (.CompoundExp "+"
          (.CompoundExp "=" (.IdentifierExp "x") (.ConstantExp 1)) (.IdentifierExp "x"))
        emptyState
        = (.ok 2, { symbolTable := [("x", 1)], nextLine := 0 })
    ∧ eval (.CompoundExp "+" (.IdentifierExp "x")
          (.CompoundExp "=" (.IdentifierExp "x") (.ConstantExp 1)))
        emptyState
        = (.error "x is undefined", emptyState) :=
  C32_left_operand_first "*" (.IdentifierExp "y") (.ConstantExp 3)
    { symbolTable := [("y", 2)], nextLine := 0 } { symbolTable := [("y", 2)], nextLine := 0 }
    { symbolTable := [("y", 2)], nextLine := 0 } 2 3 (Or.inr (Or.inr (Or.inl rfl)))
    (by decide) (by decide) (by decide)

/-! ### The parser builds no assignment, stated for the reader -/

/-- C38: every tree that `readE` returns, for any token list, fuel and
threshold, has only constants, identifiers and compound nodes with an operator
among `+ - * /`; evaluating it in any state leaves the state, and with it
the symbol table, unchanged. -/
theorem C38_parser_builds_no_assignment (stringToReal : String → Res Rat) (fuel prec : Nat)
    (s s1 : Scanner) (e : Expression)
    (hread : readE stringToReal fuel prec s = .ok (e, s1)) :
    e.arithmetic = true
    ∧ ∀ st : EvalState, (eval e st).2 = st
        ∧ (eval e st).2.symbolTable = st.symbolTable := by
  have ha := (reads_arithmetic stringToReal fuel).2.1 prec s e s1 hread
  refine ⟨ha, fun st => ?_⟩
  have := eval_arithmetic_state e st ha
  exact ⟨this, by rw [this]⟩

theorem C38_parser_builds_no_assignment_witness :
    (Expression.CompoundExp "+" (.IdentifierExp "x")
        (.CompoundExp "*" (.ConstantExp 2) (.IdentifierExp "y"))).arithmetic = true
    ∧ ∀ st : EvalState,
        (eval (.CompoundExp "+" (.IdentifierExp "x")
          (.CompoundExp "*" (.ConstantExp 2) (.IdentifierExp "y"))) st).2 = st
        ∧ (eval (.CompoundExp "+" (.IdentifierExp "x")
          (.CompoundExp "*" (.ConstantExp 2) (.IdentifierExp "y"))) st).2.symbolTable
            = st.symbolTable :=
  C38_parser_builds_no_assignment readDecimal 10 0 ["x", "+", "2", "*", "y"] [""]
    (.CompoundExp "+" (.IdentifierExp "x")
      (.CompoundExp "*" (.ConstantExp 2) (.IdentifierExp "y"))) (by decide)

/-! ### The parts of an IF statement -/

theorem mkIfStmt_parts (stringToReal : String → Res Rat) (fuel : Nat) (s : Scanner)
    (stmt : Statement) (h : mkIfStmt stringToReal fuel s = .ok stmt) :
    ∃ expL s1 expR s2,
      readE stringToReal fuel 0 s = .ok (expL, s1)
      ∧ readE stringToReal fuel 0 (nextToken s1).2 = .ok (expR, s2)
      ∧ ((nextToken s2).1 = "THEN" ∨ (nextToken s2).1 = "then")
      ∧ getTokenType (nextToken (nextToken s2).2).1 = .NUMBER
      ∧ (hasMoreTokens (nextToken (nextToken s2).2).2).1 = false
      ∧ stmt = .IfStmt expL (nextToken s1).1 expR (nextToken (nextToken s2).2).1 := by
  unfold mkIfStmt at h
  split at h
  · rename_i expL s1 hL
    simp only at h
    split at h
    · rename_i expR s2 hR
      split at h
      · cases h
      · rename_i ht
        split at h
        · cases h
        · rename_i hn
          refine ⟨expL, s1, expR, s2, hL, hR, ?_, ?_, ?_, ?_⟩
          · by_contra hc
            apply ht
            constructor
            · intro e; exact hc (Or.inl e)
            · intro e; exact hc (Or.inr e)
          · by_contra hc
            exact hn hc
          · unfold checkExtraneous at h
            simp only at h
            split at h
            · cases h
            · rename_i hh
              simpa using hh
          · exact (checkExtraneous_ok _ _ _ h)
    · cases h
    · cases h
    · cases h
  · cases h
  · cases h
  · cases h

theorem mkLetStmt_not_if (stringToReal : String → Res Rat) (fuel : Nat) (s : Scanner)
    (l r : Expression) (op next : String) :
    mkLetStmt stringToReal fuel s ≠ .ok (.IfStmt l op r next) := by
  intro h
  unfold mkLetStmt at h
  simp only at h
  split at h
  · cases h
  · split at h
    · have := checkExtraneous_ok _ _ _ h
      cases this
    · cases h
    · cases h
    · cases h

theorem mkPrintStmt_not_if (stringToReal : String → Res Rat) (fuel : Nat) (s : Scanner)
    (l r : Expression) (op next : String) :
    mkPrintStmt stringToReal fuel s ≠ .ok (.IfStmt l op r next) := by
  intro h
  unfold mkPrintStmt at h
  simp only at h
  split at h
  · split at h
    · have := checkExtraneous_ok _ _ _ h
      cases this
    · cases h
    · cases h
    · cases h
  · cases h
  · cases h
  · cases h

theorem parseStatement_if_target (stringToReal : String → Res Rat) (fuel : Nat)
    (s : Scanner) (l r : Expression) (op next : String)
    (h : parseStatement stringToReal fuel s = .ok (.IfStmt l op r next)) :
    getTokenType next = .NUMBER := by
  unfold parseStatement at h
  simp only at h
  split at h
  · unfold mkRemStmt at h; cases h
  · split at h
    · exact absurd h (mkLetStmt_not_if stringToReal fuel _ l r op next)
    · split at h
      · exact absurd h (mkPrintStmt_not_if stringToReal fuel _ l r op next)
      · split at h
        · unfold mkInputStmt at h
          simp only at h
          split at h
          · cases h
          · have := checkExtraneous_ok _ _ _ h
            cases this
        · split at h
          · unfold mkGotoStmt at h
            have := checkExtraneous_ok _ _ _ h
            cases this
          · split at h
            · obtain ⟨expL, s1, expR, s2, _, _, _, hn, _, e⟩ :=
                mkIfStmt_parts stringToReal fuel _ _ h
              cases e
              exact hn
            · split at h
              · unfold mkEndStmt at h
                have := checkExtraneous_ok _ _ _ h
                cases this
              · split at h
                · exact absurd h (mkLetStmt_not_if stringToReal fuel _ l r op next)
                · cases h

/-- C36: when `IF` followed by the tokens `s` is parsed into a statement, the two
expressions have been read, the token after the second expression is `THEN`
(or `then`), the token after it classifies as a number and is the last token
of the line, and it is the target the statement carries; every IF statement
that `parseStatement` returns, for any token list, has a target that
classifies as a number. The lines `IF x > 3 THEN abc`, `IF x > 3 THEN` and
`IF x > 3 40` are rejected with an error. -/
theorem C36_if_needs_then_and_number (stringToReal : String → Res Rat) (fuel : Nat)
    (s : Scanner) (stmt : Statement)
    (hparse : parseStatement stringToReal fuel ("IF" :: s) = .ok stmt) :
    (∃ expL s1 expR s2,
      readE stringToReal fuel 0 s = .ok (expL, s1)
      ∧ readE stringToReal fuel 0 (nextToken s1).2 = .ok (expR, s2)
      ∧ ((nextToken s2).1 = "THEN" ∨ (nextToken s2).1 = "then")
      ∧ getTokenType (nextToken (nextToken s2).2).1 = .NUMBER
      ∧ (hasMoreTokens (nextToken (nextToken s2).2).2).1 = false
      ∧ stmt = .IfStmt expL (nextToken s1).1 expR (nextToken (nextToken s2).2).1)
    ∧ (∀ (tokens : Scanner) (f : Nat) (l r : Expression) (op next : String),
        parseStatement stringToReal f tokens = .ok (.IfStmt l op r next) →
        getTokenType next = .NUMBER)
    ∧ parseStatement readDecimal 10 ["IF", "x", ">", "3", "THEN", "abc"]
        = .error "Condition result needs to be an integer line number"
    ∧ parseStatement readDecimal 10 ["IF", "x", ">", "3", "THEN"]
        = .error "Condition result needs to be an integer line number"
    ∧ parseStatement readDecimal 10 ["IF", "x", ">", "3", "40"]
        = .error "Incorrect command format." := by
  refine ⟨?_, ?_, by decide, by decide, by decide⟩
  · have h0 : nextToken ("IF" :: s) = ("IF", s) := rfl
    have h : mkIfStmt stringToReal fuel s = .ok stmt := by
      have := hparse
      simp [parseStatement, h0] at this
      exact this
    exact mkIfStmt_parts stringToReal fuel s stmt h
  · intro tokens f l r op next h
    exact parseStatement_if_target stringToReal f tokens l r op next h

theorem C36_if_needs_then_and_number_witness :
    (∃ expL s1 expR s2,
      readE readDecimal 10 0 ["x", ">", "3", "then", "40"] = .ok (expL, s1)
      ∧ readE readDecimal 10 0 (nextToken s1).2 = .ok (expR, s2)
      ∧ ((nextToken s2).1 = "THEN" ∨ (nextToken s2).1 = "then")
      ∧ getTokenType (nextToken (nextToken s2).2).1 = .NUMBER
      ∧ (hasMoreTokens (nextToken (nextToken s2).2).2).1 = false
      ∧ Statement.IfStmt (.IdentifierExp "x") ">" (.ConstantExp 3) "40"
          = .IfStmt expL (nextToken s1).1 expR (nextToken (nextToken s2).2).1)
    ∧ (∀ (tokens : Scanner) (f : Nat) (l r : Expression) (op next : String),
        parseStatement readDecimal f tokens = .ok (.IfStmt l op r next) →
        getTokenType next = .NUMBER)
    ∧ parseStatement readDecimal 10 ["IF", "x", ">", "3", "THEN", "abc"]
        = .error "Condition result needs to be an integer line number"
    ∧ parseStatement readDecimal 10 ["IF", "x", ">", "3", "THEN"]
        = .error "Condition result needs to be an integer line number"
    ∧ parseStatement readDecimal 10 ["IF", "x", ">", "3", "40"]
        = .error "Incorrect command format." :=
  C36_if_needs_then_and_number readDecimal 10 ["x", ">", "3", "then", "40"]
    (.IfStmt (.IdentifierExp "x") ">" (.ConstantExp 3) "40") (by decide)

/-! ### The target of a LET statement -/

/-- C37 (evaluation at the failing input): the line `LET 5 = 3` is parsed
without an error into a LET statement whose target is the number token `5`;
executing it binds the name "5". The constructor of INPUT, by contrast, rejects
`INPUT 5`. -/
theorem C37_let_number_target_accepted :
    parseStatement readDecimal 10 ["LET", "5", "=", "3"]
      = .ok (.LetStmt "5" (.ConstantExp 3))
    ∧ getTokenType "5" = .NUMBER
    ∧ execute (.LetStmt "5" (.ConstantExp 3)) startMachine
        = (.ok (), { state := { symbolTable := [("5", 3)], nextLine := 0 },
                     input := [], output := [], visited := [] })
    ∧ parseStatement readDecimal 10 ["INPUT", "5"] = .error "Only letters allowed." := by
  decide

/-! ### A PRINT statement without closing quote mark -/

theorem commentLoop_exhausted (fuel : Nat) :
    ∀ comment : String, commentLoop fuel "" [] comment = .nofuel := by
  induction fuel with
  | zero => intro comment; rfl
  | succ f ih =>
    intro comment
    rw [commentLoop]
    have h : ("" : String) ≠ "\"" := by decide
    simp only [h, ne_eq, not_false_eq_true, ↓reduceIte, nextToken]
    exact ih _

/-- C39 (evaluation at the failing input): on the tokens `PRINT " abc`, with no
closing quote mark, `parseStatement` returns nothing, however many steps it is
given: the loop of `testInitComment` reads the empty token of the exhausted
scanner for ever. -/
theorem C39_unclosed_quote_never_returns (fuel : Nat) :
    parseStatement readDecimal fuel ["PRINT", "\"", "abc"] = .nofuel := by
  have h0 : nextToken ["PRINT", "\"", "abc"] = ("PRINT", ["\"", "abc"]) := rfl
  have h1 : nextToken ["\"", "abc"] = ("\"", ["abc"]) := rfl
  have h2 : nextToken ["abc"] = ("abc", []) := rfl
  have hk : ¬ (("PRINT" : String) = "REM" ∨ ("PRINT" : String) = "rem") := by decide
  have hk2 : ¬ (("PRINT" : String) = "LET" ∨ ("PRINT" : String) = "let") := by decide
  have hloop : commentLoop fuel "abc" [] "" = .nofuel := by
    cases fuel with
    | zero => rfl
    | succ f =>
      rw [commentLoop]
      have h : ("abc" : String) ≠ "\"" := by decide
      simp only [h, ne_eq, not_false_eq_true, ↓reduceIte, nextToken]
      exact commentLoop_exhausted f _
  simp [parseStatement, h0, hk, hk2, mkPrintStmt, h1, testInitComment, h2, hloop]

/-! ### A removed line left as a key -/

/-- C40 (evaluation at the failing input): after line 10 is added to a new
`Program` and removed, and line 5 is added, the number 10 is a key of the map
again and is not the first line; `removeSourceLine(10)` enters `removeEntry`,
whose loop ends without assigning `lastIndex`, and the index is read
unassigned. -/
theorem C40_lastIndex_read_unassigned :
    ((Program.new.addSourceLine 10 "10 END").bind (fun p =>
      (p.removeSourceLine 10).bind (fun q =>
        (q.addSourceLine 5 "5 END").bind (fun r =>
          .ok (HashMap.containsKey r.map 10, r.getFirstLineNumber, r.traversal 5)))))
      = .ok (true, 5, .ok [5])
    ∧ ((Program.new.addSourceLine 10 "10 END").bind (fun p =>
        (p.removeSourceLine 10).bind (fun q =>
          (q.addSourceLine 5 "5 END").bind (fun r => r.removeLoop 10 10 none))))
        = .ok none
    ∧ ((Program.new.addSourceLine 10 "10 END").bind (fun p =>
        (p.removeSourceLine 10).bind (fun q =>
          (q.addSourceLine 5 "5 END").bind (fun r => r.removeSourceLine 10))))
        = .undef := by
  decide

/-! ### What a PRINT statement writes -/

theorem printExps_values (vec : List Expression) :
    ∀ (m : Machine) (vals : List Rat) (st1 : EvalState),
      evalAll vec m.state = (.ok vals, st1) →
      printExps vec m
        = (.ok (), { m with state := st1, output := m.output ++ printed vals }) := by
  induction vec with
  | nil =>
    intro m vals st1 h
    simp only [evalAll, Prod.mk.injEq, Res.ok.injEq] at h
    obtain ⟨h1, h2⟩ := h
    subst h1
    subst h2
    simp [printExps, printed]
  | cons exp rest ih =>
    intro m vals st1 h
    unfold evalAll at h
    unfold printExps
    rcases he : eval exp m.state with ⟨r, st2⟩
    rw [he] at h
    cases r with
    | ok v =>
      simp only at h ⊢
      rcases hr : evalAll rest st2 with ⟨r2, st3⟩
      rw [hr] at h
      cases r2 with
      | ok vs =>
        simp only [Prod.mk.injEq, Res.ok.injEq] at h
        obtain ⟨h1, h2⟩ := h
        subst h1
        subst h2
        have := ih { m with state := st2, output := m.output ++ [.real v, .str " "] } vs st3 hr
        rw [this]
        simp [printed]
      | error msg => simp at h
      | undef => simp at h
      | nofuel => simp at h
    | error msg => simp at h
    | undef => simp at h
    | nofuel => simp at h

/-- C35 (as written, refuted): the line `PRINT "a", x` is parsed into a statement
with the literal `a ` and the list `[x]`; executed with `x` bound to 1 it writes
the literal and then the value of `x`. -/
theorem C35_literal_and_list_both_printed :
    parseStatement readDecimal 10 ["PRINT", "\"", "a", "\"", ",", "x"]
      = .ok (.PrintStmt "a " [.IdentifierExp "x"])
    ∧ execute (.PrintStmt "a " [.IdentifierExp "x"])
        { state := { symbolTable := [("x", 1)], nextLine := 0 },
          input := [], output := [], visited := [] }
      = (.ok (), { state := { symbolTable := [("x", 1)], nextLine := 0 },
                   input := [],
                   output := [.str "a ", .real 1, .str " ", .endl],
                   visited := [] }) := by
  decide

/-- C35 (amended): executing a PRINT statement writes its string literal (the
empty string when none is set), then evaluates the list expressions in list
order, each in the state left by the one before, and writes each value followed
by a blank, then a line feed; literal and list are not exclusive. When every
list expression has a value, the statement raises no error and sets the
`nextLine` register to 0. -/
theorem C35_print_writes_literal_then_list (comment : String) (vec : List Expression)
    (m : Machine) (vals : List Rat) (st1 : EvalState)
    (hvals : evalAll vec m.state = (.ok vals, st1)) :
    execute (.PrintStmt comment vec) m
      = (.ok (),
         { state := { symbolTable := st1.symbolTable, nextLine := 0 },
           input := m.input,
           output := m.output ++ [.str comment] ++ printed vals ++ [.endl],
           visited := m.visited }) := by
  have h := printExps_values vec { m with output := m.output ++ [.str comment] } vals st1 hvals
  simp [execute, h, Machine.setNextLine_NULL, Machine.withNextLine]

theorem C35_print_writes_literal_then_list_witness :
    execute (.PrintStmt "a " [.IdentifierExp "x", .ConstantExp 7])
        { state := { symbolTable := [("x", 1)], nextLine := 5 },
          input := [], output := [.endl], visited := [10] }
      = (.ok (),
         { state := { symbolTable := [("x", 1)], nextLine := 0 },
           input := [],
           output := [.endl] ++ [.str "a "] ++ printed [1, 7] ++ [.endl],
           visited := [10] }) :=
  C35_print_writes_literal_then_list "a " [.IdentifierExp "x", .ConstantExp 7]
    { state := { symbolTable := [("x", 1)], nextLine := 5 },
      input := [], output := [.endl], visited := [10] }
    [1, 7] { symbolTable := [("x", 1)], nextLine := 5 } (by decide)

/-! ### The `nextLine` register before a statement -/

theorem Machine.withNextLine_withNextLine (m : Machine) (a b : Int) :
    (m.withNextLine a).withNextLine b = m.withNextLine b := rfl

theorem Machine.setNextLine_ok (m m1 : Machine) (lineNum : String)
    (h : m.setNextLine lineNum = (.ok (), m1)) :
    (lineNum = "NULL" ∧ m1.state.nextLine = 0)
    ∨ (stringToInteger lineNum = .ok m1.state.nextLine) := by
  unfold Machine.setNextLine EvalState.setNextLine at h
  by_cases hn : lineNum = "NULL"
  · left
    simp only [hn, ne_eq, not_true_eq_false, ↓reduceIte, Prod.mk.injEq, true_and] at h
    rw [← h]
    exact ⟨hn, rfl⟩
  · right
    simp only [ne_eq, hn, not_false_eq_true, ↓reduceIte] at h
    cases hs : stringToInteger lineNum with
    | ok k =>
      simp only [hs, Res.bind, Prod.mk.injEq, true_and] at h
      rw [← h]
    | error msg => simp [hs, Res.bind] at h
    | undef => simp [hs, Res.bind] at h
    | nofuel => simp [hs, Res.bind] at h

theorem onceProgram_entered :
    enterLines 10
      [(10, "10 GOTO 30", ["GOTO", "30"]),
       (20, "20 PRINT 0", ["PRINT", "0"]),
       (30, "30 PRINT 1", ["PRINT", "1"]),
       (40, "40 PRINT 2", ["PRINT", "2"])] Program.new = onceProgram := by
  decide

end Basic
